import Mathlib

/-!
Verification development for the jlcrs format-conversion core.

The Rust sources are shallowly embedded:

* `src/kicad/syntax.rs` — S-expression tokenizer (`KiCadParser::tokenize`),
  node parser (`KiCadParser::parse_syntax_item`) and pretty printer
  (`KiCadParser::stringify_tokens`).
* `src/kicad/model/footprint_library.rs` — the `PcbLayer` enum and the
  layer-list serializer/deserializer.
* `src/easyeda/footprint.rs` — the footprint translator: path-expression
  decoder, arc-midpoint reconstruction, pad and mechanical-fill translation.
* `src/easyeda/symbol.rs` — the multi-unit symbol assembly logic.

Conventions: Rust `String`s are modelled as `List Char` (Rust iterates over
`chars()`); Rust `f32` coordinate arithmetic is modelled exactly over `ℚ`
(and over `ℝ` for the trigonometric arc reconstruction); the `f32` text
round-trip used by the tokenizer (`str::parse::<f32>` / `format!` display)
is kept abstract as a `FloatModel`, with the properties the proofs need
stated as explicit hypotheses.  Functions that can `panic!` / `unwrap` /
`assert!` in Rust are modelled as `Option` / `Except` returning `none` /
`.error` exactly on the panicking paths.
-/

namespace Jlcrs

/-- Abstract model of the `f32` text conversions used by the tokenizer:
`parse` models `str::parse::<f32>()` (`none` on failure) and `display`
models `format!` of the parsed value.  These are Rust standard-library
functions, not code of this repository, so they are kept abstract. -/
structure FloatModel (F : Type) where
  parse : List Char → Option F
  display : F → List Char

/-- `Token` from `src/kicad/syntax.rs`.  The source byte offset carried by
every Rust variant is dropped: it only feeds error messages, and claim C1
compares tokens up to offsets. -/
inductive Token (F : Type) where
  | openParen : Token F
  | closeParen : Token F
  | identifier : List Char → Token F
  | quotedString : List Char → Token F
  | number : F → Token F
deriving DecidableEq

/-- `KiCadParser::is_char_identifier_or_numeric`.  Rust
`char::is_alphanumeric` is Unicode-aware; it is modelled by ASCII
alphanumerics here (every input appearing in the claims is ASCII). -/
def isIdentChar (c : Char) : Bool :=
  c.isAlphanum || c = '_' || c = '-' || c = '.' || c = '*' || c = '%'

/-- The characters that legally terminate an identifier run inside
`tokenize` (the `' ' | ')' | '\r' | '\n'` arm of the identifier loop). -/
def isIdentTerm (c : Char) : Bool :=
  c = ' ' || c = ')' || c = '\r' || c = '\n'

/-- Whitespace skipped between tokens (the `'\r' | '\n' | ' '` arm). -/
def isWs (c : Char) : Bool :=
  c = '\r' || c = '\n' || c = ' '

/-- A character that falls into none of the tokenizer's classes: not
whitespace, not a parenthesis, not a double quote, not an identifier
character.  Claim C10 calls these the silently skipped characters. -/
def isOtherChar (c : Char) : Bool :=
  !isWs c && c ≠ '(' && c ≠ ')' && c ≠ '"' && !isIdentChar c

/-- End of the identifier arm of `tokenize`: the accumulated run is emitted
as a `Number` if it parses as a float, as an `Identifier` otherwise. -/
def classifyRun (fm : FloatModel F) (run : List Char) : Token F :=
  match fm.parse run with
  | some v => Token.number v
  | none => Token.identifier run

/-- `KiCadParser::tokenize`, fuelled.  One unit of fuel is spent per
iteration of the outer `while` loop; since every iteration consumes at
least one character, `input.length` fuel always suffices (`tokenize`
below supplies it).  The quoted-string inner loop takes everything up to
the next `"` (consuming it); the identifier inner loop takes the maximal
run of identifier characters and then requires the next character, if
any, to be a legal terminator — anything else is the
`panic!("Invalid identifier token…")` path, modelled as `none`. -/
def tokenizeGo (fm : FloatModel F) : Nat → List Char → Option (List (Token F))
  | _, [] => some []
  | 0, _ :: _ => none
  | fuel + 1, c :: cs =>
    if isWs c then
      tokenizeGo fm fuel cs
    else if c = '(' then
      (tokenizeGo fm fuel cs).map (Token.openParen :: ·)
    else if c = ')' then
      (tokenizeGo fm fuel cs).map (Token.closeParen :: ·)
    else if c = '"' then
      let content := cs.takeWhile (fun d => d ≠ '"')
      let rest := (cs.dropWhile (fun d => d ≠ '"')).drop 1
      (tokenizeGo fm fuel rest).map (Token.quotedString content :: ·)
    else if isIdentChar c then
      let run := (c :: cs).takeWhile isIdentChar
      let rest := (c :: cs).dropWhile isIdentChar
      match rest.head? with
      | none => (tokenizeGo fm fuel rest).map (classifyRun fm run :: ·)
      | some d =>
        if isIdentTerm d then (tokenizeGo fm fuel rest).map (classifyRun fm run :: ·)
        else none
    else
      tokenizeGo fm fuel cs

/-- `KiCadParser::tokenize` on a character list. -/
def tokenize (fm : FloatModel F) (input : List Char) : Option (List (Token F)) :=
  tokenizeGo fm input.length input

/-- A trivial concrete `FloatModel` used by the closed witness theorems:
only the string `0` parses, to the unique value of `Unit`. -/
def unitFloatModel : FloatModel Unit where
  parse := fun s => if s = ['0'] then some () else none
  display := fun _ => ['0']

/-! ## Node tree: `SyntaxItem` and `KiCadParser::parse_syntax_item` -/

/-- `PositionPreference` from `src/kicad/syntax.rs`. -/
inductive PositionPreference where
  | Start
  | None
  | End
deriving DecidableEq

/-- `SyntaxArgument` from `src/kicad/syntax.rs`. -/
inductive SyntaxArgument (F : Type) where
  | Number (v : F) (pref : PositionPreference)
  | Identifier (s : List Char) (pref : PositionPreference)
  | QuotedString (s : List Char) (pref : PositionPreference)
deriving DecidableEq

/-- `SyntaxItem` from `src/kicad/syntax.rs`. -/
inductive SyntaxItem (F : Type) where
  | mk (name : List Char) (arguments : List (SyntaxArgument F)) (children : List (SyntaxItem F))

/-- Node name. -/
def SyntaxItem.name : SyntaxItem F → List Char
  | .mk n _ _ => n

/-- Node arguments. -/
def SyntaxItem.arguments : SyntaxItem F → List (SyntaxArgument F)
  | .mk _ args _ => args

/-- Node children. -/
def SyntaxItem.children : SyntaxItem F → List (SyntaxItem F)
  | .mk _ _ ch => ch

/-- One iteration of the `for token in tokens` loop of
`KiCadParser::parse_syntax_item`.  The `VecDeque` of in-progress items is a
list with its head as front.  `none` models the `panic!` paths (a value
token or a `CLOSE` with an empty stack). -/
def parseStep (stack : List (SyntaxItem F)) (t : Token F) : Option (List (SyntaxItem F)) :=
  match t with
  | .openParen => some (SyntaxItem.mk [] [] [] :: stack)
  | .closeParen =>
    match stack with
    | [] => none
    | current :: rest =>
      match rest with
      | [] => some (current :: [])
      | SyntaxItem.mk n args ch :: rest' =>
        some (SyntaxItem.mk n args (ch ++ [current]) :: rest')
  | .identifier s =>
    match stack with
    | [] => none
    | SyntaxItem.mk n args ch :: rest =>
      if n = [] then some (SyntaxItem.mk s args ch :: rest)
      else
        some (SyntaxItem.mk n
          (args ++ [SyntaxArgument.Identifier s PositionPreference.None]) ch :: rest)
  | .quotedString s =>
    match stack with
    | [] => none
    | SyntaxItem.mk n args ch :: rest =>
      some (SyntaxItem.mk n
        (args ++ [SyntaxArgument.QuotedString s PositionPreference.None]) ch :: rest)
  | .number v =>
    match stack with
    | [] => none
    | SyntaxItem.mk n args ch :: rest =>
      some (SyntaxItem.mk n
        (args ++ [SyntaxArgument.Number v PositionPreference.None]) ch :: rest)

/-- The whole token loop of `parse_syntax_item`. -/
def parseFold (stack : List (SyntaxItem F)) : List (Token F) → Option (List (SyntaxItem F))
  | [] => some stack
  | t :: ts =>
    match parseStep stack t with
    | none => none
    | some stack' => parseFold stack' ts

/-- `KiCadParser::parse_syntax_item`; the final
`items.pop_front().unwrap()` is the head of the final stack (`none` when
the stack ends empty). -/
def parseSyntaxItem (ts : List (Token F)) : Option (SyntaxItem F) :=
  match parseFold [] ts with
  | none => none
  | some [] => none
  | some (item :: _) => some item

/-- `true` when every `OPEN` token is immediately followed by a nonempty
`IDENT` token — the well-formedness condition under which every node
receives a name. -/
def opensNamed : List (Token F) → Bool
  | [] => true
  | Token.openParen :: rest =>
    (match rest.head? with
     | some (Token.identifier s) => !s.isEmpty
     | _ => false) && opensNamed rest
  | _ :: rest => opensNamed rest

/-- Parenthesis balance check with a running depth, requiring the depth to
return to zero exactly at the end and to stay positive in between (the
token stream forms one top-level node). -/
def oneTopLevelNode : List (Token F) → Nat → Bool
  | [], d => decide (d = 0)
  | Token.openParen :: ts, d => oneTopLevelNode ts (d + 1)
  | Token.closeParen :: ts, d =>
    match d with
    | 0 => false
    | 1 => ts.isEmpty
    | d' + 1 => oneTopLevelNode ts d'
  | _ :: ts, d => decide (d ≠ 0) && oneTopLevelNode ts d

/-- Every node of the tree has a nonempty name. -/
inductive AllNamesSet : SyntaxItem F → Prop where
  | mk : ∀ (name : List Char) (args : List (SyntaxArgument F))
      (children : List (SyntaxItem F)),
      name ≠ [] → (∀ c ∈ children, AllNamesSet c) →
      AllNamesSet (SyntaxItem.mk name args children)

/-! ## `PcbLayer` and the layer-list serializer
(`src/kicad/model/footprint_library.rs`) -/

/-- The `PcbLayer` enum, in declaration order (= `EnumIter` order). -/
inductive PcbLayer where
  | FCu | In1Cu | In2Cu | In3Cu | In4Cu | In5Cu | In6Cu | In7Cu | In8Cu | In9Cu
  | In10Cu | In11Cu | In12Cu | In13Cu | In14Cu | In15Cu | In16Cu | In17Cu | In18Cu
  | In19Cu | In20Cu | In21Cu | In22Cu | In23Cu | In24Cu | In25Cu | In26Cu | In27Cu
  | In28Cu | In29Cu | In30Cu | BCu
  | BAdhes | FAdhes | BPaste | FPaste | BSilkS | FSilkS | BMask | FMask
  | DwgsUser | CmtsUser | Eco1User | Eco2User | EdgeCuts
  | FCrtYd | BCrtYd | FFab | BFab
  | User1 | User2 | User3 | User4 | User5 | User6 | User7 | User8 | User9
deriving DecidableEq, Fintype

/-- `PcbLayer::to_string`. -/
def PcbLayer.toStr : PcbLayer → List Char
  | .FCu => ("F.Cu").toList
  | .In1Cu => ("In1.Cu").toList
  | .In2Cu => ("In2.Cu").toList
  | .In3Cu => ("In3.Cu").toList
  | .In4Cu => ("In4.Cu").toList
  | .In5Cu => ("In5.Cu").toList
  | .In6Cu => ("In6.Cu").toList
  | .In7Cu => ("In7.Cu").toList
  | .In8Cu => ("In8.Cu").toList
  | .In9Cu => ("In9.Cu").toList
  | .In10Cu => ("In10.Cu").toList
  | .In11Cu => ("In11.Cu").toList
  | .In12Cu => ("In12.Cu").toList
  | .In13Cu => ("In13.Cu").toList
  | .In14Cu => ("In14.Cu").toList
  | .In15Cu => ("In15.Cu").toList
  | .In16Cu => ("In16.Cu").toList
  | .In17Cu => ("In17.Cu").toList
  | .In18Cu => ("In18.Cu").toList
  | .In19Cu => ("In19.Cu").toList
  | .In20Cu => ("In20.Cu").toList
  | .In21Cu => ("In21.Cu").toList
  | .In22Cu => ("In22.Cu").toList
  | .In23Cu => ("In23.Cu").toList
  | .In24Cu => ("In24.Cu").toList
  | .In25Cu => ("In25.Cu").toList
  | .In26Cu => ("In26.Cu").toList
  | .In27Cu => ("In27.Cu").toList
  | .In28Cu => ("In28.Cu").toList
  | .In29Cu => ("In29.Cu").toList
  | .In30Cu => ("In30.Cu").toList
  | .BCu => ("B.Cu").toList
  | .BAdhes => ("B.Adhes").toList
  | .FAdhes => ("F.Adhes").toList
  | .BPaste => ("B.Paste").toList
  | .FPaste => ("F.Paste").toList
  | .BSilkS => ("B.SilkS").toList
  | .FSilkS => ("F.SilkS").toList
  | .BMask => ("B.Mask").toList
  | .FMask => ("F.Mask").toList
  | .DwgsUser => ("Dwgs.User").toList
  | .CmtsUser => ("Cmts.User").toList
  | .Eco1User => ("Eco1.User").toList
  | .Eco2User => ("Eco2.User").toList
  | .EdgeCuts => ("Edge.Cuts").toList
  | .FCrtYd => ("F.CrtYd").toList
  | .BCrtYd => ("B.CrtYd").toList
  | .FFab => ("F.Fab").toList
  | .BFab => ("B.Fab").toList
  | .User1 => ("User.1").toList
  | .User2 => ("User.2").toList
  | .User3 => ("User.3").toList
  | .User4 => ("User.4").toList
  | .User5 => ("User.5").toList
  | .User6 => ("User.6").toList
  | .User7 => ("User.7").toList
  | .User8 => ("User.8").toList
  | .User9 => ("User.9").toList

/-- `PcbLayer::iter()` (the `EnumIter` derive yields declaration order). -/
def PcbLayer.iterList : List PcbLayer :=
  [.FCu, .In1Cu, .In2Cu, .In3Cu, .In4Cu, .In5Cu, .In6Cu, .In7Cu, .In8Cu, .In9Cu,
   .In10Cu, .In11Cu, .In12Cu, .In13Cu, .In14Cu, .In15Cu, .In16Cu, .In17Cu, .In18Cu,
   .In19Cu, .In20Cu, .In21Cu, .In22Cu, .In23Cu, .In24Cu, .In25Cu, .In26Cu, .In27Cu,
   .In28Cu, .In29Cu, .In30Cu, .BCu,
   .BAdhes, .FAdhes, .BPaste, .FPaste, .BSilkS, .FSilkS, .BMask, .FMask,
   .DwgsUser, .CmtsUser, .Eco1User, .Eco2User, .EdgeCuts,
   .FCrtYd, .BCrtYd, .FFab, .BFab,
   .User1, .User2, .User3, .User4, .User5, .User6, .User7, .User8, .User9]

/-- `PcbLayer::all_copper()`. -/
def PcbLayer.allCopper : List PcbLayer :=
  [.FCu, .In1Cu, .In2Cu, .In3Cu, .In4Cu, .In5Cu, .In6Cu, .In7Cu, .In8Cu, .In9Cu,
   .In10Cu, .In11Cu, .In12Cu, .In13Cu, .In14Cu, .In15Cu, .In16Cu, .In17Cu, .In18Cu,
   .In19Cu, .In20Cu, .In21Cu, .In22Cu, .In23Cu, .In24Cu, .In25Cu, .In26Cu, .In27Cu,
   .In28Cu, .In29Cu, .In30Cu, .BCu]

/-- Rust `str::split('.')` on a character list. -/
def splitOnDot : List Char → List (List Char)
  | [] => [[]]
  | c :: cs =>
    if c = '.' then [] :: splitOnDot cs
    else
      match splitOnDot cs with
      | [] => [[c]]
      | p :: ps => (c :: p) :: ps

/-- Rust `str::split('&')` on a character list. -/
def splitOnAmp : List Char → List (List Char)
  | [] => [[]]
  | c :: cs =>
    if c = '&' then [] :: splitOnAmp cs
    else
      match splitOnAmp cs with
      | [] => [[c]]
      | p :: ps => (c :: p) :: ps

/-- Model of `Itertools::chunk_by` (with each lazy chunk collected):
maximal runs of consecutive elements sharing a key. -/
def chunkBy {α : Type} (key : α → List Char) : List α → List (List Char × List α)
  | [] => []
  | x :: xs =>
    match chunkBy key xs with
    | [] => [(key x, [x])]
    | (k, g) :: rest =>
      if key x = k then (key x, x :: g) :: rest
      else (key x, [x]) :: (k, g) :: rest

/-- The suffix (`parts[1]` of the `split('.')`) a layer is grouped by in
`serialize`. -/
def layerSuffix (l : PcbLayer) : List Char :=
  (splitOnDot (PcbLayer.toStr l)).getD 1 []

/-- `layers_by_name` of `serialize`: `PcbLayer::iter()` chunked by name
suffix. -/
def layerGroups : List (List Char × List PcbLayer) :=
  chunkBy layerSuffix PcbLayer.iterList

/-- The compaction loop of `serialize`: every group whose members are all
contained in the list is removed from the list and compacted to a
`*.suffix` identifier argument; returns the compacted arguments and the
remaining layers. -/
def layersCompactLoop (F : Type) :
    List (List Char × List PcbLayer) → List PcbLayer →
      List (SyntaxArgument F) × List PcbLayer
  | [], list => ([], list)
  | (g, names) :: rest, list =>
    if names.all (fun l => list.contains l) then
      let res := layersCompactLoop F rest (list.filter (fun l => !names.contains l))
      (SyntaxArgument.Identifier ('*' :: '.' :: g) PositionPreference.None :: res.1, res.2)
    else layersCompactLoop F rest list

/-- `impl SyntaxItemSerializable for Vec<PcbLayer>::serialize`: compacted
arguments first (in group order), then the remaining layers by name. -/
def layersSerialize (F : Type) (list : List PcbLayer) : SyntaxItem F :=
  let res := layersCompactLoop F layerGroups list
  SyntaxItem.mk (("layers").toList)
    (res.1 ++ res.2.map (fun l =>
      SyntaxArgument.Identifier (PcbLayer.toStr l) PositionPreference.None))
    []

/-- `SyntaxArgument::get_string` (a number displays through the float
model, matching Rust `num.to_string()`). -/
def SyntaxArgument.getString (disp : F → List Char) : SyntaxArgument F → List Char
  | .Identifier s _ => s
  | .QuotedString s _ => s
  | .Number v _ => disp v

/-- The filter body of `deserialize`: the set of layers one textual
argument matches (`parts[i]` indexing modelled with `getD`, defaulting to
the empty string; every layer name contains a `.` so the defaults are
never hit on real names). -/
def layerMatches (arg : List Char) : List PcbLayer :=
  let parts := splitOnDot arg
  PcbLayer.iterList.filter (fun l =>
    let thisParts := splitOnDot (PcbLayer.toStr l)
    let typeMatch := thisParts.getD 0 [] = parts.getD 0 [] || parts.getD 0 [] = ['*']
    let nameMatch := thisParts.getD 1 [] = parts.getD 1 [] || parts.getD 1 [] = ['*']
    if nameMatch && (parts.getD 0 []).contains '&' then
      if (splitOnAmp (parts.getD 0 [])).contains (thisParts.getD 0 []) then true
      else typeMatch && nameMatch
    else typeMatch && nameMatch)

/-- `impl SyntaxItemSerializable for Vec<PcbLayer>::deserialize`.  The Rust
code iterates a `HashMap` rebuilt from `PcbLayer::iter()` (unspecified
iteration order, which is why claim C2 compares up to membership); the
model iterates `PcbLayer.iterList`, and `extend` in a loop is
concatenation. -/
def layersDeserialize (disp : F → List Char) (stx : SyntaxItem F) : List PcbLayer :=
  stx.arguments.flatMap (fun arg => layerMatches (SyntaxArgument.getString disp arg))

/-! ## Multi-unit symbol assembly (`src/easyeda/symbol.rs`) -/

/-- `SymbolConverterError`.  The Rust variants carry a human-readable
`format!("{:?}", …)` debug string, irrelevant to the claims; the payload
is dropped here. -/
inductive SymbolConverterError where
  | UnsupportedElement
  | IncorrectUnitFormat
  | IncorrectUnitNumIdentifier
  | IncorrectUnitName
deriving DecidableEq

/-- The fields of the KiCad `Symbol` record touched by the multi-unit
assembly logic of `TryInto<Symbol> for EasyEDASymbol` (lines 303-359):
section id, the `in_bom` / `on_board` flags and the sub-units.  Draft
symbols enter with `in_bom = on_board = some true` (set when a `PART` is
opened); the graphical content of a draft is irrelevant to claim C4 and
not modelled. -/
inductive KSymbol where
  | mk (symbol_id : List Char) (in_bom : Option Bool) (on_board : Option Bool)
      (units : List KSymbol)

/-- Section id of a draft symbol. -/
def KSymbol.symbol_id : KSymbol → List Char
  | .mk s _ _ _ => s

/-- `in_bom` flag. -/
def KSymbol.in_bom : KSymbol → Option Bool
  | .mk _ b _ _ => b

/-- `on_board` flag. -/
def KSymbol.on_board : KSymbol → Option Bool
  | .mk _ _ b _ => b

/-- Sub-units. -/
def KSymbol.units : KSymbol → List KSymbol
  | .mk _ _ _ u => u

/-- Rust `s.rfind('.')` together with the two slices `(s[..idx],
s[idx+1..])`: split at the last `.`, `none` when there is none. -/
def splitAtLastDot : List Char → Option (List Char × List Char)
  | [] => none
  | c :: cs =>
    match splitAtLastDot cs with
    | some (base, num) => some (c :: base, num)
    | none => if c = '.' then some ([], cs) else none

/-- Rust `str::parse::<usize>()`: an optional leading `+`, then one or
more ASCII digits, overflow above `2^64 - 1` rejected. -/
def parseUsize (s : List Char) : Option Nat :=
  let digits := match s with
    | '+' :: rest => rest
    | _ => s
  if digits.isEmpty then none
  else if digits.all (fun c => c.isDigit) then
    let v := digits.foldl (fun acc c => acc * 10 + (c.toNat - 48)) 0
    if v < 2 ^ 64 then some v else none
  else none

/-- One entry of `name_parts` (symbol.rs line 313-317): split the id at
its last `.` and parse the numeric suffix. -/
def unitNamePart (s : List Char) : Option (List Char × Option Nat) :=
  (splitAtLastDot s).map (fun p => (p.1, parseUsize p.2))

/-- The format check of line 320: an entry is bad when there is no `.` or
the suffix does not parse. -/
def unitPartBad : Option (List Char × Option Nat) → Bool
  | Option.none => true
  | some (_, Option.none) => true
  | some (_, some _) => false

/-- The unwrap of lines 324-326 (guarded by the format check; the default
is unreachable behind the guard). -/
def unitPartUnwrap : Option (List Char × Option Nat) → List Char × Nat
  | some (b, some n) => (b, n)
  | _ => ([], 0)

/-- The unwrapped `name_parts` list. -/
def unitParts (ids : List (List Char)) : List (List Char × Nat) :=
  (ids.map unitNamePart).map unitPartUnwrap

/-- The number-sequence check of lines 329-331, generalised over the
start of the `1..name_parts.len()+1` range (the source uses `st = 1`). -/
def seqCheckFrom (st : Nat) (parts : List (List Char × Nat)) : Bool :=
  ((parts.map Prod.snd).zip (List.range' st parts.length)).all (fun q => q.1 = q.2)

/-- The common-base check of line 337 (`windows(2)` as zip with the
tail). -/
def baseCheck (parts : List (List Char × Nat)) : Bool :=
  (parts.zip parts.tail).all (fun q => q.1.1 = q.2.1)

/-- The multi-unit assembly of `TryInto<Symbol> for EasyEDASymbol`
(symbol.rs lines 303-359), applied to the per-`PART` draft symbols in
section order.  `is_complex_symbol` is `all_parts.len() > 1` (one draft
per `PART`).  In the single-section branch `all_symbols.pop().unwrap()`
panics on an empty list, modelled as `none`. -/
def symbolTryIntoUnits (allSymbols : List KSymbol) :
    Option (Except SymbolConverterError KSymbol) :=
  if allSymbols.length > 1 then
    let unitNames := allSymbols.map KSymbol.symbol_id
    let nameParts := unitNames.map unitNamePart
    if nameParts.any unitPartBad then
      some (.error .IncorrectUnitFormat)
    else
      let parts := nameParts.map unitPartUnwrap
      if ¬(seqCheckFrom 1 parts = true) then some (.error .IncorrectUnitNumIdentifier)
      else if ¬(baseCheck parts = true) then some (.error .IncorrectUnitName)
      else
        let base := ((parts.head?).map Prod.fst).getD []
        some (.ok (KSymbol.mk base (some true) (some true)
          (allSymbols.enum.map (fun p =>
            KSymbol.mk (base ++ ('_' :: (Nat.repr (p.1 + 1)).toList) ++ ('_' :: '1' :: []))
              Option.none Option.none (KSymbol.units p.2)))))
  else
    match allSymbols.getLast? with
    | Option.none => none
    | some sym =>
      some (.ok (KSymbol.mk (KSymbol.symbol_id sym) (some true) (some true)
        (KSymbol.units sym)))

/-- Claim C4's layout condition on the section ids, starting at number
`st`: every id is `base.N` for the one common `base`, with the numbers in
section order counting up from `st` (the claim instantiates `st = 1`). -/
def unitIdsSpec (base : List Char) : Nat → List (List Char) → Prop
  | _, [] => True
  | st, id :: rest =>
    (∃ numStr, splitAtLastDot id = some (base, numStr) ∧ parseUsize numStr = some st) ∧
      unitIdsSpec base (st + 1) rest

/-! ## Footprint translator (`src/easyeda/footprint.rs`) -/

/-- Model of `serde_json::Value`.  Numbers are collapsed into one `num`
constructor over `ℚ` (the source's `is_i64() || is_f64()` tests become
`isNum`; integers too large for `i64`/`f64` distinctions are outside the
scope of the claims).  `f32` arithmetic on coordinates is modelled exactly
over `ℚ`. -/
inductive JValue where
  | null
  | bool (b : Bool)
  | num (q : ℚ)
  | str (s : List Char)
  | arr (elems : List JValue)

/-- `Value::is_string`. -/
def JValue.isString : JValue → Bool
  | .str _ => true
  | _ => false

/-- `Value::is_array`. -/
def JValue.isArr : JValue → Bool
  | .arr _ => true
  | _ => false

/-- `Value::as_str`. -/
def JValue.asStr : JValue → Option (List Char)
  | .str s => some s
  | _ => Option.none

/-- `Value::as_f64` (numbers only). -/
def JValue.asNum : JValue → Option ℚ
  | .num q => some q
  | _ => Option.none

/-- `Value::as_array`. -/
def JValue.asArr : JValue → Option (List JValue)
  | .arr es => some es
  | _ => Option.none

/-- `Value::is_f64() || is_i64()`: the value is a number. -/
def JValue.isNum : JValue → Bool
  | .num _ => true
  | _ => false

/-- `Point2D` from `src/easyeda/geometry.rs`, over `ℚ`. -/
structure Point2D where
  x : ℚ
  y : ℚ
deriving DecidableEq

/-- Pointwise addition (the `Add` impl of footprint.rs lines 611-617). -/
def Point2D.add (a b : Point2D) : Point2D :=
  Point2D.mk (a.x + b.x) (a.y + b.y)

/-- `PathCommand` from footprint.rs. -/
inductive PathCommand where
  | MoveTo (position : Point2D)
  | LineTo (position : Point2D)
  | ArcTo (endPoint : Point2D) (rotation : ℚ)
  | CenterArcTo (endPoint : Point2D) (rotation : ℚ)
  | Circle (center : Point2D) (radius : ℚ)
  | Rectangle (start : Point2D) (width height rotation cornerRadius : ℚ)
deriving DecidableEq

/-- The footprint scale factor (`let scale_factor = 0.0254`). -/
def footprintScale : ℚ := 0.0254

/-- First pre-processing pass of `parse_path_expression` (lines 816-819):
a synthetic `M` is prepended when the first token is a number;
`path.first().unwrap()` panics on an empty path. -/
def insertLeadingM (path : List JValue) : Option (List JValue) :=
  match path.head? with
  | Option.none => Option.none
  | some v => some (if v.isNum then JValue.str (("M").toList) :: path else v :: path.tail)

/-- Second pre-processing pass (lines 821-841), written as a recursion over
the tail that the index-based `while` loop walks: `isLine` is
`is_line_segment`, `counter` is `line_pair_counter`.  An inserted `L` is
skipped by the `i += 1` of the loop, so after an insertion the same number
is recounted with the counter at 1. -/
def fixLAux : Bool → Nat → List JValue → List JValue
  | _, _, [] => []
  | isLine, counter, v :: rest =>
    match v with
    | JValue.str s =>
      JValue.str s :: fixLAux (s = ("L").toList)
        (if s = ("L").toList then 0 else counter) rest
    | v =>
      if isLine then
        if counter > 0 ∧ counter % 2 = 0 then
          JValue.str (("L").toList) :: v :: fixLAux isLine 1 rest
        else v :: fixLAux isLine (counter + 1) rest
      else v :: fixLAux isLine counter rest

/-- Both pre-processing passes of `parse_path_expression`: the `L`-fixing
loop starts at index 3 of the (possibly `M`-prefixed) token list. -/
def parsePathPre (path : List JValue) : Option (List JValue) :=
  (insertLeadingM path).map (fun p => p.take 3 ++ fixLAux false 0 (p.drop 3))

/-- `ys` is obtained from `xs` by inserting `"L"` string tokens at some
positions: every original token is kept, unmodified and in order. -/
inductive OnlyLInserted : List JValue → List JValue → Prop where
  | nil : OnlyLInserted [] []
  | keep (v : JValue) {xs ys : List JValue} :
      OnlyLInserted xs ys → OnlyLInserted (v :: xs) (v :: ys)
  | ins {xs ys : List JValue} :
      OnlyLInserted xs ys → OnlyLInserted xs (JValue.str (("L").toList) :: ys)

/-- The intended result of the implicit-`L` pass on the argument run that
follows an explicit `L` command: the arguments are chunked into pairs and
an `L` token is placed before every pair after the first (a trailing odd
argument also receives one). -/
def chunkPairsL : List JValue → List JValue
  | [] => []
  | [v] => [v]
  | v1 :: v2 :: rest =>
    v1 :: v2 :: (match rest with
      | [] => []
      | _ :: _ => JValue.str (("L").toList) :: chunkPairsL rest)

/-- Pull one numeric argument off the token stream
(`param_iter.next().unwrap().as_f64().unwrap()`; `none` on both
panics). -/
def takeNum : List JValue → Option (ℚ × List JValue)
  | JValue.num q :: rest => some (q, rest)
  | _ => Option.none

/-- The command-deserialisation loop of `parse_path_expression` (lines
843-895), fuelled by the token count (each iteration consumes at least
one token).  The `y` coordinates of `M`, `L`, `CIRCLE` and `R` are
negated on scaling; `ARC`/`CARC` end points are scaled without negation;
rotations are not scaled.  The optional corner radius of `R` consumes the
next token whenever one exists and panics when it is not a number. -/
def parsePathCmdsGo (scale : ℚ) : Nat → List JValue → Option (List PathCommand)
  | _, [] => some []
  | 0, _ :: _ => Option.none
  | fuel + 1, v :: rest =>
    match v with
    | JValue.str s =>
      if s = ("M").toList then
        match takeNum rest with
        | Option.none => Option.none
        | some (x, r1) =>
          match takeNum r1 with
          | Option.none => Option.none
          | some (y, r2) =>
            (parsePathCmdsGo scale fuel r2).map
              (PathCommand.MoveTo (Point2D.mk (x * scale) (-y * scale)) :: ·)
      else if s = ("L").toList then
        match takeNum rest with
        | Option.none => Option.none
        | some (x, r1) =>
          match takeNum r1 with
          | Option.none => Option.none
          | some (y, r2) =>
            (parsePathCmdsGo scale fuel r2).map
              (PathCommand.LineTo (Point2D.mk (x * scale) (-y * scale)) :: ·)
      else if s = ("ARC").toList then
        match takeNum rest with
        | Option.none => Option.none
        | some (rot, r1) =>
          match takeNum r1 with
          | Option.none => Option.none
          | some (x, r2) =>
            match takeNum r2 with
            | Option.none => Option.none
            | some (y, r3) =>
              (parsePathCmdsGo scale fuel r3).map
                (PathCommand.ArcTo (Point2D.mk (x * scale) (y * scale)) rot :: ·)
      else if s = ("CARC").toList then
        match takeNum rest with
        | Option.none => Option.none
        | some (rot, r1) =>
          match takeNum r1 with
          | Option.none => Option.none
          | some (x, r2) =>
            match takeNum r2 with
            | Option.none => Option.none
            | some (y, r3) =>
              (parsePathCmdsGo scale fuel r3).map
                (PathCommand.CenterArcTo (Point2D.mk (x * scale) (y * scale)) rot :: ·)
      else if s = ("CIRCLE").toList then
        match takeNum rest with
        | Option.none => Option.none
        | some (cx, r1) =>
          match takeNum r1 with
          | Option.none => Option.none
          | some (cy, r2) =>
            match takeNum r2 with
            | Option.none => Option.none
            | some (rad, r3) =>
              (parsePathCmdsGo scale fuel r3).map
                (PathCommand.Circle (Point2D.mk (cx * scale) (-cy * scale))
                  (rad * scale) :: ·)
      else if s = ("R").toList then
        match takeNum rest with
        | Option.none => Option.none
        | some (x, r1) =>
          match takeNum r1 with
          | Option.none => Option.none
          | some (y, r2) =>
            match takeNum r2 with
            | Option.none => Option.none
            | some (w, r3) =>
              match takeNum r3 with
              | Option.none => Option.none
              | some (h, r4) =>
                match takeNum r4 with
                | Option.none => Option.none
                | some (rot, r5) =>
                  match r5 with
                  | [] =>
                    (parsePathCmdsGo scale fuel []).map
                      (PathCommand.Rectangle (Point2D.mk (x * scale) (-y * scale))
                        (w * scale) (h * scale) rot 0 :: ·)
                  | v' :: r6 =>
                    match v'.asNum with
                    | Option.none => Option.none
                    | some cr =>
                      (parsePathCmdsGo scale fuel r6).map
                        (PathCommand.Rectangle (Point2D.mk (x * scale) (-y * scale))
                          (w * scale) (h * scale) rot (cr * scale) :: ·)
      else Option.none
    | _ => Option.none

/-- `EasyEDAFootprint::parse_path_expression`. -/
def parse_path_expression (path : List JValue) (scale : ℚ) : Option (List PathCommand) :=
  (parsePathPre path).bind (fun p => parsePathCmdsGo scale p.length p)

/-- One shape added to a `PrimitivesContainer` by
`populate_footprint_shapes`, in call order (`add_circle`,
`add_rectangle`, `add_line`, `add_arc`, `add_polygon`).  Only the fields
the source sets to something other than a constant `None`/`false` are
kept. -/
inductive EmittedShape where
  | circle (center endPoint : Point2D) (layer : PcbLayer) (width : Option ℚ)
      (fill : Option Bool)
  | rectangle (start endPoint : Point2D) (layer : PcbLayer) (width : Option ℚ)
      (fill : Option Bool)
  | line (start endPoint : Point2D) (layer : PcbLayer) (width : Option ℚ)
  | arc (start mid endPoint : Point2D) (layer : PcbLayer) (width : Option ℚ)
  | polygon (points : List Point2D) (layer : PcbLayer) (width : Option ℚ)
      (fill : Option Bool)
deriving DecidableEq

/-- The layer a shape was emitted on. -/
def EmittedShape.layerOf : EmittedShape → PcbLayer
  | .circle _ _ l _ _ => l
  | .rectangle _ _ l _ _ => l
  | .line _ _ l _ => l
  | .arc _ _ _ l _ => l
  | .polygon _ l _ _ => l

/-- The stroke width a shape was emitted with. -/
def EmittedShape.widthOf : EmittedShape → Option ℚ
  | .circle _ _ _ w _ => w
  | .rectangle _ _ _ w _ => w
  | .line _ _ _ w => w
  | .arc _ _ _ _ w => w
  | .polygon _ _ w _ => w

/-- The offset remapping of footprint.rs lines 650-661.  Note the source
maps `LineTo` to `MoveTo` (line 653). -/
def applyOffset (offset : Point2D) : PathCommand → PathCommand
  | .MoveTo p => .MoveTo (p.add offset)
  | .LineTo p => .MoveTo (p.add offset)
  | .ArcTo e r => .ArcTo (e.add offset) r
  | .CenterArcTo e r => .CenterArcTo (e.add offset) r
  | .Circle c rad => .Circle (c.add offset) rad
  | .Rectangle s w h rot cr => .Rectangle (s.add offset) w h rot cr

/-- The standalone-shape loop (lines 666-702).  The
`expand_bbox_to_shape` asserts panic on a negative circle radius or
rectangle size; `todo!` panics on rotated or rounded rectangles; the
`unreachable!` arms cannot fire because every command is standalone. -/
def emitStandalone (layer : PcbLayer) (strokeWidth scale : ℚ) (filled : Bool) :
    List PathCommand → Option (List EmittedShape)
  | [] => some []
  | PathCommand.Circle center radius :: rest =>
    if radius < 0 then Option.none
    else
      (emitStandalone layer strokeWidth scale filled rest).map
        (EmittedShape.circle center (Point2D.mk (center.x + radius) center.y) layer
          (some (strokeWidth * scale)) (some filled) :: ·)
  | PathCommand.Rectangle start w h rot cr :: rest =>
    if w < 0 ∨ h < 0 then Option.none
    else if rot = 0 ∧ cr = 0 then
      (emitStandalone layer strokeWidth scale filled rest).map
        (EmittedShape.rectangle start (Point2D.mk (start.x + w) (start.y + h)) layer
          (some (strokeWidth * scale)) (some filled) :: ·)
    else Option.none
  | _ => Option.none

/-- Point collection of the arc-free polygon branch (lines 721-735): only
`MoveTo`/`LineTo` may appear (`unreachable!` otherwise). -/
def polyPoints : List PathCommand → Option (List Point2D)
  | [] => some []
  | PathCommand.MoveTo p :: rest => (polyPoints rest).map (p :: ·)
  | PathCommand.LineTo p :: rest => (polyPoints rest).map (p :: ·)
  | _ => Option.none

/-- Point collection of the polygon-with-arcs branch (lines 771-797):
arcs are flattened through `interpolate_arc_points` (abstracted as
`interp`, called with the negated rotation and density 8.0), the arc end
point has its `y` negated, and `last_position` starts at the origin. -/
def arcPolyPoints (interp : Point2D → Point2D → ℚ → ℚ → List Point2D) :
    Point2D → List PathCommand → Option (List Point2D)
  | _, [] => some []
  | _, PathCommand.MoveTo p :: rest => (arcPolyPoints interp p rest).map (p :: ·)
  | _, PathCommand.LineTo p :: rest => (arcPolyPoints interp p rest).map (p :: ·)
  | last, PathCommand.ArcTo e rot :: rest =>
    (arcPolyPoints interp (Point2D.mk e.x (-e.y)) rest).map (fun ps =>
      interp last (Point2D.mk e.x (-e.y)) (-rot) 8 ++ Point2D.mk e.x (-e.y) :: ps)
  | last, PathCommand.CenterArcTo e rot :: rest =>
    (arcPolyPoints interp (Point2D.mk e.x (-e.y)) rest).map (fun ps =>
      interp last (Point2D.mk e.x (-e.y)) (-rot) 8 ++ Point2D.mk e.x (-e.y) :: ps)
  | _, _ => Option.none

/-- `EasyEDAFootprint::populate_footprint_shapes`, fuelled by the nesting
depth of the path value (one unit per recursion into a nested
sub-array).  The geometric helpers `get_arc_center` and
`interpolate_arc_points` are abstracted as the parameters `arcMid` and
`interp` (their trigonometry lives in `ℝ`; the `ℝ` version of
`get_arc_center` is `getArcCenterR` below).  The emitted shapes are
returned in `add_*` call order; the `bb_min`/`bb_max` bounding box the
source threads through `expand_bbox_to_shape` is dead except for its
asserts, which are modelled in `emitStandalone`. -/
def populateShapes (arcMid : Point2D → Point2D → ℚ → Point2D)
    (interp : Point2D → Point2D → ℚ → ℚ → List Point2D) :
    Nat → List JValue → PcbLayer → ℚ → Bool → ℚ → Option Point2D →
      Option (List EmittedShape)
  | 0, _, _, _, _, _, _ => Option.none
  | fuel + 1, paths, layer, strokeWidth, filled, scale, offset =>
    if paths.isEmpty then some []
    else if paths.all JValue.isArr then
      (paths.mapM (fun p =>
        match p with
        | JValue.arr sub =>
          populateShapes arcMid interp fuel sub layer strokeWidth filled scale offset
        | _ => Option.none)).map List.flatten
    else
      match parse_path_expression paths scale with
      | Option.none => Option.none
      | some path0 =>
        let isStandalone := path0.all (fun c =>
          match c with
          | PathCommand.Circle _ _ => true
          | PathCommand.Rectangle _ _ _ _ _ => true
          | _ => false)
        let containsArcs := !isStandalone && path0.any (fun c =>
          match c with
          | PathCommand.ArcTo _ _ => true
          | PathCommand.CenterArcTo _ _ => true
          | _ => false)
        let path := match offset with
          | some off => path0.map (applyOffset off)
          | Option.none => path0
        if isStandalone then
          emitStandalone layer strokeWidth scale filled path
        else if !containsArcs then
          match path with
          | [PathCommand.MoveTo s, PathCommand.LineTo e] =>
            some [EmittedShape.line s e layer (some (strokeWidth * scale))]
          | polygon =>
            (polyPoints polygon).map (fun ps =>
              [EmittedShape.polygon ps layer (some (strokeWidth * scale)) (some filled)])
        else
          match path with
          | [PathCommand.MoveTo s, PathCommand.ArcTo e rot] =>
            some [EmittedShape.arc (Point2D.mk s.x s.y)
              (arcMid (Point2D.mk s.x s.y) (Point2D.mk e.x (-e.y)) rot)
              (Point2D.mk e.x (-e.y)) layer (some (strokeWidth * scale))]
          | [PathCommand.MoveTo s, PathCommand.CenterArcTo e rot] =>
            some [EmittedShape.arc (Point2D.mk s.x s.y)
              (arcMid (Point2D.mk s.x s.y) (Point2D.mk e.x (-e.y)) rot)
              (Point2D.mk e.x (-e.y)) layer (some (strokeWidth * scale))]
          | polygon =>
            (arcPolyPoints interp (Point2D.mk 0 0) polygon).map (fun ps =>
              [EmittedShape.polygon ps layer (some (strokeWidth * scale)) (some filled)])



/-- `FootprintConverterError`.  String payloads (debug dumps of the
offending element) are dropped; the drill-rotation error keeps its
numeric payload, which claim C6 mentions. -/
inductive FootprintConverterError where
  | UnsupportedPadShape
  | UnsupportedLayer
  | UnsupportedDrillRotation (rot : Nat)
  | UnsupportedInnerLayer
deriving DecidableEq

/-- The fields of the EasyEDA `Layer` record the translator reads. -/
structure EasyLayer where
  layer_type : List Char
  name : List Char
deriving DecidableEq

/-- `get_kicad_layer` (footprint.rs lines 210-267): `none` means the
`MULTI` drop-through. -/
def getKicadLayer (layer : EasyLayer) : Except FootprintConverterError (Option PcbLayer) :=
  if layer.layer_type = ("TOP_SILK").toList then .ok (some PcbLayer.FSilkS)
  else if layer.layer_type = ("BOT_SILK").toList then .ok (some PcbLayer.BSilkS)
  else if layer.layer_type = ("COMPONENT_SHAPE").toList then .ok (some PcbLayer.FFab)
  else if layer.layer_type = ("DOCUMENT").toList then .ok (some PcbLayer.FFab)
  else if layer.layer_type = ("OUTLINE").toList then .ok (some PcbLayer.FFab)
  else if layer.layer_type = ("MECHANICAL").toList then .ok (some PcbLayer.FFab)
  else if layer.layer_type = ("BOT_ASSEMBLY").toList then .ok (some PcbLayer.FFab)
  else if layer.layer_type = ("TOP_ASSEMBLY").toList then .ok (some PcbLayer.FFab)
  else if layer.layer_type = ("COMPONENT_MARKING").toList then .ok (some PcbLayer.FSilkS)
  else if layer.layer_type = ("TOP_PASTE_MASK").toList then .ok (some PcbLayer.FPaste)
  else if layer.layer_type = ("BOT_PASTE_MASK").toList then .ok (some PcbLayer.BPaste)
  else if layer.layer_type = ("TOP_SOLDER_MASK").toList then .ok (some PcbLayer.FMask)
  else if layer.layer_type = ("BOT_SOLDER_MASK").toList then .ok (some PcbLayer.BMask)
  else if layer.layer_type = ("PIN_SOLDERING").toList then .ok (some PcbLayer.FFab)
  else if layer.layer_type = ("PIN_FLOATING").toList then .ok (some PcbLayer.FFab)
  else if layer.layer_type = ("TOP").toList then .ok (some PcbLayer.FCu)
  else if layer.layer_type = ("BOTTOM").toList then .ok (some PcbLayer.BCu)
  else if layer.layer_type = ("MULTI").toList then .ok Option.none
  else if layer.layer_type = ("SIGNAL").toList then
    if layer.name = ("Inner1").toList then .ok (some PcbLayer.In1Cu)
    else if layer.name = ("Inner2").toList then .ok (some PcbLayer.In2Cu)
    else if layer.name = ("Inner3").toList then .ok (some PcbLayer.In3Cu)
    else if layer.name = ("Inner4").toList then .ok (some PcbLayer.In4Cu)
    else if layer.name = ("Inner5").toList then .ok (some PcbLayer.In5Cu)
    else if layer.name = ("Inner6").toList then .ok (some PcbLayer.In6Cu)
    else if layer.name = ("Inner7").toList then .ok (some PcbLayer.In7Cu)
    else if layer.name = ("Inner8").toList then .ok (some PcbLayer.In8Cu)
    else if layer.name = ("Inner9").toList then .ok (some PcbLayer.In9Cu)
    else if layer.name = ("Inner10").toList then .ok (some PcbLayer.In10Cu)
    else if layer.name = ("Inner11").toList then .ok (some PcbLayer.In11Cu)
    else if layer.name = ("Inner12").toList then .ok (some PcbLayer.In12Cu)
    else if layer.name = ("Inner13").toList then .ok (some PcbLayer.In13Cu)
    else if layer.name = ("Inner14").toList then .ok (some PcbLayer.In14Cu)
    else if layer.name = ("Inner15").toList then .ok (some PcbLayer.In15Cu)
    else if layer.name = ("Inner16").toList then .ok (some PcbLayer.In16Cu)
    else if layer.name = ("Inner17").toList then .ok (some PcbLayer.In17Cu)
    else if layer.name = ("Inner18").toList then .ok (some PcbLayer.In18Cu)
    else if layer.name = ("Inner19").toList then .ok (some PcbLayer.In19Cu)
    else if layer.name = ("Inner20").toList then .ok (some PcbLayer.In20Cu)
    else if layer.name = ("Inner21").toList then .ok (some PcbLayer.In21Cu)
    else if layer.name = ("Inner22").toList then .ok (some PcbLayer.In22Cu)
    else if layer.name = ("Inner23").toList then .ok (some PcbLayer.In23Cu)
    else if layer.name = ("Inner24").toList then .ok (some PcbLayer.In24Cu)
    else if layer.name = ("Inner25").toList then .ok (some PcbLayer.In25Cu)
    else if layer.name = ("Inner26").toList then .ok (some PcbLayer.In26Cu)
    else if layer.name = ("Inner27").toList then .ok (some PcbLayer.In27Cu)
    else if layer.name = ("Inner28").toList then .ok (some PcbLayer.In28Cu)
    else if layer.name = ("Inner29").toList then .ok (some PcbLayer.In29Cu)
    else if layer.name = ("Inner30").toList then .ok (some PcbLayer.In30Cu)
    else .error FootprintConverterError.UnsupportedInnerLayer
  else .error FootprintConverterError.UnsupportedLayer

/-- `PadType` from footprint_library.rs. -/
inductive PadType where
  | ThruHole
  | Smd
  | Connect
  | NpThruHole
deriving DecidableEq

/-- `PadShape` from footprint_library.rs. -/
inductive PadShape where
  | Circle
  | Rect
  | Oval
  | Trapezoid
  | RoundRect
  | Custom
deriving DecidableEq

/-- `DrillDefinition` (the `offset` child as a plain coordinate pair). -/
structure DrillDefinition where
  oval : Bool
  diameter : ℚ
  width : Option ℚ
  offset : Option (ℚ × ℚ)
deriving DecidableEq

/-- A `Position` with optional angle. -/
structure KPosition where
  x : ℚ
  y : ℚ
  angle : Option ℚ
deriving DecidableEq

/-- The fields of `FootprintPad` that the translator writes with
non-constant values (every other field is a fixed `None`/`false`/empty
constant in the source constructor). -/
structure KFootprintPad where
  number : List Char
  pad_type : PadType
  pad_shape : PadShape
  position : KPosition
  size : Prod Rat Rat
  drill : Option DrillDefinition
  layers : List PcbLayer
  solder_mask_margin : Option Rat
  solder_paste_margin : Option Rat
  primitives : Option (Prod (Option Rat) (Prod (Option Bool) (List EmittedShape)))
deriving DecidableEq

/-- The fields of the EasyEDA `Pad` record the translator reads. -/
structure EasyPad where
  num : List Char
  center_x : Rat
  center_y : Rat
  rotation : Rat
  hole : Option JValue
  path : Option JValue
  hole_offset_x : Rat
  hole_offset_y : Rat
  hole_rotation : Option Rat
  top_solder_expansion : Option Rat
  top_paste_expansion : Option Rat

/-- `hole_rotation.abs() as u32 % 360`: Rust's `as` cast truncates the
absolute value toward zero and saturates at `u32::MAX`. -/
def holeRotU32Mod360 (r : Rat) : Nat :=
  min (Int.toNat (Int.floor (abs r))) (2 ^ 32 - 1) % 360

/-- The base `FootprintPad` record built at footprint.rs lines 370-408:
layer list, position and the solder-mask / solder-paste margins. -/
def padBase (layer : EasyLayer) (kicadLayer : Option PcbLayer) (pad : EasyPad) :
    Option KFootprintPad :=
  let scale := footprintScale
  let layersRes : Option (List PcbLayer) :=
    if layer.layer_type = ("MULTI").toList then
      some (PcbLayer.FMask :: PcbLayer.BMask :: PcbLayer.allCopper)
    else
      match kicadLayer with
      | some kl => some [kl, PcbLayer.FMask, PcbLayer.FPaste]
      | Option.none => Option.none
  layersRes.map (fun padLayers =>
    { number := pad.num
      pad_type := PadType.Smd
      pad_shape := PadShape.Custom
      position := ⟨pad.center_x * scale, -pad.center_y * scale, some pad.rotation⟩
      size := (0, 0)
      drill := Option.none
      layers := padLayers
      solder_mask_margin :=
        ((pad.top_solder_expansion.or (some 2)).map (fun v => v * scale))
      solder_paste_margin :=
        (((pad.top_paste_expansion.or (some 0)).map (fun v => v * scale)).map
          (fun v => max v 0))
      primitives := Option.none })

/-- The pad-shape branch of footprint.rs lines 410-451 (`RECT`,
`ELLIPSE`, `OVAL`, `POLY`, otherwise `UnsupportedPadShape`). -/
def padShapeStage (arcMid : Point2D → Point2D → Rat → Point2D)
    (interp : Point2D → Point2D → Rat → Rat → List Point2D) (fuel : Nat)
    (pad : EasyPad) (basePad : KFootprintPad) (path : List JValue) :
    Option (Except FootprintConverterError KFootprintPad) :=
  let scale := footprintScale
  if path.length = 4 ∧ (path.head?.bind JValue.asStr) = some (("RECT").toList) then
    match (path.get? 1).bind JValue.asNum, (path.get? 2).bind JValue.asNum with
    | some w, some h =>
      some (.ok { basePad with
        pad_shape := PadShape.Rect
        size := (w * scale, h * scale) })
    | _, _ => Option.none
  else if path.length = 3 ∧
      (path.head?.bind JValue.asStr) = some (("ELLIPSE").toList) then
    match (path.get? 1).bind JValue.asNum, (path.get? 2).bind JValue.asNum with
    | some w, some h =>
      some (.ok { basePad with
        pad_shape := PadShape.Oval
        size := (w * scale, h * scale) })
    | _, _ => Option.none
  else if path.length = 3 ∧
      (path.head?.bind JValue.asStr) = some (("OVAL").toList) then
    match (path.get? 1).bind JValue.asNum, (path.get? 2).bind JValue.asNum with
    | some w, some h =>
      some (.ok { basePad with
        pad_shape := PadShape.Oval
        size := (w * scale, h * scale) })
    | _, _ => Option.none
  else
    match path.head? with
    | Option.none => Option.none
    | some h0 =>
      if h0.asStr = some (("POLY").toList) then
        match (path.get? 1).bind JValue.asArr with
        | Option.none => Option.none
        | some pathData =>
          match populateShapes arcMid interp fuel pathData PcbLayer.FCu
              (0.1 : Rat) true scale
              (some (Point2D.mk (-pad.center_x * scale) (pad.center_y * scale))) with
          | Option.none => Option.none
          | some shapes =>
            some (.ok { basePad with
              pad_shape := PadShape.Custom
              size := ((0.01 : Rat), (0.01 : Rat))
              primitives := some (Option.none, Option.none, shapes) })
      else some (.error FootprintConverterError.UnsupportedPadShape)

/-- The hole branch of footprint.rs lines 453-483: `null` leaves the SMD
pad unchanged, a `["SLOT"|"ROUND", p1, p2]` array makes it a through-hole
pad with a drill, swapping the two parameters when the truncated absolute
hole rotation mod 360 is 90 or 270 and failing with
`UnsupportedDrillRotation` for any residue other than 0, 90, 180, 270.
A missing hole is the `pad.hole.as_ref().unwrap()` panic; a hole value
that is neither `null` nor an array falls through both branches leaving
the pad unchanged. -/
def padHoleStage (pad : EasyPad) (kiPad : KFootprintPad) :
    Option (Except FootprintConverterError KFootprintPad) :=
  let scale := footprintScale
  match pad.hole with
  | Option.none => Option.none
  | some JValue.null => some (.ok kiPad)
  | some (JValue.arr holeShape) =>
    match (holeShape.get? 1).bind JValue.asNum,
        (holeShape.get? 2).bind JValue.asNum,
        (holeShape.get? 0).bind JValue.asStr with
    | some p1, some p2, some shapeStr =>
      if shapeStr = ("SLOT").toList ∨ shapeStr = ("ROUND").toList then
        let rotRes : Except FootprintConverterError (Prod Rat Rat) :=
          match pad.hole_rotation with
          | Option.none => .ok (p1, p2)
          | some hr =>
            if holeRotU32Mod360 hr = 0 ∨ holeRotU32Mod360 hr = 180 then
              .ok (p1, p2)
            else if holeRotU32Mod360 hr = 90 ∨ holeRotU32Mod360 hr = 270 then
              .ok (p2, p1)
            else
              .error (FootprintConverterError.UnsupportedDrillRotation
                (holeRotU32Mod360 hr))
        match rotRes with
        | .error e => some (.error e)
        | .ok (q1, q2) =>
          some (.ok { kiPad with
            pad_type := PadType.ThruHole
            drill := some
              { oval := shapeStr = ("SLOT").toList
                diameter := q1 * scale
                width := some (q2 * scale)
                offset := some (pad.hole_offset_x * scale,
                  pad.hole_offset_y * scale) } })
      else Option.none
    | _, _, _ => Option.none
  | some _ => some (.ok kiPad)

/-- The per-pad body of the `// Pads [THT + SMD]` loop of
`TryInto<FootprintLibrary> for EasyEDAFootprint` (footprint.rs lines
362-486), for one pad and its resolved layer, staged as
`padBase` → `padShapeStage` → `padHoleStage`.  `fuel` bounds the path
nesting for the `POLY` custom-shape branch.  The outer `Option` is a
panic (`unwrap`/`assert`), the inner `Except` a converter error. -/
def translatePad (arcMid : Point2D → Point2D → Rat → Point2D)
    (interp : Point2D → Point2D → Rat → Rat → List Point2D) (fuel : Nat)
    (layer : EasyLayer) (pad : EasyPad) :
    Option (Except FootprintConverterError KFootprintPad) :=
  match pad.path with
  | Option.none => Option.none
  | some pathV =>
    match pathV.asArr with
    | Option.none => Option.none
    | some path =>
      match getKicadLayer layer with
      | .error e => some (.error e)
      | .ok kicadLayer =>
        match padBase layer kicadLayer pad with
        | Option.none => Option.none
        | some basePad =>
          match padShapeStage arcMid interp fuel pad basePad path with
          | Option.none => Option.none
          | some (.error e) => some (.error e)
          | some (.ok kiPad) => padHoleStage pad kiPad

/-- One iteration of the `for sub_path in path_list` loop of the
mechanical-fill pass (footprint.rs lines 307-358): a `CIRCLE` sub-path
prepends a non-plated through-hole pad, any other sub-path goes through
`populate_footprint_shapes` on `Edge.Cuts` with stroke width `0.05`. -/
def mechFillStep (arcMid : Point2D → Point2D → Rat → Point2D)
    (interp : Point2D → Point2D → Rat → Rat → List Point2D) (fuel : Nat)
    (subPath : JValue)
    (acc : Option (Prod (List KFootprintPad) (List EmittedShape))) :
    Option (Prod (List KFootprintPad) (List EmittedShape)) :=
  let scale := footprintScale
  match acc with
  | Option.none => Option.none
  | some (pads, shapes) =>
    match subPath.asArr with
    | Option.none => Option.none
    | some path =>
      match path.head? with
      | Option.none => Option.none
      | some h0 =>
        if h0.asStr = some (("CIRCLE").toList) then
          match (path.get? 1).bind JValue.asNum,
              (path.get? 2).bind JValue.asNum,
              (path.get? 3).bind JValue.asNum with
          | some cx, some cy, some r =>
            some ({ number := []
                    pad_type := PadType.NpThruHole
                    pad_shape := PadShape.Circle
                    position := ⟨cx * scale, -cy * scale, Option.none⟩
                    size := (r * scale * 2, r * scale * 2)
                    drill := some
                      { oval := false
                        diameter := r * scale * 2
                        width := Option.none
                        offset := Option.none }
                    layers := PcbLayer.FMask :: PcbLayer.BMask ::
                      PcbLayer.allCopper
                    solder_mask_margin := Option.none
                    solder_paste_margin := Option.none
                    primitives := Option.none } :: pads, shapes)
          | _, _, _ => Option.none
        else
          match populateShapes arcMid interp fuel path PcbLayer.EdgeCuts
              (0.05 : Rat) false scale Option.none with
          | Option.none => Option.none
          | some newShapes => some (pads, newShapes ++ shapes)

/-- The non-plated through-hole pad produced for a `CIRCLE` mechanical
fill: its pad size and drill diameter agree and are twice the scaled
circle radius, and it sits on both mask layers and every copper layer. -/
def mechPadProp (p : KFootprintPad) : Prop :=
  p.number = [] ∧ p.pad_type = PadType.NpThruHole ∧
  p.pad_shape = PadShape.Circle ∧
  p.layers = PcbLayer.FMask :: PcbLayer.BMask :: PcbLayer.allCopper ∧
  p.solder_mask_margin = Option.none ∧ p.solder_paste_margin = Option.none ∧
  ∃ r : ℚ, p.size = (r * footprintScale * 2, r * footprintScale * 2) ∧
    p.drill = some (DrillDefinition.mk false (r * footprintScale * 2)
      Option.none Option.none)

/-- A shape produced for a non-circle mechanical fill: it lies on
`Edge.Cuts` and its stroke width is `0.05` multiplied by the mil-to-mm
scale (`0.05 * 0.0254 = 0.00127`), not `0.05` itself. -/
def mechShapeProp (s : EmittedShape) : Prop :=
  s.layerOf = PcbLayer.EdgeCuts ∧
  s.widthOf = some ((0.05 : ℚ) * footprintScale)

/-- The per-fill body of the `// Mechanical NPTH fills` loop (footprint.rs
lines 296-359) for one fill: `CIRCLE` sub-paths become non-plated
through-hole pads, every other sub-path goes through
`populate_footprint_shapes` on `Edge.Cuts` with stroke width `0.05`.
Returns the pads and shapes in emission order; fills on a non-`MULTI`
layer contribute nothing. -/
def translateMechFill (arcMid : Point2D → Point2D → Rat → Point2D)
    (interp : Point2D → Point2D → Rat → Rat → List Point2D) (fuel : Nat)
    (layer : EasyLayer) (fillPath : JValue) :
    Option (Prod (List KFootprintPad) (List EmittedShape)) :=
  let scale := footprintScale
  match fillPath.asArr with
  | Option.none => Option.none
  | some elems =>
    match elems.head? with
    | Option.none => Option.none
    | some first =>
      let pathList := if !first.isArr then [fillPath] else elems
      if layer.layer_type ≠ ("MULTI").toList then some ([], [])
      else
        pathList.foldr (mechFillStep arcMid interp fuel) (some ([], []))


/-! ## `KiCadParser::stringify_tokens` -/

/-- `tokens.peek().is_some_and(|t| !t.is_closing_paren())`: a separating
space is pushed after a token exactly when another token follows and it
is not a closing parenthesis. -/
def needsSep : List (Token F) → Bool
  | Token.closeParen :: _ => false
  | [] => false
  | _ => true

/-- The new-line decision of the close-parenthesis branch of
`stringify_tokens` (syntax.rs lines 360-381): the string (in reverse
order) to place before the `)`, or `none` for the two `unwrap` panics
(`identifier_stack.get(1).unwrap()` when the innermost open node is
`effects`, and `top_item_name.unwrap()` — both operands of Rust's
non-short-circuiting `&` are always evaluated, so an empty stack always
panics here). -/
def closeNewline (sameLine : List Char → Bool) (lastClose : Bool)
    (stack : List (List Char)) (lastPopped : Option (List Char))
    (indent' : Nat) : Option (List Char) :=
  if lastClose then
    match stack.head? with
    | Option.none => Option.none
    | some top =>
      let fs1 : Option Bool :=
        if top = ("effects").toList then
          match stack.get? 1 with
          | Option.none => Option.none
          | some prev =>
            some (prev = ("name").toList || prev = ("number").toList)
        else some false
      match fs1 with
      | Option.none => Option.none
      | some f1 =>
        let f2 :=
          match lastPopped with
          | some lp =>
            (lp = ("effects").toList &&
              (top = ("name").toList || top = ("number").toList)) ||
            sameLine lp
          | Option.none => false
        if !(f1 || f2) && !sameLine top then
          some (List.replicate (indent' * 2) ' ' ++ ['\n'])
        else some []
  else some []

/-- `KiCadParser::stringify_tokens` (syntax.rs lines 313-419), one loop
iteration per token.  The accumulated string is kept in reverse order
(`out`), so Rust's `string.push` is a cons and the
`if string.ends_with(' ') { string.pop(); }` of the open-parenthesis
branch is a head test plus tail.  `sameLine` abstracts
`S::get_same_line_identifiers().contains(...)`; the
`effects_same_line_after` list is the fixed `["name", "number"]`.
The `none` results are the panics: `indent -= 1` underflowing `usize`,
and the two close-branch `unwrap`s modelled in `closeNewline`. -/
def stringifyGo (sameLine : List Char → Bool) (fm : FloatModel F) :
    List (Token F) → Nat → Bool → List (List Char) → Option (List Char) →
      List Char → Option (List Char)
  | [], _, _, _, _, out => some out
  | token :: rest, indent, lastClose, stack, lastPopped, out =>
    match token with
    | Token.openParen =>
      let pushedName : Option (List Char) :=
        match rest with
        | Token.identifier s :: _ => some s
        | _ => Option.none
      let stack' := match pushedName with
        | some s => s :: stack
        | Option.none => stack
      let sameLineFlag := match pushedName with
        | some s => sameLine s
        | Option.none => false
      let forceSkip :=
        match rest with
        | Token.identifier s :: _ =>
          (match stack'.get? 1 with
           | some prev =>
             s = ("effects").toList &&
               (prev = ("name").toList || prev = ("number").toList)
           | Option.none => false)
        | _ => false
      let out1 :=
        if !forceSkip && !sameLineFlag then
          let out0 := if out.head? = some ' ' then out.tail else out
          List.replicate (indent * 2) ' ' ++ '\n' :: out0
        else out
      stringifyGo sameLine fm rest (indent + 1) false stack' lastPopped
        ('(' :: out1)
    | Token.closeParen =>
      match indent with
      | 0 => Option.none
      | indent' + 1 =>
        match closeNewline sameLine lastClose stack lastPopped indent' with
        | Option.none => Option.none
        | some nl =>
          let out1 := ')' :: (nl ++ out)
          let out2 := if needsSep rest then ' ' :: out1 else out1
          stringifyGo sameLine fm rest indent' true stack.tail stack.head?
            out2
    | Token.quotedString s =>
      let out1 := '"' :: (s.reverse ++ '"' :: out)
      let out2 := if needsSep rest then ' ' :: out1 else out1
      stringifyGo sameLine fm rest indent false stack lastPopped out2
    | Token.identifier s =>
      let out1 := s.reverse ++ out
      let out2 := if needsSep rest then ' ' :: out1 else out1
      stringifyGo sameLine fm rest indent false stack lastPopped out2
    | Token.number v =>
      let out1 := (fm.display v).reverse ++ out
      let out2 := if needsSep rest then ' ' :: out1 else out1
      stringifyGo sameLine fm rest indent false stack lastPopped out2

/-- `KiCadParser::stringify_tokens` on a token list: run the loop from
the empty state and un-reverse the accumulator. -/
def stringifyTokens (sameLine : List Char → Bool) (fm : FloatModel F)
    (tokens : List (Token F)) : Option (List Char) :=
  (stringifyGo sameLine fm tokens 0 false [] Option.none []).map List.reverse

/-- A character list starts (if at all) with a legal identifier-run
terminator. -/
def headTermOkB : List Char → Bool
  | [] => true
  | d :: _ => isIdentTerm d

/-- `cs` renders the token list `T`: tokenizing `cs` yields exactly `T`.
Built syntax-directedly: whitespace is skipped, parentheses and quoted
strings are delimited, and an identifier/number run must be followed by
a legal terminator (or end the input). -/
inductive Rend (fm : FloatModel F) : List Char → List (Token F) → Prop where
  | nil : Rend fm [] []
  | ws {c : Char} {cs : List Char} {T : List (Token F)} :
      isWs c = true → Rend fm cs T → Rend fm (c :: cs) T
  | openP {cs : List Char} {T : List (Token F)} :
      Rend fm cs T → Rend fm ('(' :: cs) (Token.openParen :: T)
  | closeP {cs : List Char} {T : List (Token F)} :
      Rend fm cs T → Rend fm (')' :: cs) (Token.closeParen :: T)
  | qstr {s cs : List Char} {T : List (Token F)} :
      '"' ∉ s → Rend fm cs T →
      Rend fm ('"' :: (s ++ '"' :: cs)) (Token.quotedString s :: T)
  | ident {s cs : List Char} {T : List (Token F)} :
      s ≠ [] → s.all isIdentChar = true → fm.parse s = Option.none →
      headTermOkB cs = true → Rend fm cs T →
      Rend fm (s ++ cs) (Token.identifier s :: T)
  | num {v : F} {cs : List Char} {T : List (Token F)} :
      fm.display v ≠ [] → (fm.display v).all isIdentChar = true →
      fm.parse (fm.display v) = some v →
      headTermOkB cs = true → Rend fm cs T →
      Rend fm (fm.display v ++ cs) (Token.number v :: T)

/-- The well-formedness facts `tokenize` guarantees for each token it
emits: identifier spellings are nonempty maximal identifier-character
runs that do not parse as floats, quoted-string contents contain no
double quote. -/
def TokWf (fm : FloatModel F) : Token F → Prop
  | Token.identifier s =>
    s ≠ [] ∧ s.all isIdentChar = true ∧ fm.parse s = Option.none
  | Token.quotedString s => '"' ∉ s
  | _ => True

/-- Structural validity of a token stream relative to the stack of
currently open node names: atoms and child nodes may occur inside an
open node, every open parenthesis is immediately followed by the node's
name identifier, every close parenthesis closes the innermost node, and
a depth-one node is not named `effects` (closing a top-level `effects`
node runs `identifier_stack.get(1).unwrap()` on a too-short stack).
`Streams [] T` states that `T` is a sequence of complete well-nested
nodes — "valid KiCad text" token streams. -/
inductive Streams {F : Type} : List (List Char) → List (Token F) → Prop where
  | done : Streams [] []
  | close {name : List Char} {stack : List (List Char)} {ts : List (Token F)} :
      (stack = [] → name ≠ ("effects").toList) →
      Streams stack ts → Streams (name :: stack) (Token.closeParen :: ts)
  | atomI {s name : List Char} {stack : List (List Char)}
      {ts : List (Token F)} :
      Streams (name :: stack) ts →
      Streams (name :: stack) (Token.identifier s :: ts)
  | atomN {v : F} {name : List Char} {stack : List (List Char)}
      {ts : List (Token F)} :
      Streams (name :: stack) ts →
      Streams (name :: stack) (Token.number v :: ts)
  | atomQ {s name : List Char} {stack : List (List Char)}
      {ts : List (Token F)} :
      Streams (name :: stack) ts →
      Streams (name :: stack) (Token.quotedString s :: ts)
  | opn {child : List Char} {stack : List (List Char)} {ts : List (Token F)} :
      Streams (child :: stack) ts →
      Streams stack (Token.openParen :: Token.identifier child :: ts)

/-- `EasyEDAFootprint::get_arc_center` (footprint.rs lines 900-942) over
`ℝ` (the source computes in `f32`; the claim is about the exact geometry
of the formula).  Despite its name the function returns the midpoint of
the arc, obtained by walking the sagitta from the chord midpoint along
the normalised perpendicular whose orientation follows the sign of the
sweep angle. -/
noncomputable def getArcCenterR (start endP : ℝ × ℝ) (angle : ℝ) : ℝ × ℝ :=
  let chordMidX := (start.1 + endP.1) / 2
  let chordMidY := (start.2 + endP.2) / 2
  let chordLength :=
    Real.sqrt ((endP.1 - start.1) ^ 2 + (endP.2 - start.2) ^ 2)
  let arcAngle := |angle| * Real.pi / 180
  let centralAngle := arcAngle / 2
  let radius := chordLength / (2 * Real.sin centralAngle)
  let sagitta := radius * (1 - Real.cos centralAngle)
  let dx := endP.1 - start.1
  let dy := endP.2 - start.2
  let sign : ℝ := if angle < 0 then -1 else 1
  let perpX := -dy * sign
  let perpY := dx * sign
  let perpLength := Real.sqrt (perpX ^ 2 + perpY ^ 2)
  let unitPerpX := perpX / perpLength
  let unitPerpY := perpY / perpLength
  (chordMidX + unitPerpX * sagitta, chordMidY + unitPerpY * sagitta)

/-- The radius named by the specification:
`r = |E - S| / (2 sin(|θ|/2))` with `θ` in degrees. -/
noncomputable def arcRadiusR (S E : ℝ × ℝ) (θ : ℝ) : ℝ :=
  Real.sqrt ((E.1 - S.1) ^ 2 + (E.2 - S.2) ^ 2) /
    (2 * Real.sin (|θ| * Real.pi / 180 / 2))

/-! ## Theorems -/

theorem tokenizeGo_nil {F : Type} (fm : FloatModel F) (fuel : Nat) :
    tokenizeGo fm fuel [] = some [] := by
  cases fuel <;> rfl

theorem length_dropWhile_le (p : Char → Bool) (l : List Char) :
    (l.dropWhile p).length ≤ l.length :=
  (List.dropWhile_suffix p).sublist.length_le

theorem length_dropQuote_le (cs : List Char) :
    ((cs.dropWhile (fun d => d ≠ '"')).drop 1).length ≤ cs.length := by
  have h1 : ((cs.dropWhile (fun d => d ≠ '"')).drop 1).length ≤
      (cs.dropWhile (fun d => d ≠ '"')).length := by
    rw [List.length_drop]
    omega
  exact le_trans h1 (length_dropWhile_le _ cs)

theorem length_dropIdent_le (c : Char) (cs : List Char) (h : isIdentChar c = true) :
    ((c :: cs).dropWhile isIdentChar).length ≤ cs.length := by
  rw [List.dropWhile_cons_of_pos h]
  exact length_dropWhile_le _ cs

/-- The result of `tokenizeGo` does not depend on the fuel, as long as the
fuel covers the input length. -/
theorem tokenizeGo_fuel {F : Type} (fm : FloatModel F) :
    ∀ (n : Nat) (cs : List Char) (fuel fuel' : Nat),
      cs.length ≤ n → cs.length ≤ fuel → cs.length ≤ fuel' →
      tokenizeGo fm fuel cs = tokenizeGo fm fuel' cs := by
  intro n
  induction n with
  | zero =>
    intro cs fuel fuel' h _ _
    have : cs = [] := List.length_eq_zero.mp (Nat.le_zero.mp h)
    subst this
    rw [tokenizeGo_nil, tokenizeGo_nil]
  | succ n ih =>
    intro cs fuel fuel' hn hf hf'
    match cs, fuel, fuel' with
    | [], _, _ => rw [tokenizeGo_nil, tokenizeGo_nil]
    | c :: cs', 0, _ => exact absurd hf (by simp)
    | c :: cs', _ + 1, 0 => exact absurd hf' (by simp)
    | c :: cs', f + 1, f' + 1 =>
      have hcs : cs'.length ≤ n := by
        simp only [List.length_cons] at hn
        omega
      have hcf : cs'.length ≤ f := by
        simp only [List.length_cons] at hf
        omega
      have hcf' : cs'.length ≤ f' := by
        simp only [List.length_cons] at hf'
        omega
      simp only [tokenizeGo]
      by_cases hws : isWs c = true
      · rw [if_pos hws, if_pos hws, ih cs' f f' hcs hcf hcf']
      · rw [if_neg hws, if_neg hws]
        by_cases hop : c = '('
        · rw [if_pos hop, if_pos hop, ih cs' f f' hcs hcf hcf']
        · rw [if_neg hop, if_neg hop]
          by_cases hcl : c = ')'
          · rw [if_pos hcl, if_pos hcl, ih cs' f f' hcs hcf hcf']
          · rw [if_neg hcl, if_neg hcl]
            by_cases hq : c = '"'
            · rw [if_pos hq, if_pos hq]
              have hr := length_dropQuote_le cs'
              rw [ih _ f f' (le_trans hr hcs) (le_trans hr hcf) (le_trans hr hcf')]
            · rw [if_neg hq, if_neg hq]
              by_cases hid : isIdentChar c = true
              · rw [if_pos hid, if_pos hid]
                have hr := length_dropIdent_le c cs' hid
                rw [ih _ f f' (le_trans hr hcs) (le_trans hr hcf) (le_trans hr hcf')]
              · rw [if_neg hid, if_neg hid, ih cs' f f' hcs hcf hcf']

/-- `tokenize` with any sufficient fuel. -/
theorem tokenize_eq_go {F : Type} (fm : FloatModel F) (cs : List Char) (fuel : Nat)
    (h : cs.length ≤ fuel) : tokenize fm cs = tokenizeGo fm fuel cs :=
  tokenizeGo_fuel fm cs.length cs cs.length fuel le_rfl le_rfl h

theorem identChar_not_special {c : Char} (h : isIdentChar c = true) :
    isWs c = false ∧ c ≠ '(' ∧ c ≠ ')' ∧ c ≠ '"' := by
  refine ⟨?_, ?_, ?_, ?_⟩
  · by_contra hcon
    have hws : isWs c = true := by simpa using hcon
    simp only [isWs, Bool.or_eq_true, decide_eq_true_eq] at hws
    rcases hws with (h1 | h1) | h1 <;> subst h1 <;> exact absurd h (by decide)
  · intro h1; subst h1; exact absurd h (by decide)
  · intro h1; subst h1; exact absurd h (by decide)
  · intro h1; subst h1; exact absurd h (by decide)

/-- A character of none of the tokenizer's classes is dropped by the
scanning loop: no token, no error. -/
theorem tokenize_skips_other {F : Type} (fm : FloatModel F) (c : Char) (cs : List Char)
    (h : isOtherChar c = true) : tokenize fm (c :: cs) = tokenize fm cs := by
  simp only [isOtherChar, Bool.and_eq_true, Bool.not_eq_true', decide_eq_true_eq,
    decide_not] at h
  obtain ⟨⟨⟨⟨hws, hop⟩, hcl⟩, hq⟩, hid⟩ := h
  show tokenizeGo fm (cs.length + 1) (c :: cs) = tokenize fm cs
  simp only [tokenizeGo]
  rw [if_neg (by simp [hws]), if_neg (by simpa using hop), if_neg (by simpa using hcl),
    if_neg (by simpa using hq), if_neg (by simp [hid])]
  rfl

/-- At an identifier run, `tokenize` emits the classified maximal run and
continues exactly when the character after the run (if any) is a legal
terminator, and hits the `panic!` path otherwise. -/
theorem tokenize_identRun {F : Type} (fm : FloatModel F) (c : Char) (cs : List Char)
    (hid : isIdentChar c = true) :
    tokenize fm (c :: cs) =
      match ((c :: cs).dropWhile isIdentChar).head? with
      | none =>
        (tokenize fm ((c :: cs).dropWhile isIdentChar)).map
          (classifyRun fm ((c :: cs).takeWhile isIdentChar) :: ·)
      | some d =>
        if isIdentTerm d = true then
          (tokenize fm ((c :: cs).dropWhile isIdentChar)).map
            (classifyRun fm ((c :: cs).takeWhile isIdentChar) :: ·)
        else none := by
  obtain ⟨hws, hop, hcl, hq⟩ := identChar_not_special hid
  show tokenizeGo fm (cs.length + 1) (c :: cs) = _
  simp only [tokenizeGo]
  rw [if_neg (by simp [hws]), if_neg hop, if_neg hcl, if_neg hq, if_pos hid]
  rw [← tokenize_eq_go fm _ _ (length_dropIdent_le c cs hid)]

/-- C10 as stated is false at input `ab(`: the tokenizer raises an error
(`panic!`) although every character of the input is an identifier
character or a parenthesis — no character of the claim's skipped class
occurs, yet an error is raised.  (The `(` directly after the identifier
run hits the `panic!` arm of the identifier loop.) -/
theorem c10_counterexample :
    tokenize unitFloatModel ('a' :: 'b' :: '(' :: []) = none ∧
      ∀ c ∈ ('a' :: 'b' :: '(' :: []), isOtherChar c = false := by
  decide

/-- C10, amended: a character of none of the tokenizer's classes is
silently dropped when met at the top of the scanning loop (no token, no
error), and inside an identifier/number run the tokenizer errors exactly
when the character ending the run is not one of space, `)`, CR, LF —
this includes `(` and `"`, not only the claim's skipped class. -/
theorem c10_tokenize_skip_and_run_error {F : Type} (fm : FloatModel F) (c : Char)
    (cs : List Char) :
    (isOtherChar c = true → tokenize fm (c :: cs) = tokenize fm cs) ∧
    (isIdentChar c = true →
      (∀ d, ((c :: cs).dropWhile isIdentChar).head? = some d →
        (isIdentTerm d = false → tokenize fm (c :: cs) = none) ∧
        (isIdentTerm d = true →
          tokenize fm (c :: cs) =
            (tokenize fm ((c :: cs).dropWhile isIdentChar)).map
              (classifyRun fm ((c :: cs).takeWhile isIdentChar) :: ·))) ∧
      (((c :: cs).dropWhile isIdentChar).head? = none →
        tokenize fm (c :: cs) =
          (tokenize fm ((c :: cs).dropWhile isIdentChar)).map
            (classifyRun fm ((c :: cs).takeWhile isIdentChar) :: ·))) := by
  constructor
  · exact tokenize_skips_other fm c cs
  · intro hid
    constructor
    · intro d hd
      constructor
      · intro hterm
        rw [tokenize_identRun fm c cs hid, hd]
        simp [hterm]
      · intro hterm
        rw [tokenize_identRun fm c cs hid, hd]
        simp [hterm]
    · intro hd
      rw [tokenize_identRun fm c cs hid, hd]

/-- Witness for `c10_tokenize_skip_and_run_error`: a comma between tokens
is silently dropped. -/
theorem c10_witness :
    tokenize unitFloatModel (',' :: 'a' :: ' ' :: 'b' :: []) =
      tokenize unitFloatModel ('a' :: ' ' :: 'b' :: []) :=
  (c10_tokenize_skip_and_run_error unitFloatModel ',' ('a' :: ' ' :: 'b' :: [])).1 (by decide)

theorem parseFold_names {F : Type} :
    ∀ (ts : List (Token F)) (stack : List (SyntaxItem F)),
      opensNamed ts = true →
      (∀ i ∈ stack, ∀ c ∈ SyntaxItem.children i, AllNamesSet c) →
      (∀ i ∈ stack.tail, SyntaxItem.name i ≠ []) →
      (∀ top rest, stack = top :: rest → SyntaxItem.name top = [] →
        ∃ s ts', ts = Token.identifier s :: ts' ∧ s ≠ []) →
      ∀ res, parseFold stack ts = some res →
      ∀ i ∈ res, AllNamesSet i := by
  intro ts
  induction ts with
  | nil =>
    intro stack _ hch htail htop res hres i hi
    simp only [parseFold, Option.some_inj] at hres
    subst hres
    obtain ⟨n, args, ch⟩ := i
    refine AllNamesSet.mk n args ch ?_ (hch _ hi)
    intro hn
    match stack, hi with
    | top :: rest, hi =>
      rcases List.mem_cons.mp hi with h1 | h1
      · subst h1
        obtain ⟨s, ts', hcons, _⟩ := htop _ rest rfl (by simpa using hn)
        exact List.noConfusion hcons
      · exact htail _ h1 (by simpa [SyntaxItem.name] using hn)
  | cons t ts ih =>
    intro stack hwf hch htail htop res hres i hi
    match t with
    | Token.openParen =>
      have hwf' : opensNamed ts = true := by
        simp only [opensNamed, Bool.and_eq_true] at hwf
        exact hwf.2
      have hhead : ∃ s, ts.head? = some (Token.identifier s) ∧ s ≠ [] := by
        simp only [opensNamed, Bool.and_eq_true] at hwf
        have := hwf.1
        match hts : ts.head? with
        | some (Token.identifier s) =>
          refine ⟨s, rfl, ?_⟩
          rw [hts] at this
          simpa [List.isEmpty_iff] using this
        | none => rw [hts] at this; simp at this
        | some Token.openParen => rw [hts] at this; simp at this
        | some Token.closeParen => rw [hts] at this; simp at this
        | some (Token.quotedString s) => rw [hts] at this; simp at this
        | some (Token.number v) => rw [hts] at this; simp at this
      simp only [parseFold, parseStep] at hres
      refine ih (SyntaxItem.mk [] [] [] :: stack) hwf' ?_ ?_ ?_ res hres i hi
      · intro j hj
        rcases List.mem_cons.mp hj with h1 | h1
        · subst h1; simp [SyntaxItem.children]
        · exact hch _ h1
      · intro j hj
        simp only [List.tail_cons] at hj
        match stack, hj with
        | top :: rest, hj =>
          rcases List.mem_cons.mp hj with h1 | h1
          · subst h1
            intro hn
            obtain ⟨s, ts', hcons, _⟩ := htop _ rest rfl hn
            simp at hcons
          · exact htail _ h1
      · intro top rest hcons hn
        obtain ⟨s, hs, hne⟩ := hhead
        match ts, hs with
        | _ :: ts', hs =>
          simp only [List.head?_cons, Option.some_inj] at hs
          exact ⟨s, ts', by rw [hs], hne⟩
    | Token.closeParen =>
      have hwf' : opensNamed ts = true := by simpa [opensNamed] using hwf
      match stack with
      | [] => simp [parseFold, parseStep] at hres
      | current :: rest =>
        have hcurname : SyntaxItem.name current ≠ [] := by
          intro hn
          obtain ⟨s, ts', hcons, _⟩ := htop _ rest rfl hn
          simp at hcons
        have hcurset : AllNamesSet current := by
          obtain ⟨n, args, ch⟩ := current
          exact AllNamesSet.mk n args ch (by simpa [SyntaxItem.name] using hcurname)
            (hch _ (List.mem_cons_self _ _))
        match rest with
        | [] =>
          simp only [parseFold, parseStep] at hres
          refine ih (current :: []) hwf' ?_ (by simp) ?_ res hres i hi
          · intro j hj
            rcases List.mem_cons.mp hj with h1 | h1
            · subst h1; exact hch _ (List.mem_cons_self _ _)
            · simp at h1
          · intro top r hcons hn
            have : top = current := by
              have := (List.cons.injEq _ _ _ _).mp hcons
              exact this.1.symm
            exact absurd (this ▸ hn) hcurname
        | SyntaxItem.mk pn pargs pch :: rest' =>
          simp only [parseFold, parseStep] at hres
          have hpn : pn ≠ [] := by
            have := htail (SyntaxItem.mk pn pargs pch) (by simp)
            simpa [SyntaxItem.name] using this
          refine ih (SyntaxItem.mk pn pargs (pch ++ [current]) :: rest') hwf' ?_ ?_ ?_ res hres i hi
          · intro j hj
            rcases List.mem_cons.mp hj with h1 | h1
            · subst h1
              intro cc hcc
              simp only [SyntaxItem.children] at hcc
              rcases List.mem_append.mp hcc with h2 | h2
              · exact hch (SyntaxItem.mk pn pargs pch) (by simp) cc
                  (by simpa [SyntaxItem.children] using h2)
              · have : cc = current := by simpa using h2
                subst this
                exact hcurset
            · exact hch _ (by simp [h1])
          · intro j hj
            simp only [List.tail_cons] at hj
            exact htail _ (by simp [hj])
          · intro top r hcons hn
            have : top = SyntaxItem.mk pn pargs (pch ++ [current]) := by
              have := (List.cons.injEq _ _ _ _).mp hcons
              exact this.1.symm
            rw [this] at hn
            exact absurd (by simpa [SyntaxItem.name] using hn) hpn
    | Token.identifier s =>
      have hwf' : opensNamed ts = true := by simpa [opensNamed] using hwf
      match stack with
      | [] => simp [parseFold, parseStep] at hres
      | SyntaxItem.mk n args ch :: rest =>
        by_cases hn : n = []
        · have hs : s ≠ [] := by
            obtain ⟨s', ts', hcons, hne⟩ := htop _ rest rfl (by simpa [SyntaxItem.name] using hn)
            have : s' = s := by
              have := (List.cons.injEq _ _ _ _).mp hcons
              exact (Token.identifier.injEq _ _).mp this.1.symm
            exact this ▸ hne
          simp only [parseFold, parseStep, hn, if_pos] at hres
          refine ih (SyntaxItem.mk s args ch :: rest) hwf' ?_ htail ?_ res hres i hi
          · intro j hj
            rcases List.mem_cons.mp hj with h1 | h1
            · subst h1
              exact hch (SyntaxItem.mk n args ch) (by simp)
            · exact hch _ (by simp [h1])
          · intro top r hcons hn2
            have : top = SyntaxItem.mk s args ch := by
              have := (List.cons.injEq _ _ _ _).mp hcons
              exact this.1.symm
            rw [this] at hn2
            exact absurd (by simpa [SyntaxItem.name] using hn2) hs
        · simp only [parseFold, parseStep, hn, if_neg, if_false] at hres
          refine ih (SyntaxItem.mk n
              (args ++ [SyntaxArgument.Identifier s PositionPreference.None]) ch :: rest)
            hwf' ?_ htail ?_ res hres i hi
          · intro j hj
            rcases List.mem_cons.mp hj with h1 | h1
            · subst h1
              exact hch (SyntaxItem.mk n args ch) (by simp)
            · exact hch _ (by simp [h1])
          · intro top r hcons hn2
            have : top = SyntaxItem.mk n
                (args ++ [SyntaxArgument.Identifier s PositionPreference.None]) ch := by
              have := (List.cons.injEq _ _ _ _).mp hcons
              exact this.1.symm
            rw [this] at hn2
            exact absurd (by simpa [SyntaxItem.name] using hn2) hn
    | Token.quotedString s =>
      have hwf' : opensNamed ts = true := by simpa [opensNamed] using hwf
      match stack with
      | [] => simp [parseFold, parseStep] at hres
      | SyntaxItem.mk n args ch :: rest =>
        have hn : n ≠ [] := by
          intro hn
          obtain ⟨s', ts', hcons, _⟩ := htop _ rest rfl (by simpa [SyntaxItem.name] using hn)
          simp at hcons
        simp only [parseFold, parseStep] at hres
        refine ih (SyntaxItem.mk n
            (args ++ [SyntaxArgument.QuotedString s PositionPreference.None]) ch :: rest)
          hwf' ?_ htail ?_ res hres i hi
        · intro j hj
          rcases List.mem_cons.mp hj with h1 | h1
          · subst h1
            exact hch (SyntaxItem.mk n args ch) (by simp)
          · exact hch _ (by simp [h1])
        · intro top r hcons hn2
          have : top = SyntaxItem.mk n
              (args ++ [SyntaxArgument.QuotedString s PositionPreference.None]) ch := by
            have := (List.cons.injEq _ _ _ _).mp hcons
            exact this.1.symm
          rw [this] at hn2
          exact absurd (by simpa [SyntaxItem.name] using hn2) hn
    | Token.number v =>
      have hwf' : opensNamed ts = true := by simpa [opensNamed] using hwf
      match stack with
      | [] => simp [parseFold, parseStep] at hres
      | SyntaxItem.mk n args ch :: rest =>
        have hn : n ≠ [] := by
          intro hn
          obtain ⟨s', ts', hcons, _⟩ := htop _ rest rfl (by simpa [SyntaxItem.name] using hn)
          simp at hcons
        simp only [parseFold, parseStep] at hres
        refine ih (SyntaxItem.mk n
            (args ++ [SyntaxArgument.Number v PositionPreference.None]) ch :: rest)
          hwf' ?_ htail ?_ res hres i hi
        · intro j hj
          rcases List.mem_cons.mp hj with h1 | h1
          · subst h1
            exact hch (SyntaxItem.mk n args ch) (by simp)
          · exact hch _ (by simp [h1])
        · intro top r hcons hn2
          have : top = SyntaxItem.mk n
              (args ++ [SyntaxArgument.Number v PositionPreference.None]) ch := by
            have := (List.cons.injEq _ _ _ _).mp hcons
            exact this.1.symm
          rw [this] at hn2
          exact absurd (by simpa [SyntaxItem.name] using hn2) hn

/-- C9: for a well-formed, parenthesis-balanced token stream forming one
top-level node (`oneTopLevelNode`), in which every `OPEN` is followed by a
nonempty `IDENT` (`opensNamed`), every node of the tree returned by
`parse_syntax_item` has a nonempty name; and the first `IDENT` after an
`OPEN` is what sets the fresh node's name (second conjunct: pushing `OPEN`
then `IDENT s` onto any stack yields a top node named `s`). -/
theorem c9_parse_nonempty_names {F : Type} (ts : List (Token F)) (item : SyntaxItem F)
    (hwf : opensNamed ts = true)
    (hone : oneTopLevelNode ts 0 = true)
    (hres : parseSyntaxItem ts = some item) :
    AllNamesSet item ∧
      ∀ (stack : List (SyntaxItem F)) (s : List Char),
        (parseStep stack Token.openParen).bind (fun st => parseStep st (Token.identifier s)) =
          some (SyntaxItem.mk s [] [] :: stack) := by
  constructor
  · unfold parseSyntaxItem at hres
    rcases hfold : parseFold ([] : List (SyntaxItem F)) ts with _ | res
    · rw [hfold] at hres
      simp at hres
    · rw [hfold] at hres
      match res, hres with
      | i :: rest, hres =>
        simp only [Option.some_inj] at hres
        subst hres
        exact parseFold_names ts [] hwf (by simp) (by simp)
          (by intro top r h; simp at h) (i :: rest) hfold i (by simp)
  · intro stack s
    simp [parseStep]

/-- Witness for `c9_parse_nonempty_names` at the token stream of
`(pad)`. -/
theorem c9_witness :
    AllNamesSet (SyntaxItem.mk (F := Unit) ('p' :: 'a' :: 'd' :: []) [] []) :=
  (c9_parse_nonempty_names (F := Unit)
    (Token.openParen :: Token.identifier ('p' :: 'a' :: 'd' :: []) :: Token.closeParen :: [])
    (SyntaxItem.mk ('p' :: 'a' :: 'd' :: []) [] []) (by decide) (by decide) rfl).1

set_option maxRecDepth 10000 in
theorem layerMatches_toStr : ∀ l : PcbLayer, layerMatches (PcbLayer.toStr l) = [l] := by
  decide

set_option maxRecDepth 10000 in
theorem layerGroups_matches : ∀ p ∈ layerGroups, layerMatches ('*' :: '.' :: p.1) = p.2 := by
  decide

set_option maxRecDepth 10000 in
theorem layerGroups_nodup : (layerGroups.flatMap (fun p => p.2)).Nodup := by
  decide

set_option maxRecDepth 10000 in
theorem layerGroups_keysNodup : (layerGroups.map Prod.fst).Nodup := by
  decide

set_option maxRecDepth 10000 in
theorem toStr_no_star : ∀ l : PcbLayer, (PcbLayer.toStr l).head? ≠ some '*' := by
  decide

set_option maxRecDepth 10000 in
theorem copperGroup_mem : (("Cu").toList, PcbLayer.allCopper) ∈ layerGroups := by
  decide

set_option maxRecDepth 10000 in
theorem allCopper_length : PcbLayer.allCopper.length = 32 := by
  decide

set_option maxRecDepth 10000 in
theorem layer_mem_group : ∀ l : PcbLayer, ∃ p ∈ layerGroups, l ∈ p.2 := by
  decide

/-- Deserializing the serialized arguments is the identity up to
membership, for any group table whose `*.suffix` form matches the group
members exactly. -/
theorem compactLoop_deserialize_mem {F : Type} (disp : F → List Char) :
    ∀ (gs : List (List Char × List PcbLayer)) (list : List PcbLayer),
      (∀ p ∈ gs, layerMatches ('*' :: '.' :: p.1) = p.2) →
      ∀ l : PcbLayer,
        (l ∈ ((layersCompactLoop F gs list).1 ++
            (layersCompactLoop F gs list).2.map (fun l' =>
              SyntaxArgument.Identifier (PcbLayer.toStr l') PositionPreference.None)).flatMap
          (fun arg => layerMatches (SyntaxArgument.getString disp arg)) ↔ l ∈ list) := by
  intro gs
  induction gs with
  | nil =>
    intro list _ l
    simp only [layersCompactLoop, List.nil_append]
    constructor
    · intro h
      simp only [List.mem_flatMap, List.mem_map] at h
      obtain ⟨arg, ⟨l', hl', harg⟩, hmem⟩ := h
      subst harg
      rw [SyntaxArgument.getString, layerMatches_toStr] at hmem
      have : l = l' := by simpa using hmem
      exact this ▸ hl'
    · intro h
      simp only [List.mem_flatMap, List.mem_map]
      refine ⟨SyntaxArgument.Identifier (PcbLayer.toStr l) PositionPreference.None,
        ⟨l, h, rfl⟩, ?_⟩
      rw [SyntaxArgument.getString, layerMatches_toStr]
      simp
  | cons p rest ih =>
    obtain ⟨g, names⟩ := p
    intro list hmatch l
    have hmatchRest : ∀ p ∈ rest, layerMatches ('*' :: '.' :: p.1) = p.2 := by
      intro p hp
      exact hmatch p (List.mem_cons_of_mem _ hp)
    have hmatchSelf : layerMatches ('*' :: '.' :: g) = names :=
      hmatch (g, names) (List.mem_cons_self _ _)
    simp only [layersCompactLoop]
    by_cases hall : names.all (fun x => list.contains x) = true
    · rw [if_pos hall]
      have hallMem : ∀ x ∈ names, x ∈ list := by
        intro x hx
        have := List.all_eq_true.mp hall x hx
        simpa using this
      simp only [List.cons_append, List.flatMap_cons, List.mem_append]
      rw [SyntaxArgument.getString, hmatchSelf]
      have hrec := ih (list.filter (fun x => !names.contains x)) hmatchRest l
      constructor
      · rintro (h | h)
        · exact hallMem l h
        · exact (List.mem_filter.mp (hrec.mp h)).1
      · intro hl
        by_cases hln : l ∈ names
        · exact Or.inl hln
        · refine Or.inr (hrec.mpr ?_)
          rw [List.mem_filter]
          exact ⟨hl, by simpa using hln⟩
    · rw [if_neg hall]
      exact ih list hmatchRest l

/-- Every compacted argument is the `*.suffix` form of one of the
groups. -/
theorem compactLoop_args_shape {F : Type} :
    ∀ (gs : List (List Char × List PcbLayer)) (list : List PcbLayer),
      ∀ a ∈ (layersCompactLoop F gs list).1,
        ∃ p ∈ gs, a = SyntaxArgument.Identifier ('*' :: '.' :: p.1) PositionPreference.None := by
  intro gs
  induction gs with
  | nil =>
    intro list a ha
    simp [layersCompactLoop] at ha
  | cons p rest ih =>
    obtain ⟨g, names⟩ := p
    intro list a ha
    simp only [layersCompactLoop] at ha
    by_cases hall : names.all (fun x => list.contains x) = true
    · rw [if_pos hall] at ha
      rcases List.mem_cons.mp ha with h | h
      · exact ⟨(g, names), List.mem_cons_self _ _, h⟩
      · obtain ⟨p, hp, hpa⟩ := ih _ a h
        exact ⟨p, List.mem_cons_of_mem _ hp, hpa⟩
    · rw [if_neg hall] at ha
      obtain ⟨p, hp, hpa⟩ := ih _ a ha
      exact ⟨p, List.mem_cons_of_mem _ hp, hpa⟩

/-- The `*.suffix` form of a group appears among the compacted arguments
exactly when all group members are in the list. -/
theorem compactLoop_star_iff {F : Type} :
    ∀ (gs : List (List Char × List PcbLayer)) (list : List PcbLayer),
      ((gs.flatMap fun p => p.2).Nodup) →
      ((gs.map Prod.fst).Nodup) →
      ∀ g₀ ms₀, (g₀, ms₀) ∈ gs →
        (SyntaxArgument.Identifier ('*' :: '.' :: g₀) PositionPreference.None
            ∈ (layersCompactLoop F gs list).1 ↔ ∀ l ∈ ms₀, l ∈ list) := by
  intro gs
  induction gs with
  | nil =>
    intro list _ _ g₀ ms₀ h
    simp at h
  | cons p rest ih =>
    obtain ⟨g, names⟩ := p
    intro list hnd hkeys g₀ ms₀ hmem
    have hndRest : (rest.flatMap fun p => p.2).Nodup := by
      simp only [List.flatMap_cons] at hnd
      exact (List.nodup_append.mp hnd).2.1
    have hdisj : ∀ x ∈ names, x ∉ rest.flatMap fun p => p.2 := by
      simp only [List.flatMap_cons] at hnd
      intro x hx
      exact (List.nodup_append.mp hnd).2.2 hx
    have hkeysRest : (rest.map Prod.fst).Nodup := (List.nodup_cons.mp hkeys).2
    have hgNot : g ∉ rest.map Prod.fst := (List.nodup_cons.mp hkeys).1
    simp only [layersCompactLoop]
    rcases List.mem_cons.mp hmem with hself | hrest
    · have hg : g₀ = g := (Prod.mk.injEq _ _ _ _).mp hself |>.1
      have hms : ms₀ = names := (Prod.mk.injEq _ _ _ _).mp hself |>.2
      subst hg
      rw [hms]
      by_cases hall : names.all (fun x => list.contains x) = true
      · rw [if_pos hall]
        constructor
        · intro _
          intro x hx
          have := List.all_eq_true.mp hall x hx
          simpa using this
        · intro _
          exact List.mem_cons_self _ _
      · rw [if_neg hall]
        constructor
        · intro hin
          obtain ⟨⟨g', ms'⟩, hg', heq⟩ := compactLoop_args_shape rest _ _ hin
          have : g₀ = g' := by
            have := (SyntaxArgument.Identifier.injEq _ _ _ _).mp heq |>.1
            simpa using this
          exact absurd (this ▸ List.mem_map_of_mem Prod.fst hg') hgNot
        · intro hx
          refine absurd ?_ hall
          rw [List.all_eq_true]
          intro x hx'
          simpa using hx x hx'
    · have hg₀ : g₀ ∈ rest.map Prod.fst := List.mem_map_of_mem Prod.fst hrest
      have hne : g₀ ≠ g := by
        intro h
        exact hgNot (h ▸ hg₀)
      have hdisj₀ : ∀ x ∈ ms₀, x ∉ names := by
        intro x hx hxn
        exact hdisj x hxn (List.mem_flatMap.mpr ⟨(g₀, ms₀), hrest, hx⟩)
      by_cases hall : names.all (fun x => list.contains x) = true
      · rw [if_pos hall]
        rw [List.mem_cons]
        have hih := ih (list.filter (fun x => !names.contains x)) hndRest hkeysRest g₀ ms₀ hrest
        constructor
        · rintro (h | h)
          · have := (SyntaxArgument.Identifier.injEq _ _ _ _).mp h |>.1
            exact absurd (by simpa using this) hne
          · intro x hx
            have := hih.mp h x hx
            exact (List.mem_filter.mp this).1
        · intro hx
          refine Or.inr (hih.mpr ?_)
          intro x hxm
          rw [List.mem_filter]
          exact ⟨hx x hxm, by simpa using hdisj₀ x hxm⟩
      · rw [if_neg hall]
        exact ih list hndRest hkeysRest g₀ ms₀ hrest

/-- A layer stays in the remaining (explicit-name) part exactly when it is
in the list and no group containing it is fully present. -/
theorem compactLoop_remaining_mem {F : Type} :
    ∀ (gs : List (List Char × List PcbLayer)) (list : List PcbLayer),
      ((gs.flatMap fun p => p.2).Nodup) →
      ∀ l : PcbLayer,
        (l ∈ (layersCompactLoop F gs list).2 ↔
          l ∈ list ∧ ∀ p ∈ gs, l ∈ p.2 → ¬(∀ x ∈ p.2, x ∈ list)) := by
  intro gs
  induction gs with
  | nil =>
    intro list _ l
    simp [layersCompactLoop]
  | cons p rest ih =>
    obtain ⟨g, names⟩ := p
    intro list hnd l
    have hndRest : (rest.flatMap fun p => p.2).Nodup := by
      simp only [List.flatMap_cons] at hnd
      exact (List.nodup_append.mp hnd).2.1
    have hdisj : ∀ x ∈ names, x ∉ rest.flatMap fun p => p.2 := by
      simp only [List.flatMap_cons] at hnd
      intro x hx
      exact (List.nodup_append.mp hnd).2.2 hx
    simp only [layersCompactLoop]
    by_cases hall : names.all (fun x => list.contains x) = true
    · rw [if_pos hall]
      have hallMem : ∀ x ∈ names, x ∈ list := by
        intro x hx
        have := List.all_eq_true.mp hall x hx
        simpa using this
      have hih := ih (list.filter (fun x => !names.contains x)) hndRest l
      rw [hih]
      constructor
      · rintro ⟨hl, hrest⟩
        obtain ⟨hl', hln⟩ := List.mem_filter.mp hl
        have hln' : l ∉ names := by simpa using hln
        refine ⟨hl', ?_⟩
        intro p hp hlp
        rcases List.mem_cons.mp hp with h | h
        · subst h
          exact fun _ => hln' hlp
        · intro hcon
          refine hrest p h hlp ?_
          intro x hx
          rw [List.mem_filter]
          refine ⟨hcon x hx, ?_⟩
          have : x ∉ names := by
            intro hxn
            exact hdisj x hxn (List.mem_flatMap.mpr ⟨p, h, hx⟩)
          simpa using this
      · rintro ⟨hl, hconds⟩
        have hln : l ∉ names := by
          intro hln
          exact hconds (g, names) (List.mem_cons_self _ _) hln hallMem
        refine ⟨List.mem_filter.mpr ⟨hl, by simpa using hln⟩, ?_⟩
        intro p hp hlp hcon
        refine hconds p (List.mem_cons_of_mem _ hp) hlp ?_
        intro x hx
        exact (List.mem_filter.mp (hcon x hx)).1
    · rw [if_neg hall]
      have hih := ih list hndRest l
      rw [hih]
      have hnotall : ¬(∀ x ∈ names, x ∈ list) := by
        intro hcon
        exact hall (List.all_eq_true.mpr (fun x hx => by simpa using hcon x hx))
      constructor
      · rintro ⟨hl, hrest⟩
        refine ⟨hl, ?_⟩
        intro p hp hlp
        rcases List.mem_cons.mp hp with h | h
        · subst h
          exact fun hcon => hnotall hcon
        · exact hrest p h hlp
      · rintro ⟨hl, hconds⟩
        exact ⟨hl, fun p hp hlp => hconds p (List.mem_cons_of_mem _ hp) hlp⟩

/-- C2: for every list `L` of `PcbLayer`s, (1) deserializing the serialized
layer list yields exactly the layers of `L` (as a set — the Rust
deserializer iterates a `HashMap` in unspecified order); (2) the compacted
`*.X` token is emitted for a suffix group exactly when every layer of that
group is present in `L`; (3) in particular `*.Cu` is emitted exactly when
all copper layers are present, and (4) there are 32 copper layers;
(5) a present layer belonging to no fully-present group is emitted by its
explicit name. -/
theorem c2_layer_list_roundtrip {F : Type} (disp : F → List Char) (L : List PcbLayer) :
    (∀ l : PcbLayer, l ∈ layersDeserialize disp (layersSerialize F L) ↔ l ∈ L) ∧
    (∀ p ∈ layerGroups,
      (SyntaxArgument.Identifier ('*' :: '.' :: p.1) PositionPreference.None
          ∈ (layersSerialize F L).arguments ↔ ∀ l ∈ p.2, l ∈ L)) ∧
    (SyntaxArgument.Identifier (("*.Cu").toList) PositionPreference.None
        ∈ (layersSerialize F L).arguments ↔ ∀ l ∈ PcbLayer.allCopper, l ∈ L) ∧
    PcbLayer.allCopper.length = 32 ∧
    (∀ l ∈ L, (∀ p ∈ layerGroups, l ∈ p.2 → ¬(∀ x ∈ p.2, x ∈ L)) →
      SyntaxArgument.Identifier (PcbLayer.toStr l) PositionPreference.None
        ∈ (layersSerialize F L).arguments) := by
  have hargs : (layersSerialize F L).arguments =
      (layersCompactLoop F layerGroups L).1 ++
        (layersCompactLoop F layerGroups L).2.map (fun l =>
          SyntaxArgument.Identifier (PcbLayer.toStr l) PositionPreference.None) := rfl
  have h2 : ∀ p ∈ layerGroups,
      (SyntaxArgument.Identifier ('*' :: '.' :: p.1) PositionPreference.None
          ∈ (layersSerialize F L).arguments ↔ ∀ l ∈ p.2, l ∈ L) := by
    intro p hp
    have hstar := compactLoop_star_iff (F := F) layerGroups L layerGroups_nodup
      layerGroups_keysNodup p.1 p.2 (by obtain ⟨a, b⟩ := p; exact hp)
    rw [hargs, List.mem_append]
    constructor
    · rintro (h | h)
      · exact hstar.mp h
      · exfalso
        obtain ⟨l', _, heq⟩ := List.mem_map.mp h
        have hstr := (SyntaxArgument.Identifier.injEq _ _ _ _).mp heq |>.1
        have : (PcbLayer.toStr l').head? = some '*' := by rw [hstr]; rfl
        exact toStr_no_star l' this
    · intro h
      exact Or.inl (hstar.mpr h)
  refine ⟨?_, h2, ?_, allCopper_length, ?_⟩
  · intro l
    have := compactLoop_deserialize_mem disp layerGroups L layerGroups_matches l
    simpa [layersDeserialize, layersSerialize, SyntaxItem.arguments] using this
  · have hcu := h2 (("Cu").toList, PcbLayer.allCopper) copperGroup_mem
    exact hcu
  · intro l hl hnot
    have hrem : l ∈ (layersCompactLoop F layerGroups L).2 :=
      (compactLoop_remaining_mem layerGroups L layerGroups_nodup l).mpr
        ⟨hl, fun p hp hlp hcon => hnot p hp hlp hcon⟩
    rw [hargs, List.mem_append]
    exact Or.inr (List.mem_map_of_mem _ hrem)

/-- Witness for `c2_layer_list_roundtrip`: the `Cu` suffix group is a
group of `layerGroups`, discharged concretely. -/
theorem c2_witness :
    SyntaxArgument.Identifier ('*' :: '.' :: ("Cu").toList) PositionPreference.None
        ∈ (layersSerialize Unit PcbLayer.allCopper).arguments ↔
      ∀ l ∈ PcbLayer.allCopper, l ∈ PcbLayer.allCopper :=
  (c2_layer_list_roundtrip (fun _ : Unit => []) PcbLayer.allCopper).2.1
    (("Cu").toList, PcbLayer.allCopper) copperGroup_mem

theorem seqCheckFrom_cons (st : Nat) (p : List Char × Nat) (parts : List (List Char × Nat)) :
    seqCheckFrom st (p :: parts) = (decide (p.2 = st) && seqCheckFrom (st + 1) parts) := by
  simp [seqCheckFrom, List.range'_succ]

theorem baseCheck_cons (p q : List Char × Nat) (parts : List (List Char × Nat)) :
    baseCheck (p :: q :: parts) = (decide (p.1 = q.1) && baseCheck (q :: parts)) := by
  simp [baseCheck]

theorem unitParts_cons (id : List Char) (rest : List (List Char)) :
    unitParts (id :: rest) = unitPartUnwrap (unitNamePart id) :: unitParts rest := rfl

/-- The section-id layout condition implies all three checks of the
assembly code pass (and fixes the head base). -/
theorem spec_to_passes :
    ∀ (ids : List (List Char)) (st : Nat) (base : List Char),
      unitIdsSpec base st ids →
      (ids.map unitNamePart).any unitPartBad = false ∧
        seqCheckFrom st (unitParts ids) = true ∧
        baseCheck (unitParts ids) = true ∧
        ∀ q ∈ (unitParts ids).head?, q.1 = base := by
  intro ids
  induction ids with
  | nil =>
    intro st base _
    refine ⟨rfl, rfl, rfl, ?_⟩
    intro q hq
    simp [unitParts] at hq
  | cons id rest ih =>
    intro st base hspec
    obtain ⟨⟨ns, hsplit, hparse⟩, hrest⟩ := hspec
    obtain ⟨hany, hseq, hbase, hhead⟩ := ih (st + 1) base hrest
    have hnp : unitNamePart id = some (base, some st) := by
      simp [unitNamePart, hsplit, hparse]
    have hcons : unitParts (id :: rest) = (base, st) :: unitParts rest := by
      rw [unitParts_cons, hnp]
      rfl
    refine ⟨?_, ?_, ?_, ?_⟩
    · simp [List.any_cons, hnp, unitPartBad, hany]
    · rw [hcons, seqCheckFrom_cons]
      simp [hseq]
    · rw [hcons]
      cases hup2 : unitParts rest with
      | nil => rfl
      | cons q qs =>
        rw [baseCheck_cons]
        have hq1 : q.1 = base := hhead q (by rw [hup2]; rfl)
        have hbase' : baseCheck (q :: qs) = true := hup2 ▸ hbase
        simp [hq1, hbase']
    · intro q hq
      rw [hcons] at hq
      simp only [List.head?_cons, Option.mem_def, Option.some_inj] at hq
      rw [← hq]

/-- From the three passing checks, the section ids satisfy the layout
condition, with the base fixed by the head entry. -/
theorem passes_to_spec :
    ∀ (ids : List (List Char)) (st : Nat) (base : List Char),
      (ids.map unitNamePart).any unitPartBad = false →
      seqCheckFrom st (unitParts ids) = true →
      baseCheck (unitParts ids) = true →
      (∀ q ∈ (unitParts ids).head?, q.1 = base) →
      unitIdsSpec base st ids := by
  intro ids
  induction ids with
  | nil =>
    intro st base _ _ _ _
    trivial
  | cons id rest ih =>
    intro st base hany hseq hbase hhead
    have hbads : unitPartBad (unitNamePart id) = false ∧
        (rest.map unitNamePart).any unitPartBad = false := by
      simpa [List.any_cons] using hany
    obtain ⟨hbad1, hbad2⟩ := hbads
    match hsplit : splitAtLastDot id with
    | Option.none =>
      rw [show unitNamePart id = Option.none by simp [unitNamePart, hsplit]] at hbad1
      simp [unitPartBad] at hbad1
    | some (b, ns) =>
      match hparse : parseUsize ns with
      | Option.none =>
        rw [show unitNamePart id = some (b, Option.none) by
          simp [unitNamePart, hsplit, hparse]] at hbad1
        simp [unitPartBad] at hbad1
      | some n =>
        have hnp : unitNamePart id = some (b, some n) := by
          simp [unitNamePart, hsplit, hparse]
        have hcons : unitParts (id :: rest) = (b, n) :: unitParts rest := by
          rw [unitParts_cons, hnp]
          rfl
        rw [hcons, seqCheckFrom_cons] at hseq
        simp only [Bool.and_eq_true, decide_eq_true_eq] at hseq
        obtain ⟨hn, hseq'⟩ := hseq
        have hb : b = base := hhead (b, n) (by rw [hcons]; rfl)
        refine ⟨⟨ns, by rw [hsplit, hb], by rw [hparse, hn]⟩, ?_⟩
        cases hrestp : unitParts rest with
        | nil =>
          have : rest = [] := by
            have hlen := congrArg List.length hrestp
            simpa [unitParts] using hlen
          subst this
          trivial
        | cons q qs =>
          rw [hcons, hrestp, baseCheck_cons] at hbase
          simp only [Bool.and_eq_true, decide_eq_true_eq] at hbase
          obtain ⟨hq1, hbase'⟩ := hbase
          refine ih (st + 1) base hbad2 hseq' (by rw [hrestp]; exact hbase') ?_
          intro q' hq'
          rw [hrestp] at hq'
          simp only [List.head?_cons, Option.mem_def, Option.some_inj] at hq'
          rw [← hq', ← hq1, hb]

/-- Unfolding of `symbolTryIntoUnits` in the multi-section case. -/
theorem symbolTryIntoUnits_complex (allSymbols : List KSymbol)
    (hk : 1 < allSymbols.length) :
    symbolTryIntoUnits allSymbols =
      (if ((allSymbols.map KSymbol.symbol_id).map unitNamePart).any unitPartBad then
        some (.error SymbolConverterError.IncorrectUnitFormat)
      else if ¬(seqCheckFrom 1 (unitParts (allSymbols.map KSymbol.symbol_id)) = true) then
        some (.error SymbolConverterError.IncorrectUnitNumIdentifier)
      else if ¬(baseCheck (unitParts (allSymbols.map KSymbol.symbol_id)) = true) then
        some (.error SymbolConverterError.IncorrectUnitName)
      else
        some (.ok (KSymbol.mk
          ((((unitParts (allSymbols.map KSymbol.symbol_id)).head?).map Prod.fst).getD [])
          (some true) (some true)
          (allSymbols.enum.map (fun p =>
            KSymbol.mk
              (((((unitParts (allSymbols.map KSymbol.symbol_id)).head?).map Prod.fst).getD [])
                ++ ('_' :: (Nat.repr (p.1 + 1)).toList) ++ ('_' :: '1' :: []))
              Option.none Option.none (KSymbol.units p.2)))))) := by
  simp only [symbolTryIntoUnits, if_pos hk, unitParts]

/-- C4: with more than one `PART` section, the translation succeeds
exactly when every section id is `BASE.N` with one common `BASE` and the
numbers, in section order, are exactly `1..k`; a failing layout yields one
of the three unit errors; on success the outer symbol has id `BASE`,
`in_bom` and `on_board` set to `true`, and the i-th unit is named
`BASE_i_1` with both flags unset; and the concrete sections `U1.1`,
`U1.3` are rejected (with `IncorrectUnitNumIdentifier`). -/
theorem c4_multi_unit_symbol (allSymbols : List KSymbol) (hk : 1 < allSymbols.length) :
    ((∃ root, symbolTryIntoUnits allSymbols = some (.ok root)) ↔
      ∃ base, unitIdsSpec base 1 (allSymbols.map KSymbol.symbol_id)) ∧
    ((¬∃ base, unitIdsSpec base 1 (allSymbols.map KSymbol.symbol_id)) →
      symbolTryIntoUnits allSymbols =
          some (.error SymbolConverterError.IncorrectUnitFormat) ∨
        symbolTryIntoUnits allSymbols =
          some (.error SymbolConverterError.IncorrectUnitNumIdentifier) ∨
        symbolTryIntoUnits allSymbols =
          some (.error SymbolConverterError.IncorrectUnitName)) ∧
    (∀ root base, symbolTryIntoUnits allSymbols = some (.ok root) →
      unitIdsSpec base 1 (allSymbols.map KSymbol.symbol_id) →
      KSymbol.symbol_id root = base ∧
      KSymbol.in_bom root = some true ∧
      KSymbol.on_board root = some true ∧
      (KSymbol.units root).length = allSymbols.length ∧
      ∀ (i : Nat) (h : i < (KSymbol.units root).length),
        KSymbol.symbol_id ((KSymbol.units root)[i]) =
          base ++ ('_' :: (Nat.repr (i + 1)).toList) ++ ('_' :: '1' :: []) ∧
        KSymbol.in_bom ((KSymbol.units root)[i]) = Option.none ∧
        KSymbol.on_board ((KSymbol.units root)[i]) = Option.none) ∧
    symbolTryIntoUnits
        (KSymbol.mk (("U1.1").toList) (some true) (some true) [] ::
          KSymbol.mk (("U1.3").toList) (some true) (some true) [] :: []) =
      some (.error SymbolConverterError.IncorrectUnitNumIdentifier) := by
  have hconc : symbolTryIntoUnits
      (KSymbol.mk (("U1.1").toList) (some true) (some true) [] ::
        KSymbol.mk (("U1.3").toList) (some true) (some true) [] :: []) =
      some (.error SymbolConverterError.IncorrectUnitNumIdentifier) := by rfl
  rw [symbolTryIntoUnits_complex allSymbols hk]
  by_cases hany :
      ((allSymbols.map KSymbol.symbol_id).map unitNamePart).any unitPartBad = true
  · rw [if_pos hany]
    refine ⟨⟨?_, ?_⟩, ?_, ?_, hconc⟩
    · rintro ⟨root, h⟩
      simp at h
    · rintro ⟨base, hspec⟩
      have := (spec_to_passes _ 1 base hspec).1
      rw [this] at hany
      simp at hany
    · intro _
      exact Or.inl rfl
    · intro root base h
      simp at h
  · rw [if_neg hany]
    have hany' : ((allSymbols.map KSymbol.symbol_id).map unitNamePart).any unitPartBad
        = false := by simpa using hany
    by_cases hseq : seqCheckFrom 1 (unitParts (allSymbols.map KSymbol.symbol_id)) = true
    · rw [if_neg (not_not_intro hseq)]
      by_cases hbase : baseCheck (unitParts (allSymbols.map KSymbol.symbol_id)) = true
      · rw [if_neg (not_not_intro hbase)]
        have hspec0 : unitIdsSpec
            ((((unitParts (allSymbols.map KSymbol.symbol_id)).head?).map Prod.fst).getD [])
            1 (allSymbols.map KSymbol.symbol_id) := by
          refine passes_to_spec _ 1 _ hany' hseq hbase ?_
          intro q hq
          simp only [Option.mem_def] at hq
          rw [hq]
          rfl
        refine ⟨⟨fun _ => ⟨_, hspec0⟩, fun _ => ⟨_, rfl⟩⟩, ?_, ?_, hconc⟩
        · intro hnot
          exact absurd ⟨_, hspec0⟩ hnot
        · intro root base hok hspec
          have hne : unitParts (allSymbols.map KSymbol.symbol_id) ≠ [] := by
            intro hcon
            have := congrArg List.length hcon
            simp only [unitParts, List.length_map, List.length_nil] at this
            omega
          obtain ⟨q₀, hq₀⟩ := List.exists_mem_of_ne_nil _ hne
          have hhd : (unitParts (allSymbols.map KSymbol.symbol_id)).head? = some
              ((unitParts (allSymbols.map KSymbol.symbol_id)).head hne) :=
            List.head?_eq_head hne
          have hheadbase := (spec_to_passes _ 1 base hspec).2.2.2
          have hbase0 :
              (((unitParts (allSymbols.map KSymbol.symbol_id)).head?).map Prod.fst).getD []
                = base := by
            rw [hhd]
            exact hheadbase _ (by rw [hhd]; rfl)
          have hroot : root = KSymbol.mk base (some true) (some true)
              (allSymbols.enum.map (fun p =>
                KSymbol.mk (base ++ ('_' :: (Nat.repr (p.1 + 1)).toList) ++ ('_' :: '1' :: []))
                  Option.none Option.none (KSymbol.units p.2))) := by
            rw [← hbase0]
            simpa using hok.symm
          subst hroot
          refine ⟨rfl, rfl, rfl, by simp [KSymbol.units], ?_⟩
          intro i h
          simp only [KSymbol.units, List.getElem_map, List.getElem_enum]
          exact ⟨rfl, rfl, rfl⟩
      · rw [if_pos hbase]
        refine ⟨⟨?_, ?_⟩, ?_, ?_, hconc⟩
        · rintro ⟨root, h⟩
          simp at h
        · rintro ⟨base, hspec⟩
          exact absurd (spec_to_passes _ 1 base hspec).2.2.1 hbase
        · intro _
          exact Or.inr (Or.inr rfl)
        · intro root base h
          simp at h
    · rw [if_pos hseq]
      refine ⟨⟨?_, ?_⟩, ?_, ?_, hconc⟩
      · rintro ⟨root, h⟩
        simp at h
      · rintro ⟨base, hspec⟩
        exact absurd (spec_to_passes _ 1 base hspec).2.1 hseq
      · intro _
        exact Or.inr (Or.inl rfl)
      · intro root base h
        simp at h

/-- Witness for `c4_multi_unit_symbol`: two sections `U3.1`, `U3.2`
translate successfully. -/
theorem c4_witness :
    ∃ root, symbolTryIntoUnits
        (KSymbol.mk (("U3.1").toList) (some true) (some true) [] ::
          KSymbol.mk (("U3.2").toList) (some true) (some true) [] :: []) =
      some (.ok root) :=
  (c4_multi_unit_symbol
    (KSymbol.mk (("U3.1").toList) (some true) (some true) [] ::
      KSymbol.mk (("U3.2").toList) (some true) (some true) [] :: [])
    (by decide)).1.mpr
    ⟨("U3").toList,
      ⟨("1").toList, by rfl, by rfl⟩, ⟨("2").toList, by rfl, by rfl⟩, trivial⟩

/-- Unfolding of `fixLAux` on a string token. -/
theorem fixLAux_str (isLine : Bool) (counter : Nat) (s : List Char)
    (rest : List JValue) :
    fixLAux isLine counter (JValue.str s :: rest) =
      JValue.str s :: fixLAux (s = ("L").toList)
        (if s = ("L").toList then 0 else counter) rest := rfl

/-- Unfolding of `fixLAux` on a non-string token. -/
theorem fixLAux_nonstr (v : JValue) (hv : v.isString = false) (isLine : Bool)
    (counter : Nat) (rest : List JValue) :
    fixLAux isLine counter (v :: rest) =
      (if isLine then
        if counter > 0 ∧ counter % 2 = 0 then
          JValue.str (("L").toList) :: v :: fixLAux isLine 1 rest
        else v :: fixLAux isLine (counter + 1) rest
      else v :: fixLAux isLine counter rest) := by
  cases v with
  | str s => simp [JValue.isString] at hv
  | null => rfl
  | bool b => rfl
  | num q => rfl
  | arr vs => rfl

/-- Unfolding of `fixLAux` on a non-string token when inside an `L` run. -/
theorem fixLAux_true_step (v : JValue) (hv : v.isString = false)
    (counter : Nat) (rest : List JValue) :
    fixLAux true counter (v :: rest) =
      if counter > 0 ∧ counter % 2 = 0 then
        JValue.str (("L").toList) :: v :: fixLAux true 1 rest
      else v :: fixLAux true (counter + 1) rest := by
  rw [fixLAux_nonstr v hv, if_pos rfl]

/-- The implicit-`L` pass only inserts `L` tokens: every input token is
kept unmodified and in order, from any loop state. -/
theorem onlyLInserted_fixLAux (ts : List JValue) :
    ∀ (b : Bool) (c : Nat), OnlyLInserted ts (fixLAux b c ts) := by
  induction ts with
  | nil => intro b c; exact .nil
  | cons v rest ih =>
    intro b c
    have key : ∀ w : JValue, w.isString = false →
        OnlyLInserted (w :: rest) (fixLAux b c (w :: rest)) := by
      intro w hw
      rw [fixLAux_nonstr w hw]
      split
      · split
        · exact .ins (.keep _ (ih _ _))
        · exact .keep _ (ih _ _)
      · exact .keep _ (ih _ _)
    cases v with
    | str s => rw [fixLAux_str]; exact .keep _ (ih _ _)
    | null => exact key _ rfl
    | bool b2 => exact key _ rfl
    | num q => exact key _ rfl
    | arr vs => exact key _ rfl

/-- Outside an `L` run the pass never rewrites anything when no `L`
command occurs in the remaining tokens. -/
theorem fixLAux_no_L (ts : List JValue) :
    ∀ (c : Nat), JValue.str (("L").toList) ∉ ts → fixLAux false c ts = ts := by
  induction ts with
  | nil => intro c _; rfl
  | cons v rest ih =>
    intro c hnot
    have hv : v ≠ JValue.str (("L").toList) := fun h =>
      hnot (h ▸ List.mem_cons_self _ _)
    have hrest : JValue.str (("L").toList) ∉ rest := fun h =>
      hnot (List.mem_cons_of_mem _ h)
    have key : ∀ w : JValue, w.isString = false →
        fixLAux false c (w :: rest) = w :: rest := by
      intro w hw
      rw [fixLAux_nonstr w hw]
      simp [ih c hrest]
    cases v with
    | str s =>
      have hsL : ¬ (s = ("L").toList) := fun h => hv (by rw [h])
      rw [fixLAux_str, if_neg hsL, decide_eq_false hsL]
      exact congrArg _ (ih c hrest)
    | null => exact key _ rfl
    | bool b2 => exact key _ rfl
    | num q => exact key _ rfl
    | arr vs => exact key _ rfl

/-- On an all-numeric argument run after an `L` command, the pass from
each of its three reachable counter states produces pair chunking with an
`L` before every pair after the first. -/
theorem fixL_pairs : ∀ (n : Nat) (vs : List JValue), vs.length ≤ n →
    (∀ x ∈ vs, x.isString = false) →
    fixLAux true 0 vs = chunkPairsL vs ∧
    fixLAux true 1 vs =
      (match vs with
       | [] => ([] : List JValue)
       | v :: rest =>
         v :: (match rest with
           | [] => ([] : List JValue)
           | _ :: _ => JValue.str (("L").toList) :: chunkPairsL rest)) ∧
    fixLAux true 2 vs =
      (match vs with
       | [] => ([] : List JValue)
       | _ :: _ => JValue.str (("L").toList) :: chunkPairsL vs) := by
  intro n
  induction n with
  | zero =>
    intro vs hlen _
    have hnil : vs = [] := List.length_eq_zero.mp (Nat.le_zero.mp hlen)
    subst hnil
    exact ⟨rfl, rfl, rfl⟩
  | succ n ih =>
    intro vs hlen hns
    cases vs with
    | nil => exact ⟨rfl, rfl, rfl⟩
    | cons v rest =>
      have hv : v.isString = false := hns v (List.mem_cons_self _ _)
      have hrest : ∀ x ∈ rest, x.isString = false := fun x hx =>
        hns x (List.mem_cons_of_mem _ hx)
      have hlen' : rest.length ≤ n := by
        simp only [List.length_cons] at hlen; omega
      obtain ⟨ih0, ih1, ih2⟩ := ih rest hlen' hrest
      refine ⟨?_, ?_, ?_⟩
      · rw [fixLAux_true_step v hv 0 rest, if_neg (by decide), ih1]
        cases rest with
        | nil => rfl
        | cons v2 rest2 => rfl
      · rw [fixLAux_true_step v hv 1 rest, if_neg (by decide), ih2]
      · rw [fixLAux_true_step v hv 2 rest, if_pos (by decide), ih1]
        cases rest with
        | nil => rfl
        | cons v2 rest2 => rfl

/-- C7: in `parse_path_expression` a synthetic leading `M` command is
inserted iff the first path token is a number (and a read of the first
token of an empty path panics); the implicit-`L` pass only ever inserts
`L` tokens, keeping every original token unmodified and in order; it
inserts nothing at all while outside an `L` run (no `L` command in the
tokens it walks); after an `L` command an all-numeric argument run is
chunked into coordinate pairs with an implicit `L` in front of every pair
after the first, i.e. exactly once the preceding `L` has consumed its
first pair; and the whole pre-processing is these two passes, the second
starting at index 3. -/
theorem c7_path_preprocessing (v : JValue) (rest : List JValue) :
    (insertLeadingM (v :: rest) =
      some (if v.isNum then JValue.str (("M").toList) :: v :: rest
            else v :: rest)) ∧
    (insertLeadingM ([] : List JValue) = Option.none) ∧
    (∀ (b : Bool) (c : Nat) (ts : List JValue),
      OnlyLInserted ts (fixLAux b c ts)) ∧
    (∀ (c : Nat) (ts : List JValue),
      JValue.str (("L").toList) ∉ ts → fixLAux false c ts = ts) ∧
    (∀ vs : List JValue, (∀ x ∈ vs, x.isString = false) →
      fixLAux true 0 vs = chunkPairsL vs) ∧
    (parsePathPre (v :: rest) =
      some ((if v.isNum then JValue.str (("M").toList) :: v :: rest
             else v :: rest).take 3 ++
        fixLAux false 0 ((if v.isNum then JValue.str (("M").toList) :: v :: rest
             else v :: rest).drop 3))) := by
  refine ⟨?_, rfl, fun b c ts => onlyLInserted_fixLAux ts b c,
    fun c ts h => fixLAux_no_L ts c h,
    fun vs h => (fixL_pairs vs.length vs le_rfl h).1, ?_⟩
  · cases hv : v.isNum <;> simp [insertLeadingM, hv]
  · cases hv : v.isNum <;> simp [parsePathPre, insertLeadingM, hv]

/-- Witness for `c7_path_preprocessing`: a numeric head receives the
synthetic `M`, and the run `L 1 2 3 4` becomes `L 1 2 L 3 4`. -/
theorem c7_witness :
    insertLeadingM (JValue.num 5 :: JValue.num 7 :: []) =
      some (JValue.str (("M").toList) :: JValue.num 5 :: JValue.num 7 :: []) ∧
    fixLAux true 0
        (JValue.num 1 :: JValue.num 2 :: JValue.num 3 :: JValue.num 4 :: []) =
      (JValue.num 1 :: JValue.num 2 :: JValue.str (("L").toList) ::
        JValue.num 3 :: JValue.num 4 :: []) :=
  ⟨(c7_path_preprocessing (JValue.num 5) (JValue.num 7 :: [])).1,
    (c7_path_preprocessing (JValue.num 0) []).2.2.2.2.1
      (JValue.num 1 :: JValue.num 2 :: JValue.num 3 :: JValue.num 4 :: [])
      (by decide)⟩

/-- The defaulted solder-mask margin expression of the pad constructor. -/
theorem padMask_margin (pad : EasyPad) :
    (pad.top_solder_expansion.or (some 2)).map (fun v => v * footprintScale) =
      some ((pad.top_solder_expansion.getD 2) * footprintScale) := by
  cases ho : pad.top_solder_expansion <;> simp [ho, Option.or]

/-- The defaulted, clamped solder-paste margin expression of the pad
constructor: clamping after scaling equals scaling the clamp. -/
theorem padPaste_margin (pad : EasyPad) :
    ((pad.top_paste_expansion.or (some 0)).map (fun v => v * footprintScale)).map
        (fun v => max v 0) =
      some (max (pad.top_paste_expansion.getD 0) 0 * footprintScale) := by
  have hscale : (0 : ℚ) ≤ footprintScale := by norm_num [footprintScale]
  cases ho : pad.top_paste_expansion <;>
    simp [ho, Option.or, max_mul_of_nonneg _ _ hscale]

/-- Field characterisation of the base pad record. -/
theorem padBase_fields (layer : EasyLayer) (kl : Option PcbLayer)
    (pad : EasyPad) (bp : KFootprintPad) (h : padBase layer kl pad = some bp) :
    (layer.layer_type = ("MULTI").toList →
      bp.layers = PcbLayer.FMask :: PcbLayer.BMask :: PcbLayer.allCopper) ∧
    (layer.layer_type ≠ ("MULTI").toList →
      ∃ k, kl = some k ∧
        bp.layers = k :: PcbLayer.FMask :: PcbLayer.FPaste :: []) ∧
    bp.solder_mask_margin =
      some ((pad.top_solder_expansion.getD 2) * footprintScale) ∧
    bp.solder_paste_margin =
      some (max (pad.top_paste_expansion.getD 0) 0 * footprintScale) ∧
    bp.pad_type = PadType.Smd ∧ bp.drill = Option.none := by
  by_cases hm : layer.layer_type = ("MULTI").toList
  · simp only [padBase, hm, if_true, Option.map_some, Option.map_some',
      Option.some.injEq] at h
    subst h
    exact ⟨fun _ => rfl, fun hne => absurd hm hne,
      padMask_margin pad, padPaste_margin pad, rfl, rfl⟩
  · simp only [padBase, hm, if_false] at h
    cases kl with
    | none => simp at h
    | some k =>
      simp only [Option.map_some, Option.map_some', Option.some.injEq] at h
      subst h
      exact ⟨fun hmm => absurd hmm hm, fun _ => ⟨k, rfl, rfl⟩,
        padMask_margin pad, padPaste_margin pad, rfl, rfl⟩

/-- The shape stage only writes `pad_shape`, `size` and `primitives`:
every other pad field survives it unchanged. -/
theorem padShapeStage_fields (arcMid : Point2D → Point2D → Rat → Point2D)
    (interp : Point2D → Point2D → Rat → Rat → List Point2D) (fuel : Nat)
    (pad : EasyPad) (bp : KFootprintPad) (path : List JValue)
    (p : KFootprintPad)
    (h : padShapeStage arcMid interp fuel pad bp path = some (.ok p)) :
    p.number = bp.number ∧ p.pad_type = bp.pad_type ∧
    p.position = bp.position ∧ p.drill = bp.drill ∧ p.layers = bp.layers ∧
    p.solder_mask_margin = bp.solder_mask_margin ∧
    p.solder_paste_margin = bp.solder_paste_margin := by
  simp only [padShapeStage] at h
  repeat' split at h
  all_goals simp at h
  all_goals subst h
  all_goals exact ⟨rfl, rfl, rfl, rfl, rfl, rfl, rfl⟩

/-- The hole stage only writes `pad_type` and `drill`: every other pad
field survives it unchanged. -/
theorem padHoleStage_fields (pad : EasyPad) (q p : KFootprintPad)
    (h : padHoleStage pad q = some (.ok p)) :
    p.number = q.number ∧ p.pad_shape = q.pad_shape ∧
    p.position = q.position ∧ p.size = q.size ∧ p.layers = q.layers ∧
    p.solder_mask_margin = q.solder_mask_margin ∧
    p.solder_paste_margin = q.solder_paste_margin ∧
    p.primitives = q.primitives := by
  simp only [padHoleStage] at h
  repeat' split at h
  all_goals simp at h
  all_goals subst h
  all_goals exact ⟨rfl, rfl, rfl, rfl, rfl, rfl, rfl, rfl⟩

/-- A successful pad translation passes through all three stages. -/
theorem translatePad_stages (arcMid : Point2D → Point2D → Rat → Point2D)
    (interp : Point2D → Point2D → Rat → Rat → List Point2D) (fuel : Nat)
    (layer : EasyLayer) (pad : EasyPad) (p : KFootprintPad)
    (h : translatePad arcMid interp fuel layer pad = some (.ok p)) :
    ∃ kl bp path q, getKicadLayer layer = .ok kl ∧
      padBase layer kl pad = some bp ∧
      padShapeStage arcMid interp fuel pad bp path = some (.ok q) ∧
      padHoleStage pad q = some (.ok p) := by
  simp only [translatePad] at h
  cases hpath : pad.path with
  | none => simp [hpath] at h
  | some pathV =>
    simp only [hpath] at h
    cases harr : pathV.asArr with
    | none => simp [harr] at h
    | some path =>
      simp only [harr] at h
      cases hk : getKicadLayer layer with
      | error e => simp [hk] at h
      | ok kl =>
        simp only [hk] at h
        cases hbase : padBase layer kl pad with
        | none => simp [hbase] at h
        | some bp =>
          simp only [hbase] at h
          cases hshape : padShapeStage arcMid interp fuel pad bp path with
          | none => simp [hshape] at h
          | some res =>
            simp only [hshape] at h
            cases res with
            | error e => simp at h
            | ok q => exact ⟨kl, bp, path, q, rfl, hbase, hshape, h⟩

/-- C5: a successfully translated pad on a `MULTI` layer carries
`F.Mask`, `B.Mask` and all 32 copper layers, on any other layer its
mapped KiCad layer plus `F.Mask` and `F.Paste`; its solder-mask margin
is `top_solder_expansion` (default `2.0`) times the mil-to-mm scale
`0.0254`, and its solder-paste margin is the non-negative clamp of
`top_paste_expansion` (default `0.0`) times the same scale. -/
theorem c5_pad_layers_margins (arcMid : Point2D → Point2D → Rat → Point2D)
    (interp : Point2D → Point2D → Rat → Rat → List Point2D) (fuel : Nat)
    (layer : EasyLayer) (pad : EasyPad) (p : KFootprintPad)
    (h : translatePad arcMid interp fuel layer pad = some (.ok p)) :
    (layer.layer_type = ("MULTI").toList →
      p.layers = PcbLayer.FMask :: PcbLayer.BMask :: PcbLayer.allCopper) ∧
    (layer.layer_type ≠ ("MULTI").toList →
      ∃ k, getKicadLayer layer = .ok (some k) ∧
        p.layers = k :: PcbLayer.FMask :: PcbLayer.FPaste :: []) ∧
    PcbLayer.allCopper.length = 32 ∧
    p.solder_mask_margin =
      some ((pad.top_solder_expansion.getD 2) * footprintScale) ∧
    p.solder_paste_margin =
      some (max (pad.top_paste_expansion.getD 0) 0 * footprintScale) := by
  obtain ⟨kl, bp, path, q, hk, hbase, hshape, hhole⟩ :=
    translatePad_stages arcMid interp fuel layer pad p h
  obtain ⟨hbM, hbN, hbmask, hbpaste, -, -⟩ :=
    padBase_fields layer kl pad bp hbase
  obtain ⟨-, -, -, -, hsL, hsM, hsP⟩ :=
    padShapeStage_fields arcMid interp fuel pad bp path q hshape
  obtain ⟨-, -, -, -, hhL, hhM, hhP, -⟩ := padHoleStage_fields pad q p hhole
  refine ⟨?_, ?_, allCopper_length, ?_, ?_⟩
  · intro hm
    rw [hhL, hsL]
    exact hbM hm
  · intro hne
    obtain ⟨k, hkl, hbl⟩ := hbN hne
    refine ⟨k, ?_, ?_⟩
    · rw [hk, hkl]
    · rw [hhL, hsL, hbl]
  · rw [hhM, hsM, hbmask]
  · rw [hhP, hsP, hbpaste]

/-- Witness for `c5_pad_layers_margins`: a concrete `RECT` pad on a
`MULTI` layer with no explicit margins. -/
theorem c5_witness :
    ∃ p, translatePad (fun _ _ _ => Point2D.mk 0 0)
        (fun _ _ _ _ => ([] : List Point2D)) 0
        (EasyLayer.mk (("MULTI").toList) [])
        (EasyPad.mk (("1").toList) 0 0 0 (some JValue.null)
          (some (JValue.arr (JValue.str (("RECT").toList) ::
            JValue.num 1 :: JValue.num 2 :: JValue.num 0 :: [])))
          0 0 Option.none Option.none Option.none) = some (.ok p) ∧
      p.layers = PcbLayer.FMask :: PcbLayer.BMask :: PcbLayer.allCopper ∧
      p.solder_mask_margin = some (2 * footprintScale) ∧
      p.solder_paste_margin = some 0 := by
  have h : translatePad (fun _ _ _ => Point2D.mk 0 0)
      (fun _ _ _ _ => ([] : List Point2D)) 0
      (EasyLayer.mk (("MULTI").toList) [])
      (EasyPad.mk (("1").toList) 0 0 0 (some JValue.null)
        (some (JValue.arr (JValue.str (("RECT").toList) ::
          JValue.num 1 :: JValue.num 2 :: JValue.num 0 :: [])))
        0 0 Option.none Option.none Option.none) =
      some (.ok (KFootprintPad.mk (("1").toList) PadType.Smd PadShape.Rect
        (KPosition.mk ((0 : ℚ) * footprintScale)
          (-(0 : ℚ) * footprintScale) (some 0))
        (1 * footprintScale, 2 * footprintScale)
        Option.none
        (PcbLayer.FMask :: PcbLayer.BMask :: PcbLayer.allCopper)
        (some (2 * footprintScale))
        (some (max ((0 : ℚ) * footprintScale) 0)) Option.none)) := by rfl
  obtain ⟨hM, -, -, hmask, hpaste⟩ :=
    c5_pad_layers_margins _ _ _ _ _ _ h
  refine ⟨_, h, hM rfl, ?_, ?_⟩
  · rw [hmask]; simp
  · rw [hpaste]; simp

/-- C6 counterexample: a hole rotation of 360 degrees is none of 0, 90,
180, 270, yet the pad translates successfully (to a through-hole pad),
because the code first reduces `hole_rotation.abs() as u32` modulo 360,
mapping 360 to 0. -/
theorem c6_counterexample :
    ((360 : ℚ) ≠ 0 ∧ (360 : ℚ) ≠ 90 ∧ (360 : ℚ) ≠ 180 ∧ (360 : ℚ) ≠ 270) ∧
    holeRotU32Mod360 360 = 0 ∧
    translatePad (fun _ _ _ => Point2D.mk 0 0)
        (fun _ _ _ _ => ([] : List Point2D)) 0
        (EasyLayer.mk (("MULTI").toList) [])
        (EasyPad.mk (("2").toList) 0 0 0
          (some (JValue.arr (JValue.str (("ROUND").toList) ::
            JValue.num 1 :: JValue.num 1 :: [])))
          (some (JValue.arr (JValue.str (("RECT").toList) ::
            JValue.num 1 :: JValue.num 2 :: JValue.num 0 :: [])))
          0 0 (some 360) Option.none Option.none) =
      some (.ok (KFootprintPad.mk (("2").toList) PadType.ThruHole
        PadShape.Rect
        (KPosition.mk ((0 : ℚ) * footprintScale)
          (-(0 : ℚ) * footprintScale) (some 0))
        (1 * footprintScale, 2 * footprintScale)
        (some (DrillDefinition.mk false (1 * footprintScale)
          (some (1 * footprintScale))
          (some ((0 : ℚ) * footprintScale, (0 : ℚ) * footprintScale))))
        (PcbLayer.FMask :: PcbLayer.BMask :: PcbLayer.allCopper)
        (some (2 * footprintScale))
        (some (max ((0 : ℚ) * footprintScale) 0)) Option.none)) :=
  ⟨by norm_num, by decide, by rfl⟩

/-- C6 (amended): for a pad whose hole is `[shape, p1, p2]` with shape
`SLOT` or `ROUND`, the hole stage succeeds exactly when
`hole_rotation.abs() as u32 % 360` (truncating cast, saturating at
`u32::MAX`) is 0, 90, 180 or 270 — not only for literal rotations
0/90/180/270; residues 0/180 keep `(p1, p2)`, residues 90/270 swap to
`(p2, p1)`, any other residue is `UnsupportedDrillRotation`; the drill is
oval exactly for `SLOT`; a missing rotation behaves like residue 0; and a
`null` hole leaves the SMD pad untouched (no drill). -/
theorem c6_hole_translation (pad : EasyPad) (kiPad : KFootprintPad)
    (holeShape : List JValue) (p1 p2 : ℚ) (shapeStr : List Char)
    (hhole : pad.hole = some (JValue.arr holeShape))
    (h1 : (holeShape.get? 1).bind JValue.asNum = some p1)
    (h2 : (holeShape.get? 2).bind JValue.asNum = some p2)
    (h0 : (holeShape.get? 0).bind JValue.asStr = some shapeStr)
    (hs : shapeStr = ("SLOT").toList ∨ shapeStr = ("ROUND").toList) :
    (pad.hole_rotation = Option.none →
      padHoleStage pad kiPad = some (.ok { kiPad with
        pad_type := PadType.ThruHole
        drill := some
          { oval := shapeStr = ("SLOT").toList
            diameter := p1 * footprintScale
            width := some (p2 * footprintScale)
            offset := some (pad.hole_offset_x * footprintScale,
              pad.hole_offset_y * footprintScale) } })) ∧
    (∀ hr : ℚ, pad.hole_rotation = some hr →
      (((∃ q, padHoleStage pad kiPad = some (.ok q)) ↔
        (holeRotU32Mod360 hr = 0 ∨ holeRotU32Mod360 hr = 90 ∨
         holeRotU32Mod360 hr = 180 ∨ holeRotU32Mod360 hr = 270)) ∧
       (holeRotU32Mod360 hr = 0 ∨ holeRotU32Mod360 hr = 180 →
         padHoleStage pad kiPad = some (.ok { kiPad with
           pad_type := PadType.ThruHole
           drill := some
             { oval := shapeStr = ("SLOT").toList
               diameter := p1 * footprintScale
               width := some (p2 * footprintScale)
               offset := some (pad.hole_offset_x * footprintScale,
                 pad.hole_offset_y * footprintScale) } })) ∧
       (holeRotU32Mod360 hr = 90 ∨ holeRotU32Mod360 hr = 270 →
         padHoleStage pad kiPad = some (.ok { kiPad with
           pad_type := PadType.ThruHole
           drill := some
             { oval := shapeStr = ("SLOT").toList
               diameter := p2 * footprintScale
               width := some (p1 * footprintScale)
               offset := some (pad.hole_offset_x * footprintScale,
                 pad.hole_offset_y * footprintScale) } })) ∧
       (¬(holeRotU32Mod360 hr = 0 ∨ holeRotU32Mod360 hr = 90 ∨
          holeRotU32Mod360 hr = 180 ∨ holeRotU32Mod360 hr = 270) →
         padHoleStage pad kiPad =
           some (.error (FootprintConverterError.UnsupportedDrillRotation
             (holeRotU32Mod360 hr)))))) ∧
    (∀ (pad2 : EasyPad) (kp2 : KFootprintPad), pad2.hole = some JValue.null →
      padHoleStage pad2 kp2 = some (.ok kp2)) := by
  refine ⟨?_, ?_, ?_⟩
  · intro hnone
    simp only [padHoleStage, hhole, h1, h2, h0, hnone]
    rw [if_pos hs]
  · intro hr hrot
    have hred : padHoleStage pad kiPad =
        (if holeRotU32Mod360 hr = 0 ∨ holeRotU32Mod360 hr = 180 then
          some (.ok { kiPad with
            pad_type := PadType.ThruHole
            drill := some
              { oval := shapeStr = ("SLOT").toList
                diameter := p1 * footprintScale
                width := some (p2 * footprintScale)
                offset := some (pad.hole_offset_x * footprintScale,
                  pad.hole_offset_y * footprintScale) } })
        else if holeRotU32Mod360 hr = 90 ∨ holeRotU32Mod360 hr = 270 then
          some (.ok { kiPad with
            pad_type := PadType.ThruHole
            drill := some
              { oval := shapeStr = ("SLOT").toList
                diameter := p2 * footprintScale
                width := some (p1 * footprintScale)
                offset := some (pad.hole_offset_x * footprintScale,
                  pad.hole_offset_y * footprintScale) } })
        else
          some (.error (FootprintConverterError.UnsupportedDrillRotation
            (holeRotU32Mod360 hr)))) := by
      simp only [padHoleStage, hhole, h1, h2, h0, hrot]
      rw [if_pos hs]
      by_cases h180 : holeRotU32Mod360 hr = 0 ∨ holeRotU32Mod360 hr = 180
      · rw [if_pos h180, if_pos h180] <;> rfl
      · rw [if_neg h180, if_neg h180]
        by_cases h270 : holeRotU32Mod360 hr = 90 ∨ holeRotU32Mod360 hr = 270
        · rw [if_pos h270, if_pos h270] <;> rfl
        · rw [if_neg h270, if_neg h270] <;> rfl
    refine ⟨⟨?_, ?_⟩, ?_, ?_, ?_⟩
    · rintro ⟨q, hq⟩
      rw [hred] at hq
      by_cases h180 : holeRotU32Mod360 hr = 0 ∨ holeRotU32Mod360 hr = 180
      · rcases h180 with h | h
        · exact Or.inl h
        · exact Or.inr (Or.inr (Or.inl h))
      · rw [if_neg h180] at hq
        by_cases h270 : holeRotU32Mod360 hr = 90 ∨ holeRotU32Mod360 hr = 270
        · rcases h270 with h | h
          · exact Or.inr (Or.inl h)
          · exact Or.inr (Or.inr (Or.inr h))
        · rw [if_neg h270] at hq
          simp at hq
    · intro hfour
      rcases hfour with h | h | h | h
      · exact ⟨_, by rw [hred, if_pos (Or.inl h)]⟩
      · have hne : ¬(holeRotU32Mod360 hr = 0 ∨ holeRotU32Mod360 hr = 180) := by
          omega
        exact ⟨_, by rw [hred, if_neg hne, if_pos (Or.inl h)]⟩
      · exact ⟨_, by rw [hred, if_pos (Or.inr h)]⟩
      · have hne : ¬(holeRotU32Mod360 hr = 0 ∨ holeRotU32Mod360 hr = 180) := by
          omega
        exact ⟨_, by rw [hred, if_neg hne, if_pos (Or.inr h)]⟩
    · intro h4
      rw [hred, if_pos h4]
    · intro h4
      have hne : ¬(holeRotU32Mod360 hr = 0 ∨ holeRotU32Mod360 hr = 180) := by
        rcases h4 with h | h <;> omega
      rw [hred, if_neg hne, if_pos h4]
    · intro hn
      have hn1 : ¬(holeRotU32Mod360 hr = 0 ∨ holeRotU32Mod360 hr = 180) := by
        omega
      have hn2 : ¬(holeRotU32Mod360 hr = 90 ∨ holeRotU32Mod360 hr = 270) := by
        omega
      rw [hred, if_neg hn1, if_neg hn2]
  · intro pad2 kp2 hnull
    simp only [padHoleStage, hnull]

/-- Witness for `c6_hole_translation`: a `SLOT` hole with rotation 90
swaps the two drill parameters and yields an oval drill. -/
theorem c6_witness :
    padHoleStage
        (EasyPad.mk (("3").toList) 0 0 0
          (some (JValue.arr (JValue.str (("SLOT").toList) ::
            JValue.num 3 :: JValue.num 4 :: [])))
          Option.none 1 2 (some 90) Option.none Option.none)
        (KFootprintPad.mk (("3").toList) PadType.Smd PadShape.Circle
          (KPosition.mk 0 0 Option.none) (0, 0) Option.none []
          Option.none Option.none Option.none) =
      some (.ok (KFootprintPad.mk (("3").toList) PadType.ThruHole
        PadShape.Circle (KPosition.mk 0 0 Option.none) (0, 0)
        (some (DrillDefinition.mk true (4 * footprintScale)
          (some (3 * footprintScale))
          (some ((1 : ℚ) * footprintScale, (2 : ℚ) * footprintScale))))
        [] Option.none Option.none Option.none)) :=
  ((c6_hole_translation
      (EasyPad.mk (("3").toList) 0 0 0
        (some (JValue.arr (JValue.str (("SLOT").toList) ::
          JValue.num 3 :: JValue.num 4 :: [])))
        Option.none 1 2 (some 90) Option.none Option.none)
      (KFootprintPad.mk (("3").toList) PadType.Smd PadShape.Circle
        (KPosition.mk 0 0 Option.none) (0, 0) Option.none []
        Option.none Option.none Option.none)
      (JValue.str (("SLOT").toList) :: JValue.num 3 :: JValue.num 4 :: [])
      3 4 (("SLOT").toList) rfl rfl rfl rfl (Or.inl rfl)).2.1 90 rfl).2.2.1
    (Or.inl (by decide))

/-- Inversion for `mapM` over `Option` followed by `flatten`: every
element of the flattened result comes from the image of some input. -/
theorem mapM_flatten_mem {α β : Type} (f : α → Option (List β)) :
    ∀ (l : List α) (ls : List (List β)), l.mapM f = some ls →
      ∀ x ∈ ls.flatten, ∃ a ∈ l, ∃ ys, f a = some ys ∧ x ∈ ys := by
  intro l
  induction l with
  | nil =>
    intro ls h x hx
    simp only [List.mapM_nil] at h
    obtain rfl := Option.some.inj h
    simp at hx
  | cons a l ih =>
    intro ls h x hx
    rw [List.mapM_cons] at h
    cases hfa : f a with
    | none => rw [hfa] at h; simp at h
    | some ys =>
      rw [hfa] at h
      cases hml : l.mapM f with
      | none => rw [hml] at h; simp at h
      | some ls2 =>
        rw [hml] at h
        simp at h
        obtain rfl := h.symm
        simp only [List.flatten_cons, List.mem_append] at hx
        rcases hx with hx | hx
        · exact ⟨a, List.mem_cons_self _ _, ys, hfa, hx⟩
        · obtain ⟨b, hb, zs, hz, hxz⟩ := ih ls2 hml x hx
          exact ⟨b, List.mem_cons_of_mem _ hb, zs, hz, hxz⟩

/-- Every shape emitted by the standalone-shape loop carries the given
layer and the scaled stroke width. -/
theorem emitStandalone_mem (layer : PcbLayer) (sw scale : ℚ) (filled : Bool) :
    ∀ (cmds : List PathCommand) (shapes : List EmittedShape),
      emitStandalone layer sw scale filled cmds = some shapes →
      ∀ s ∈ shapes, s.layerOf = layer ∧ s.widthOf = some (sw * scale) := by
  intro cmds
  induction cmds with
  | nil =>
    intro shapes h s hs
    simp only [emitStandalone] at h
    obtain rfl := Option.some.inj h
    simp at hs
  | cons c rest ih =>
    intro shapes h s hs
    cases c with
    | Circle center radius =>
      simp only [emitStandalone] at h
      split at h
      · simp at h
      · rw [Option.map_eq_some'] at h
        obtain ⟨tl, htl, hsh⟩ := h
        subst hsh
        rcases List.mem_cons.mp hs with rfl | hmem
        · exact ⟨rfl, rfl⟩
        · exact ih tl htl s hmem
    | Rectangle start w hgt rot cr =>
      simp only [emitStandalone] at h
      split at h
      · simp at h
      · split at h
        · rw [Option.map_eq_some'] at h
          obtain ⟨tl, htl, hsh⟩ := h
          subst hsh
          rcases List.mem_cons.mp hs with rfl | hmem
          · exact ⟨rfl, rfl⟩
          · exact ih tl htl s hmem
        · simp at h
    | MoveTo p => simp [emitStandalone] at h
    | LineTo p => simp [emitStandalone] at h
    | ArcTo e r2 => simp [emitStandalone] at h
    | CenterArcTo e r2 => simp [emitStandalone] at h

/-- Every shape emitted by `populate_footprint_shapes` carries the given
layer and the scaled stroke width `stroke_width * scale_factor`. -/
theorem populateShapes_mem (arcMid : Point2D → Point2D → ℚ → Point2D)
    (interp : Point2D → Point2D → ℚ → ℚ → List Point2D) :
    ∀ (fuel : Nat) (paths : List JValue) (layer : PcbLayer) (sw : ℚ)
      (filled : Bool) (scale : ℚ) (offset : Option Point2D)
      (shapes : List EmittedShape),
      populateShapes arcMid interp fuel paths layer sw filled scale offset =
        some shapes →
      ∀ s ∈ shapes, s.layerOf = layer ∧ s.widthOf = some (sw * scale) := by
  intro fuel
  induction fuel with
  | zero =>
    intro paths layer sw filled scale offset shapes h
    simp [populateShapes] at h
  | succ fuel ih =>
    intro paths layer sw filled scale offset shapes h s hs
    simp only [populateShapes] at h
    split at h
    · obtain rfl := Option.some.inj h
      simp at hs
    · split at h
      · rw [Option.map_eq_some'] at h
        obtain ⟨ls, hml, hfl⟩ := h
        subst hfl
        obtain ⟨a, ha, ys, hys, hsy⟩ := mapM_flatten_mem _ paths ls hml s hs
        cases a with
        | arr sub => exact ih sub layer sw filled scale offset ys hys s hsy
        | null => simp at hys
        | bool b => simp at hys
        | num q => simp at hys
        | str st => simp at hys
      · cases hparse : parse_path_expression paths scale with
        | none => rw [hparse] at h; simp at h
        | some path0 =>
          simp only [hparse] at h
          split at h
          · exact emitStandalone_mem layer sw scale filled _ shapes h s hs
          · split at h
            all_goals split at h
            all_goals first
              | (obtain rfl := Option.some.inj h
                 obtain rfl := List.mem_singleton.mp hs
                 exact ⟨rfl, rfl⟩)
              | (rw [Option.map_eq_some'] at h
                 obtain ⟨ps, hps, hsh⟩ := h
                 subst hsh
                 obtain rfl := List.mem_singleton.mp hs
                 exact ⟨rfl, rfl⟩)

/-- One mechanical-fill loop iteration: it only prepends a well-formed
NPTH pad (for `CIRCLE`) or prepends `Edge.Cuts` shapes of scaled width
`0.05` (for anything else). -/
theorem mechFillStep_sound (arcMid : Point2D → Point2D → ℚ → Point2D)
    (interp : Point2D → Point2D → ℚ → ℚ → List Point2D) (fuel : Nat)
    (subPath : JValue)
    (acc : Option (Prod (List KFootprintPad) (List EmittedShape)))
    (pads : List KFootprintPad) (shapes : List EmittedShape)
    (h : mechFillStep arcMid interp fuel subPath acc = some (pads, shapes)) :
    ∃ pads0 shapes0, acc = some (pads0, shapes0) ∧
      (∀ p ∈ pads, mechPadProp p ∨ p ∈ pads0) ∧
      (∀ s ∈ shapes, mechShapeProp s ∨ s ∈ shapes0) := by
  simp only [mechFillStep] at h
  cases acc with
  | none => simp at h
  | some acc0 =>
    obtain ⟨pads0, shapes0⟩ := acc0
    simp only at h
    cases harr : subPath.asArr with
    | none => simp [harr] at h
    | some path =>
      simp only [harr] at h
      cases hhd : path.head? with
      | none => simp [hhd] at h
      | some h0 =>
        simp only [hhd] at h
        refine ⟨pads0, shapes0, rfl, ?_⟩
        split at h
        · -- CIRCLE branch
          split at h
          · simp at h
            obtain ⟨rfl, rfl⟩ := h
            refine ⟨?_, fun s hs => Or.inr hs⟩
            intro p hp
            rcases List.mem_cons.mp hp with rfl | hp
            · exact Or.inl ⟨rfl, rfl, rfl, rfl, rfl, rfl, _, rfl, rfl⟩
            · exact Or.inr hp
          · simp at h
        · -- populate branch
          cases hps : populateShapes arcMid interp fuel path PcbLayer.EdgeCuts
              (0.05 : ℚ) false footprintScale Option.none with
          | none => rw [hps] at h; simp at h
          | some newShapes =>
            rw [hps] at h
            simp at h
            obtain ⟨rfl, rfl⟩ := h
            refine ⟨fun p hp => Or.inr hp, ?_⟩
            intro s hs
            rcases List.mem_append.mp hs with hs | hs
            · exact Or.inl
                ⟨(populateShapes_mem arcMid interp fuel path _ _ _ _ _ _ hps
                    s hs).1,
                  (populateShapes_mem arcMid interp fuel path _ _ _ _ _ _ hps
                    s hs).2⟩
            · exact Or.inr hs

/-- Folding the mechanical-fill step over any sub-path list from the
empty accumulator yields only well-formed NPTH pads and `Edge.Cuts`
shapes of scaled width. -/
theorem mechFold_mem (arcMid : Point2D → Point2D → ℚ → Point2D)
    (interp : Point2D → Point2D → ℚ → ℚ → List Point2D) (fuel : Nat) :
    ∀ (l : List JValue) (pads : List KFootprintPad)
      (shapes : List EmittedShape),
      l.foldr (mechFillStep arcMid interp fuel) (some ([], [])) =
        some (pads, shapes) →
      (∀ p ∈ pads, mechPadProp p) ∧ (∀ s ∈ shapes, mechShapeProp s) := by
  intro l
  induction l with
  | nil =>
    intro pads shapes h
    simp only [List.foldr_nil] at h
    obtain h2 := Option.some.inj h
    obtain ⟨rfl, rfl⟩ := Prod.mk.injEq _ _ _ _ ▸ h2
    exact ⟨fun p hp => absurd hp (List.not_mem_nil p),
      fun s hs => absurd hs (List.not_mem_nil s)⟩
  | cons a l ihl =>
    intro pads shapes h
    rw [List.foldr_cons] at h
    obtain ⟨pads0, shapes0, hacc, hp, hsx⟩ :=
      mechFillStep_sound arcMid interp fuel a _ pads shapes h
    obtain ⟨hp0, hs0⟩ := ihl pads0 shapes0 hacc
    constructor
    · intro p hpm
      rcases hp p hpm with hgood | hold
      · exact hgood
      · exact hp0 p hold
    · intro s hsm
      rcases hsx s hsm with hgood | hold
      · exact hgood
      · exact hs0 s hold

/-- C8 counterexample: a `MULTI` mechanical fill with the non-circle
sub-path `M 0 0 L 100 0` emits an `Edge.Cuts` line whose stroke width is
`0.05 * 0.0254 = 0.00127`, not `0.05` millimetres: the `0.05` constant is
further multiplied by the mil-to-mm scale factor inside
`populate_footprint_shapes`. -/
theorem c8_counterexample :
    translateMechFill (fun _ _ _ => Point2D.mk 0 0)
        (fun _ _ _ _ => ([] : List Point2D)) 1
        (EasyLayer.mk (("MULTI").toList) [])
        (JValue.arr (JValue.arr (JValue.str (("M").toList) :: JValue.num 0 ::
          JValue.num 0 :: JValue.str (("L").toList) :: JValue.num 100 ::
          JValue.num 0 :: []) :: [])) =
      some ([], [EmittedShape.line
        (Point2D.mk ((0 : ℚ) * footprintScale) (-(0 : ℚ) * footprintScale))
        (Point2D.mk ((100 : ℚ) * footprintScale) (-(0 : ℚ) * footprintScale))
        PcbLayer.EdgeCuts (some ((0.05 : ℚ) * footprintScale))]) ∧
    (0.05 : ℚ) * footprintScale ≠ (0.05 : ℚ) ∧
    (0.05 : ℚ) * footprintScale = (127 : ℚ) / 100000 :=
  ⟨by rfl, by norm_num [footprintScale], by norm_num [footprintScale]⟩

/-- C8 (amended): for a fill on a `MULTI` layer, every produced pad is a
non-plated through-hole pad on `F.Mask`, `B.Mask` and all copper layers
whose drill diameter equals its pad size, both `2r` times the scale for
the circle radius `r`; a `CIRCLE ex cy r` sub-path produces exactly that
pad at the scaled, `y`-negated centre; every produced shape lies on
`Edge.Cuts` with stroke width `0.05 * 0.0254 = 0.00127` (the claimed
`0.05` is further multiplied by the scale); and a fill on a non-`MULTI`
layer contributes no pads and no shapes. -/
theorem c8_mech_fill (arcMid : Point2D → Point2D → ℚ → Point2D)
    (interp : Point2D → Point2D → ℚ → ℚ → List Point2D) (fuel : Nat)
    (layer : EasyLayer) (fillPath : JValue) (pads : List KFootprintPad)
    (shapes : List EmittedShape)
    (hm : layer.layer_type = ("MULTI").toList)
    (h : translateMechFill arcMid interp fuel layer fillPath =
      some (pads, shapes)) :
    (∀ p ∈ pads, mechPadProp p) ∧
    (∀ s ∈ shapes, mechShapeProp s) ∧
    (∀ cx cy r : ℚ, ∀ extra : List JValue,
      translateMechFill arcMid interp fuel layer
          (JValue.arr (JValue.arr (JValue.str (("CIRCLE").toList) ::
            JValue.num cx :: JValue.num cy :: JValue.num r :: extra) :: [])) =
        some ([KFootprintPad.mk [] PadType.NpThruHole PadShape.Circle
          (KPosition.mk (cx * footprintScale) (-cy * footprintScale)
            Option.none)
          (r * footprintScale * 2, r * footprintScale * 2)
          (some (DrillDefinition.mk false (r * footprintScale * 2)
            Option.none Option.none))
          (PcbLayer.FMask :: PcbLayer.BMask :: PcbLayer.allCopper)
          Option.none Option.none Option.none], [])) ∧
    (∀ (layer2 : EasyLayer) (fp2 : JValue)
      (out : Prod (List KFootprintPad) (List EmittedShape)),
      layer2.layer_type ≠ ("MULTI").toList →
      translateMechFill arcMid interp fuel layer2 fp2 = some out →
      out = ([], [])) := by
  refine ⟨?_, ?_, ?_, ?_⟩
  · -- every pad is a well-formed NPTH pad
    simp only [translateMechFill] at h
    cases hfa : fillPath.asArr with
    | none => simp [hfa] at h
    | some elems =>
      simp only [hfa] at h
      cases hhd : elems.head? with
      | none => simp [hhd] at h
      | some first =>
        simp only [hhd] at h
        rw [if_neg (not_not_intro hm)] at h
        exact (mechFold_mem arcMid interp fuel _ pads shapes h).1
  · -- every shape is an Edge.Cuts shape of scaled width
    simp only [translateMechFill] at h
    cases hfa : fillPath.asArr with
    | none => simp [hfa] at h
    | some elems =>
      simp only [hfa] at h
      cases hhd : elems.head? with
      | none => simp [hhd] at h
      | some first =>
        simp only [hhd] at h
        rw [if_neg (not_not_intro hm)] at h
        exact (mechFold_mem arcMid interp fuel _ pads shapes h).2
  · -- the exact pad produced for a CIRCLE sub-path
    intro cx cy r extra
    simp only [translateMechFill, JValue.asArr, List.head?]
    rw [if_neg (not_not_intro hm)]
    rfl
  · -- non-MULTI fills contribute nothing
    intro layer2 fp2 out hne hout
    simp only [translateMechFill] at hout
    cases hfa : fp2.asArr with
    | none => simp [hfa] at hout
    | some elems =>
      simp only [hfa] at hout
      cases hhd : elems.head? with
      | none => simp [hhd] at hout
      | some first =>
        simp only [hhd] at hout
        rw [if_pos hne] at hout
        exact (Option.some.inj hout).symm

/-- Witness for `c8_mech_fill`: a concrete `MULTI` fill holding one
`CIRCLE` sub-path and one line sub-path. -/
theorem c8_witness :
    ∃ pads shapes,
      translateMechFill (fun _ _ _ => Point2D.mk 0 0)
          (fun _ _ _ _ => ([] : List Point2D)) 1
          (EasyLayer.mk (("MULTI").toList) (("x").toList))
          (JValue.arr
            (JValue.arr (JValue.str (("CIRCLE").toList) :: JValue.num 1 ::
              JValue.num 2 :: JValue.num 3 :: []) ::
             JValue.arr (JValue.str (("M").toList) :: JValue.num 0 ::
              JValue.num 0 :: JValue.str (("L").toList) :: JValue.num 50 ::
              JValue.num 0 :: []) :: [])) = some (pads, shapes) ∧
        (∀ p ∈ pads, mechPadProp p) ∧ (∀ s ∈ shapes, mechShapeProp s) := by
  have h : translateMechFill (fun _ _ _ => Point2D.mk 0 0)
      (fun _ _ _ _ => ([] : List Point2D)) 1
      (EasyLayer.mk (("MULTI").toList) (("x").toList))
      (JValue.arr
        (JValue.arr (JValue.str (("CIRCLE").toList) :: JValue.num 1 ::
          JValue.num 2 :: JValue.num 3 :: []) ::
         JValue.arr (JValue.str (("M").toList) :: JValue.num 0 ::
          JValue.num 0 :: JValue.str (("L").toList) :: JValue.num 50 ::
          JValue.num 0 :: []) :: [])) =
      some ([KFootprintPad.mk [] PadType.NpThruHole PadShape.Circle
          (KPosition.mk ((1 : ℚ) * footprintScale)
            (-(2 : ℚ) * footprintScale) Option.none)
          ((3 : ℚ) * footprintScale * 2, (3 : ℚ) * footprintScale * 2)
          (some (DrillDefinition.mk false ((3 : ℚ) * footprintScale * 2)
            Option.none Option.none))
          (PcbLayer.FMask :: PcbLayer.BMask :: PcbLayer.allCopper)
          Option.none Option.none Option.none],
        [EmittedShape.line
          (Point2D.mk ((0 : ℚ) * footprintScale) (-(0 : ℚ) * footprintScale))
          (Point2D.mk ((50 : ℚ) * footprintScale) (-(0 : ℚ) * footprintScale))
          PcbLayer.EdgeCuts (some ((0.05 : ℚ) * footprintScale))]) := by rfl
  exact ⟨_, _, h, (c8_mech_fill _ _ _ _ _ _ _ rfl h).1,
    (c8_mech_fill _ _ _ _ _ _ _ rfl h).2.1⟩

/-- C3: for distinct endpoints and a sweep angle with `0 < |θ| < 360`
degrees, the point returned by `get_arc_center` lies exactly (so in
particular within relative error `1e-4`) on the circle of radius
`r = |E-S| / (2 sin(|θ|/2))` through `S` and `E`: there is a centre `O`
at distance `r` from `S`, `E` and the returned point; and the returned
point lies on the side of the chord selected by the sign of `θ`
(positive cross product of `E-S` with its offset from the chord midpoint
for `θ ≥ 0`, negative for `θ < 0`). -/
theorem c3_arc_midpoint (S E : ℝ × ℝ) (θ : ℝ) (hne : S ≠ E)
    (hθ0 : 0 < |θ|) (hθ1 : |θ| < 360) :
    0 < arcRadiusR S E θ ∧
    ∃ O : ℝ × ℝ,
      Real.sqrt ((S.1 - O.1) ^ 2 + (S.2 - O.2) ^ 2) = arcRadiusR S E θ ∧
      Real.sqrt ((E.1 - O.1) ^ 2 + (E.2 - O.2) ^ 2) = arcRadiusR S E θ ∧
      Real.sqrt (((getArcCenterR S E θ).1 - O.1) ^ 2 +
        ((getArcCenterR S E θ).2 - O.2) ^ 2) = arcRadiusR S E θ ∧
      |Real.sqrt (((getArcCenterR S E θ).1 - O.1) ^ 2 +
        ((getArcCenterR S E θ).2 - O.2) ^ 2) - arcRadiusR S E θ| ≤
        (1 / 10000) * arcRadiusR S E θ ∧
      (0 ≤ θ →
        0 < (E.1 - S.1) * ((getArcCenterR S E θ).2 - (S.2 + E.2) / 2) -
          (E.2 - S.2) * ((getArcCenterR S E θ).1 - (S.1 + E.1) / 2)) ∧
      (θ < 0 →
        (E.1 - S.1) * ((getArcCenterR S E θ).2 - (S.2 + E.2) / 2) -
          (E.2 - S.2) * ((getArcCenterR S E θ).1 - (S.1 + E.1) / 2) < 0) := by
  have hπ := Real.pi_pos
  have hθc0 : 0 < |θ| * Real.pi / 180 / 2 := by positivity
  have hθcπ : |θ| * Real.pi / 180 / 2 < Real.pi := by
    nlinarith [mul_pos (sub_pos.mpr hθ1) Real.pi_pos]
  have hdne : E.1 - S.1 ≠ 0 ∨ E.2 - S.2 ≠ 0 := by
    by_contra hcon
    push_neg at hcon
    obtain ⟨h1, h2⟩ := hcon
    exact hne (Prod.ext (by linarith) (by linarith)).symm
  have hdsq : 0 < (E.1 - S.1) ^ 2 + (E.2 - S.2) ^ 2 := by
    rcases hdne with hd | hd
    · nlinarith [pow_two_pos_of_ne_zero hd, sq_nonneg (E.2 - S.2)]
    · nlinarith [pow_two_pos_of_ne_zero hd, sq_nonneg (E.1 - S.1)]
  simp only [getArcCenterR, arcRadiusR]
  set c := Real.sqrt ((E.1 - S.1) ^ 2 + (E.2 - S.2) ^ 2) with hc_def
  set σ := Real.sin (|θ| * Real.pi / 180 / 2) with hσ_def
  set γ := Real.cos (|θ| * Real.pi / 180 / 2) with hγ_def
  set s := (if θ < 0 then (-1 : ℝ) else 1) with hs_def
  have hσpos : 0 < σ := Real.sin_pos_of_pos_of_lt_pi hθc0 hθcπ
  have hσγ : σ ^ 2 + γ ^ 2 = 1 := Real.sin_sq_add_cos_sq _
  have hγ1 : -1 ≤ γ := Real.neg_one_le_cos _
  have hγlt : γ < 1 := by nlinarith [mul_pos hσpos hσpos]
  have hcpos : 0 < c := Real.sqrt_pos.mpr hdsq
  have hc0 : c ≠ 0 := ne_of_gt hcpos
  have hc2 : c ^ 2 = (E.1 - S.1) ^ 2 + (E.2 - S.2) ^ 2 := Real.sq_sqrt hdsq.le
  set r := c / (2 * σ) with hr_def
  have hrpos : 0 < r := div_pos hcpos (mul_pos two_pos hσpos)
  have hc2r : c ^ 2 = 4 * σ ^ 2 * r ^ 2 := by
    rw [hr_def]
    field_simp
    ring
  have hs2 : s * s = 1 := by
    rw [hs_def]
    by_cases hsgn : θ < 0
    · rw [if_pos hsgn]; norm_num
    · rw [if_neg hsgn]; norm_num
  have hperp : Real.sqrt ((-(E.2 - S.2) * s) ^ 2 + ((E.1 - S.1) * s) ^ 2) =
      c := by
    have harg : (-(E.2 - S.2) * s) ^ 2 + ((E.1 - S.1) * s) ^ 2 =
        (E.1 - S.1) ^ 2 + (E.2 - S.2) ^ 2 := by
      linear_combination ((E.1 - S.1) ^ 2 + (E.2 - S.2) ^ 2) * hs2
    rw [harg, ← hc_def]
  rw [hperp]
  clear_value c σ γ s r
  have key : ∀ x y ρ : ℝ, 0 ≤ ρ → x ^ 2 + y ^ 2 = ρ ^ 2 →
      Real.sqrt (x ^ 2 + y ^ 2) = ρ := by
    intro x y ρ h1 h2
    rw [h2]
    exact Real.sqrt_sq h1
  have mainS : ∀ ε : ℝ, ε * ε = 1 →
      (ε * ((E.1 - S.1) / 2) - (E.2 - S.2) * s / c * (r * γ)) ^ 2 +
        (ε * ((E.2 - S.2) / 2) + (E.1 - S.1) * s / c * (r * γ)) ^ 2 =
      r ^ 2 := by
    intro ε hε
    have expand : (ε * ((E.1 - S.1) / 2) - (E.2 - S.2) * s / c * (r * γ)) ^ 2 +
        (ε * ((E.2 - S.2) / 2) + (E.1 - S.1) * s / c * (r * γ)) ^ 2 =
        ((E.1 - S.1) ^ 2 + (E.2 - S.2) ^ 2) * (ε * ε) / 4 +
          ((E.1 - S.1) ^ 2 + (E.2 - S.2) ^ 2) * (s * s) * (r * γ) ^ 2 /
            c ^ 2 := by
      ring
    rw [expand, hε, hs2, ← hc2]
    have hsimpl : c ^ 2 * 1 / 4 + c ^ 2 * 1 * (r * γ) ^ 2 / c ^ 2 =
        c ^ 2 / 4 + (r * γ) ^ 2 := by
      field_simp
    rw [hsimpl, hc2r]
    linear_combination r ^ 2 * hσγ
  have mainM : (-(E.2 - S.2) * s / c * r) ^ 2 + ((E.1 - S.1) * s / c * r) ^ 2 =
      r ^ 2 := by
    have expand : (-(E.2 - S.2) * s / c * r) ^ 2 +
        ((E.1 - S.1) * s / c * r) ^ 2 =
        ((E.1 - S.1) ^ 2 + (E.2 - S.2) ^ 2) * (s * s) * r ^ 2 / c ^ 2 := by
      ring
    rw [expand, hs2, ← hc2]
    field_simp
  refine ⟨hrpos, ⟨(S.1 + E.1) / 2 - -(E.2 - S.2) * s / c * (r * γ),
    (S.2 + E.2) / 2 - (E.1 - S.1) * s / c * (r * γ)⟩, ?_, ?_, ?_, ?_, ?_, ?_⟩
  · exact key _ _ r hrpos.le
      (by linear_combination mainS (-1) (by norm_num))
  · exact key _ _ r hrpos.le
      (by linear_combination mainS 1 (by norm_num))
  · exact key _ _ r hrpos.le (by linear_combination mainM)
  · have hM := key _ _ r hrpos.le (by linear_combination mainM :
      ((S.1 + E.1) / 2 + -(E.2 - S.2) * s / c * (r * (1 - γ)) -
          ((S.1 + E.1) / 2 - -(E.2 - S.2) * s / c * (r * γ))) ^ 2 +
        ((S.2 + E.2) / 2 + (E.1 - S.1) * s / c * (r * (1 - γ)) -
          ((S.2 + E.2) / 2 - (E.1 - S.1) * s / c * (r * γ))) ^ 2 = r ^ 2)
    rw [hM]
    simp only [sub_self, abs_zero]
    positivity
  · intro hθge
    have hs1 : s = 1 := by rw [hs_def, if_neg (not_lt.mpr hθge)]
    have hfac : 0 < r * (1 - γ) * c :=
      mul_pos (mul_pos hrpos (by linarith)) hcpos
    have hcross : (E.1 - S.1) *
          ((S.2 + E.2) / 2 + (E.1 - S.1) * s / c * (r * (1 - γ)) -
            (S.2 + E.2) / 2) -
        (E.2 - S.2) *
          ((S.1 + E.1) / 2 + -(E.2 - S.2) * s / c * (r * (1 - γ)) -
            (S.1 + E.1) / 2) = s * (r * (1 - γ) * c) := by
      have expand2 : (E.1 - S.1) *
            ((S.2 + E.2) / 2 + (E.1 - S.1) * s / c * (r * (1 - γ)) -
              (S.2 + E.2) / 2) -
          (E.2 - S.2) *
            ((S.1 + E.1) / 2 + -(E.2 - S.2) * s / c * (r * (1 - γ)) -
              (S.1 + E.1) / 2) =
          ((E.1 - S.1) ^ 2 + (E.2 - S.2) ^ 2) * s * (r * (1 - γ)) / c := by
        ring
      rw [expand2, ← hc2]
      field_simp
      ring
    rw [hcross, hs1, one_mul]
    exact hfac
  · intro hθlt
    have hs1 : s = -1 := by rw [hs_def, if_pos hθlt]
    have hfac : 0 < r * (1 - γ) * c :=
      mul_pos (mul_pos hrpos (by linarith)) hcpos
    have hcross : (E.1 - S.1) *
          ((S.2 + E.2) / 2 + (E.1 - S.1) * s / c * (r * (1 - γ)) -
            (S.2 + E.2) / 2) -
        (E.2 - S.2) *
          ((S.1 + E.1) / 2 + -(E.2 - S.2) * s / c * (r * (1 - γ)) -
            (S.1 + E.1) / 2) = s * (r * (1 - γ) * c) := by
      have expand2 : (E.1 - S.1) *
            ((S.2 + E.2) / 2 + (E.1 - S.1) * s / c * (r * (1 - γ)) -
              (S.2 + E.2) / 2) -
          (E.2 - S.2) *
            ((S.1 + E.1) / 2 + -(E.2 - S.2) * s / c * (r * (1 - γ)) -
              (S.1 + E.1) / 2) =
          ((E.1 - S.1) ^ 2 + (E.2 - S.2) ^ 2) * s * (r * (1 - γ)) / c := by
        ring
      rw [expand2, ← hc2]
      field_simp
      ring
    rw [hcross, hs1]
    linarith

/-- Witness for `c3_arc_midpoint`: the semicircle from `(0,0)` to
`(2,0)` with a 180-degree sweep. -/
theorem c3_witness :
    0 < arcRadiusR ((0 : ℝ), (0 : ℝ)) ((2 : ℝ), (0 : ℝ)) 180 ∧
    ∃ O : ℝ × ℝ,
      Real.sqrt (((((0 : ℝ), (0 : ℝ)) : ℝ × ℝ).1 - O.1) ^ 2 +
        ((((0 : ℝ), (0 : ℝ)) : ℝ × ℝ).2 - O.2) ^ 2) =
        arcRadiusR ((0 : ℝ), (0 : ℝ)) ((2 : ℝ), (0 : ℝ)) 180 ∧
      Real.sqrt (((((2 : ℝ), (0 : ℝ)) : ℝ × ℝ).1 - O.1) ^ 2 +
        ((((2 : ℝ), (0 : ℝ)) : ℝ × ℝ).2 - O.2) ^ 2) =
        arcRadiusR ((0 : ℝ), (0 : ℝ)) ((2 : ℝ), (0 : ℝ)) 180 ∧
      Real.sqrt (((getArcCenterR ((0 : ℝ), (0 : ℝ)) ((2 : ℝ), (0 : ℝ)) 180).1 -
          O.1) ^ 2 +
        ((getArcCenterR ((0 : ℝ), (0 : ℝ)) ((2 : ℝ), (0 : ℝ)) 180).2 -
          O.2) ^ 2) =
        arcRadiusR ((0 : ℝ), (0 : ℝ)) ((2 : ℝ), (0 : ℝ)) 180 ∧
      |Real.sqrt (((getArcCenterR ((0 : ℝ), (0 : ℝ)) ((2 : ℝ), (0 : ℝ)) 180).1 -
          O.1) ^ 2 +
        ((getArcCenterR ((0 : ℝ), (0 : ℝ)) ((2 : ℝ), (0 : ℝ)) 180).2 -
          O.2) ^ 2) -
          arcRadiusR ((0 : ℝ), (0 : ℝ)) ((2 : ℝ), (0 : ℝ)) 180| ≤
        (1 / 10000) * arcRadiusR ((0 : ℝ), (0 : ℝ)) ((2 : ℝ), (0 : ℝ)) 180 ∧
      ((0 : ℝ) ≤ 180 →
        0 < ((((2 : ℝ), (0 : ℝ)) : ℝ × ℝ).1 - (((0 : ℝ), (0 : ℝ)) : ℝ × ℝ).1) *
            ((getArcCenterR ((0 : ℝ), (0 : ℝ)) ((2 : ℝ), (0 : ℝ)) 180).2 -
              ((((0 : ℝ), (0 : ℝ)) : ℝ × ℝ).2 +
                (((2 : ℝ), (0 : ℝ)) : ℝ × ℝ).2) / 2) -
          ((((2 : ℝ), (0 : ℝ)) : ℝ × ℝ).2 - (((0 : ℝ), (0 : ℝ)) : ℝ × ℝ).2) *
            ((getArcCenterR ((0 : ℝ), (0 : ℝ)) ((2 : ℝ), (0 : ℝ)) 180).1 -
              ((((0 : ℝ), (0 : ℝ)) : ℝ × ℝ).1 +
                (((2 : ℝ), (0 : ℝ)) : ℝ × ℝ).1) / 2)) ∧
      ((180 : ℝ) < 0 →
        ((((2 : ℝ), (0 : ℝ)) : ℝ × ℝ).1 - (((0 : ℝ), (0 : ℝ)) : ℝ × ℝ).1) *
            ((getArcCenterR ((0 : ℝ), (0 : ℝ)) ((2 : ℝ), (0 : ℝ)) 180).2 -
              ((((0 : ℝ), (0 : ℝ)) : ℝ × ℝ).2 +
                (((2 : ℝ), (0 : ℝ)) : ℝ × ℝ).2) / 2) -
          ((((2 : ℝ), (0 : ℝ)) : ℝ × ℝ).2 - (((0 : ℝ), (0 : ℝ)) : ℝ × ℝ).2) *
            ((getArcCenterR ((0 : ℝ), (0 : ℝ)) ((2 : ℝ), (0 : ℝ)) 180).1 -
              ((((0 : ℝ), (0 : ℝ)) : ℝ × ℝ).1 +
                (((2 : ℝ), (0 : ℝ)) : ℝ × ℝ).1) / 2) < 0) :=
  c3_arc_midpoint ((0 : ℝ), (0 : ℝ)) ((2 : ℝ), (0 : ℝ)) 180
    (by norm_num [Prod.ext_iff])
    (by rw [abs_of_pos] <;> norm_num)
    (by rw [abs_of_pos] <;> norm_num)

/-- A whitespace character is skipped by the tokenizer. -/
theorem tokenize_ws {F : Type} (fm : FloatModel F) (c : Char) (cs : List Char)
    (h : isWs c = true) : tokenize fm (c :: cs) = tokenize fm cs := by
  show tokenizeGo fm (cs.length + 1) (c :: cs) = tokenize fm cs
  simp only [tokenizeGo]
  rw [if_pos h]
  rfl

/-- An opening parenthesis emits `openParen`. -/
theorem tokenize_open {F : Type} (fm : FloatModel F) (cs : List Char) :
    tokenize fm ('(' :: cs) = (tokenize fm cs).map (Token.openParen :: ·) := by
  show tokenizeGo fm (cs.length + 1) ('(' :: cs) = _
  simp only [tokenizeGo]
  rw [if_neg (by decide), if_pos trivial]
  rfl

/-- A closing parenthesis emits `closeParen`. -/
theorem tokenize_close {F : Type} (fm : FloatModel F) (cs : List Char) :
    tokenize fm (')' :: cs) = (tokenize fm cs).map (Token.closeParen :: ·) := by
  show tokenizeGo fm (cs.length + 1) (')' :: cs) = _
  simp only [tokenizeGo]
  rw [if_neg (by decide), if_neg (by decide), if_pos trivial]
  rfl

/-- A legal terminator is not an identifier character. -/
theorem identTerm_not_ident {d : Char} (h : isIdentTerm d = true) :
    isIdentChar d = false := by
  simp only [isIdentTerm, Bool.or_eq_true, decide_eq_true_eq] at h
  rcases h with ((h | h) | h) | h <;> subst h <;> decide

/-- Splitting a quote-free content run off the character stream. -/
theorem span_quote (cs : List Char) :
    ∀ (s : List Char), '"' ∉ s →
      (s ++ '"' :: cs).takeWhile (fun d => d ≠ '"') = s ∧
      (s ++ '"' :: cs).dropWhile (fun d => d ≠ '"') = '"' :: cs := by
  intro s
  induction s with
  | nil =>
    intro _
    constructor
    · simp [List.takeWhile_cons]
    · simp [List.dropWhile_cons]
  | cons c s' ih =>
    intro hnot
    have hc : c ≠ '"' := fun h => hnot (h ▸ List.mem_cons_self _ _)
    have hrest : '"' ∉ s' := fun h => hnot (List.mem_cons_of_mem _ h)
    obtain ⟨iht, ihd⟩ := ih hrest
    constructor
    · rw [List.cons_append, List.takeWhile_cons, if_pos (decide_eq_true hc),
        iht]
    · rw [List.cons_append, List.dropWhile_cons, if_pos (decide_eq_true hc),
        ihd]

/-- A quoted string emits a `quotedString` token holding everything up to
the closing quote. -/
theorem tokenize_quote {F : Type} (fm : FloatModel F) (s cs : List Char)
    (h : '"' ∉ s) :
    tokenize fm ('"' :: (s ++ '"' :: cs)) =
      (tokenize fm cs).map (Token.quotedString s :: ·) := by
  show tokenizeGo fm ((s ++ '"' :: cs).length + 1) ('"' :: (s ++ '"' :: cs)) = _
  simp only [tokenizeGo]
  rw [if_neg (by decide), if_neg (by decide), if_neg (by decide),
    if_pos trivial]
  obtain ⟨htake, hdrop⟩ := span_quote cs s h
  rw [htake, hdrop]
  simp only [List.drop_succ_cons, List.drop_zero]
  rw [← tokenize_eq_go fm cs _ (by simp; omega)]

/-- Splitting an all-identifier run off the character stream, given the
remainder starts with a terminator (or is empty). -/
theorem span_ident (cs : List Char) (hcs : headTermOkB cs = true) :
    ∀ (s : List Char), s.all isIdentChar = true →
      (s ++ cs).takeWhile isIdentChar = s ∧
      (s ++ cs).dropWhile isIdentChar = cs := by
  intro s
  induction s with
  | nil =>
    intro _
    cases cs with
    | nil => exact ⟨rfl, rfl⟩
    | cons d cs' =>
      have hd : isIdentChar d = false := identTerm_not_ident hcs
      constructor
      · simp [List.takeWhile_cons, hd]
      · simp [List.dropWhile_cons, hd]
  | cons c s' ih =>
    intro hall
    have hc : isIdentChar c = true := by
      have := List.all_eq_true.mp hall c (List.mem_cons_self _ _)
      simpa using this
    have hall' : s'.all isIdentChar = true := by
      rw [List.all_eq_true]
      intro x hx
      exact List.all_eq_true.mp hall x (List.mem_cons_of_mem _ hx)
    obtain ⟨iht, ihd⟩ := ih hall'
    constructor
    · simp [List.takeWhile_cons, hc, iht]
    · simp [List.dropWhile_cons, hc, ihd]

/-- An identifier-character run followed by a terminator (or the end of
input) emits its classification and continues after the run. -/
theorem tokenize_run {F : Type} (fm : FloatModel F) (s cs : List Char)
    (hne : s ≠ []) (hall : s.all isIdentChar = true)
    (hterm : headTermOkB cs = true) :
    tokenize fm (s ++ cs) = (tokenize fm cs).map (classifyRun fm s :: ·) := by
  obtain ⟨c, s', rfl⟩ := List.exists_cons_of_ne_nil hne
  have hc : isIdentChar c = true := by
    have := List.all_eq_true.mp hall c (List.mem_cons_self _ _)
    simpa using this
  obtain ⟨htake, hdrop⟩ := span_ident cs hterm (c :: s') hall
  rw [List.cons_append] at htake hdrop ⊢
  rw [tokenize_identRun fm c (s' ++ cs) hc, htake, hdrop]
  cases cs with
  | nil => simp only [List.head?_nil]
  | cons d cs' =>
    simp only [List.head?_cons]
    rw [if_pos (show isIdentTerm d = true from hterm)]

/-- Soundness of the rendering relation: a rendering of `T` tokenizes to
exactly `T`. -/
theorem rend_tokenize {F : Type} (fm : FloatModel F) :
    ∀ {out : List Char} {T : List (Token F)}, Rend fm out T →
      tokenize fm out = some T := by
  intro out T h
  induction h with
  | nil => rfl
  | ws hws _ ih => rw [tokenize_ws _ _ _ hws, ih]
  | openP _ ih => rw [tokenize_open, ih]; rfl
  | closeP _ ih => rw [tokenize_close, ih]; rfl
  | qstr hq _ ih => rw [tokenize_quote _ _ _ hq, ih]; rfl
  | ident hne hall hp hterm _ ih =>
    rw [tokenize_run _ _ _ hne hall hterm, ih]
    simp [classifyRun, hp]
  | num hne hall hp hterm _ ih =>
    rw [tokenize_run _ _ _ hne hall hterm, ih]
    simp [classifyRun, hp]

/-- Every token emitted by `tokenize` is well formed. -/
theorem tokens_wf_go {F : Type} (fm : FloatModel F) :
    ∀ (n : Nat) (cs : List Char) (T : List (Token F)), cs.length ≤ n →
      tokenize fm cs = some T → ∀ t ∈ T, TokWf fm t := by
  intro n
  induction n with
  | zero =>
    intro cs T hlen htok t ht
    have hnil : cs = [] := List.length_eq_zero.mp (Nat.le_zero.mp hlen)
    subst hnil
    obtain rfl := Option.some.inj htok
    simp at ht
  | succ n ih =>
    intro cs T hlen htok t ht
    cases cs with
    | nil =>
      obtain rfl := Option.some.inj htok
      simp at ht
    | cons c cs' =>
      have hlen' : cs'.length ≤ n := by
        simp only [List.length_cons] at hlen; omega
      by_cases hws : isWs c = true
      · rw [tokenize_ws fm c cs' hws] at htok
        exact ih cs' T hlen' htok t ht
      · by_cases hop : c = '('
        · subst hop
          rw [tokenize_open] at htok
          rw [Option.map_eq_some'] at htok
          obtain ⟨T', hT', hTeq⟩ := htok
          subst hTeq
          rcases List.mem_cons.mp ht with rfl | hmem
          · trivial
          · exact ih cs' T' hlen' hT' t hmem
        · by_cases hcl : c = ')'
          · subst hcl
            rw [tokenize_close] at htok
            rw [Option.map_eq_some'] at htok
            obtain ⟨T', hT', hTeq⟩ := htok
            subst hTeq
            rcases List.mem_cons.mp ht with rfl | hmem
            · trivial
            · exact ih cs' T' hlen' hT' t hmem
          · by_cases hq : c = '"'
            · subst hq
              rw [show tokenize fm ('"' :: cs') =
                tokenizeGo fm (cs'.length + 1) ('"' :: cs') from rfl] at htok
              simp only [tokenizeGo] at htok
              rw [if_neg (by decide), if_neg (by decide), if_neg (by decide),
                if_pos trivial] at htok
              rw [← tokenize_eq_go fm _ _ (length_dropQuote_le cs')] at htok
              rw [Option.map_eq_some'] at htok
              obtain ⟨T', hT', hTeq⟩ := htok
              subst hTeq
              rcases List.mem_cons.mp ht with rfl | hmem
              · show '"' ∉ cs'.takeWhile (fun d => d ≠ '"')
                intro hmem2
                have := List.mem_takeWhile_imp hmem2
                simp at this
              · exact ih _ T' (le_trans (length_dropQuote_le cs') hlen')
                  hT' t hmem
            · by_cases hid : isIdentChar c = true
              · rw [tokenize_identRun fm c cs' hid] at htok
                have hidlen : ((c :: cs').dropWhile isIdentChar).length ≤ n :=
                  le_trans (length_dropIdent_le c cs' hid) hlen'
                have hrun : ∀ (T' : List (Token F)),
                    tokenize fm ((c :: cs').dropWhile isIdentChar) = some T' →
                    t ∈ classifyRun fm ((c :: cs').takeWhile isIdentChar) ::
                      T' → TokWf fm t := by
                  intro T' hT' hmem
                  rcases List.mem_cons.mp hmem with rfl | hmem2
                  · show TokWf fm (classifyRun fm _)
                    cases hparse : fm.parse ((c :: cs').takeWhile isIdentChar)
                      with
                    | some v => simp [classifyRun, hparse, TokWf]
                    | none =>
                      simp only [classifyRun, hparse]
                      refine ⟨?_, ?_, hparse⟩
                      · rw [List.takeWhile_cons, if_pos hid]
                        simp
                      · rw [List.all_eq_true]
                        intro x hx
                        exact List.mem_takeWhile_imp hx
                  · exact ih _ T' hidlen hT' t hmem2
                cases hdrop : ((c :: cs').dropWhile isIdentChar).head? with
                | none =>
                  simp only [hdrop] at htok
                  rw [Option.map_eq_some'] at htok
                  obtain ⟨T', hT', hTeq⟩ := htok
                  subst hTeq
                  exact hrun T' hT' ht
                | some d =>
                  simp only [hdrop] at htok
                  by_cases hterm : isIdentTerm d = true
                  · rw [if_pos hterm] at htok
                    rw [Option.map_eq_some'] at htok
                    obtain ⟨T', hT', hTeq⟩ := htok
                    subst hTeq
                    exact hrun T' hT' ht
                  · rw [if_neg hterm] at htok
                    simp at htok
              · have hoth : isOtherChar c = true := by
                  simp only [isOtherChar, Bool.and_eq_true, Bool.not_eq_true',
                    decide_eq_true_eq, decide_not]
                  refine ⟨⟨⟨⟨?_, ?_⟩, ?_⟩, ?_⟩, ?_⟩
                  · simpa using hws
                  · simpa using hop
                  · simpa using hcl
                  · simpa using hq
                  · simpa using hid
                rw [tokenize_skips_other fm c cs' hoth] at htok
                exact ih cs' T hlen' htok t ht

/-- Every token emitted by `tokenize` is well formed (top level). -/
theorem tokens_wf {F : Type} (fm : FloatModel F) (cs : List Char)
    (T : List (Token F)) (h : tokenize fm cs = some T) :
    ∀ t ∈ T, TokWf fm t :=
  tokens_wf_go fm cs.length cs T le_rfl h

/-- A run of spaces can always prefix a rendering. -/
theorem rend_replicate {F : Type} (fm : FloatModel F) (n : Nat)
    {cs : List Char} {T : List (Token F)} (h : Rend fm cs T) :
    Rend fm (List.replicate n ' ' ++ cs) T := by
  induction n with
  | zero => simpa using h
  | succ n ih =>
    rw [List.replicate_succ, List.cons_append]
    exact Rend.ws (by decide) ih

/-- If no separator is due, the remaining tokens are empty or start with
a closing parenthesis. -/
theorem needsSep_false {F : Type} :
    ∀ (ts : List (Token F)), needsSep ts = false →
      ts = [] ∨ ∃ ts', ts = Token.closeParen :: ts' := by
  intro ts h
  match ts with
  | [] => exact Or.inl rfl
  | Token.closeParen :: ts' => exact Or.inr ⟨ts', rfl⟩
  | Token.openParen :: _ => simp [needsSep] at h
  | Token.identifier _ :: _ => simp [needsSep] at h
  | Token.quotedString _ :: _ => simp [needsSep] at h
  | Token.number _ :: _ => simp [needsSep] at h

/-- A stream inside an open node is never empty (the node's close is
still due). -/
theorem streams_ne_nil {F : Type} {name : List Char}
    {stack : List (List Char)} {ts : List (Token F)}
    (h : Streams (name :: stack) ts) : ts ≠ [] := by
  intro hnil
  subst hnil
  cases h

/-- A reversed identifier run never exposes a space as the accumulator
head. -/
theorem revIdent_no_space (s : List Char) (hne : s ≠ [])
    (hall : s.all isIdentChar = true) (z : List Char) :
    (s.reverse ++ z).head? ≠ some ' ' := by
  cases hr : s.reverse with
  | nil => exact absurd (by simpa using hr) hne
  | cons a t =>
    rw [List.cons_append, List.head?_cons]
    intro h
    obtain rfl := Option.some.inj h
    have hmem : ' ' ∈ s := by
      rw [← List.mem_reverse, hr]
      exact List.mem_cons_self _ _
    have := List.all_eq_true.mp hall ' ' hmem
    exact absurd this (by decide)

/-- A known terminator head makes a legal run terminator. -/
theorem headTermOkB_of_head {e : List Char} {c : Char}
    (h : e.head? = some c) (hc : isIdentTerm c = true) :
    headTermOkB e = true := by
  cases e with
  | nil => simp at h
  | cons a t =>
    rw [List.head?_cons] at h
    obtain rfl := Option.some.inj h
    simpa [headTermOkB] using hc

/-- A head that is `)` or a newline terminates a run. -/
theorem headTermOkB_of_close {e : List Char}
    (h : e.head? = some ')' ∨ e.head? = some '\n') :
    headTermOkB e = true := by
  rcases h with h | h
  · exact headTermOkB_of_head h (by decide)
  · exact headTermOkB_of_head h (by decide)

/-- The close-branch newline decision never panics when the stack is
nonempty and a top-of-stack `effects` has a parent. -/
theorem closeNewline_isSome (sameLine : List Char → Bool) (lc : Bool)
    (name : List Char) (stack₀ : List (List Char)) (lp : Option (List Char))
    (indent' : Nat) (hne : name = ("effects").toList → stack₀ ≠ []) :
    (closeNewline sameLine lc (name :: stack₀) lp indent').isSome = true := by
  cases lc with
  | false => rfl
  | true =>
    simp only [closeNewline, List.head?_cons]
    by_cases heff : name = ("effects").toList
    · obtain ⟨p, s₁, rfl⟩ : ∃ p s₁, stack₀ = p :: s₁ := by
        cases stack₀ with
        | nil => exact absurd rfl (hne heff)
        | cons p s₁ => exact ⟨p, s₁, rfl⟩
      rw [if_pos heff]
      simp only [List.get?]
      repeat' split
      all_goals first | rfl | simp_all
    · rw [if_neg heff]
      repeat' split
      all_goals first | rfl | simp_all

/-- Whatever the close-branch newline decision returns is either empty
or an indentation run followed by (reversed: preceded by) a newline. -/
theorem closeNewline_shape (sameLine : List Char → Bool) (lc : Bool)
    (stack : List (List Char)) (lp : Option (List Char)) (indent' : Nat)
    (nl : List Char)
    (h : closeNewline sameLine lc stack lp indent' = some nl) :
    nl = [] ∨ nl = List.replicate (indent' * 2) ' ' ++ ['\n'] := by
  simp only [closeNewline] at h
  repeat' split at h
  all_goals simp at h
  all_goals subst h
  all_goals first
    | exact Or.inl rfl
    | exact Or.inr rfl

theorem headTermOkB_space (e : List Char) : headTermOkB (' ' :: e) = true :=
  rfl

/-- Simulation of `stringify_tokens` on a structurally valid,
well-formed token stream: the loop succeeds and what it appends to the
accumulator (beyond possibly popping one trailing separator space, which
only happens when it immediately writes a newline) is a rendering of the
remaining tokens. -/
theorem stringify_sim {F : Type} (sameLine : List Char → Bool)
    (fm : FloatModel F)
    (hGood : ∀ v : F, fm.display v ≠ [] ∧
      (fm.display v).all isIdentChar = true ∧
      fm.parse (fm.display v) = some v) :
    ∀ {stack : List (List Char)} {ts : List (Token F)}, Streams stack ts →
      (∀ t ∈ ts, TokWf fm t) →
      ∀ (indent : Nat) (lc : Bool) (lp : Option (List Char))
        (out : List Char),
        stack.length ≤ indent →
        ∃ (emitted : List Char) (popF : Bool),
          stringifyGo sameLine fm ts indent lc stack lp out =
            some (emitted.reverse ++ (if popF then out.tail else out)) ∧
          (popF = true → out.head? = some ' ') ∧
          (popF = true → emitted.head? = some '\n') ∧
          (∀ ts', ts = Token.closeParen :: ts' →
            emitted.head? = some ')' ∨ emitted.head? = some '\n') ∧
          Rend fm emitted ts := by
  intro stack ts hst
  induction hst with
  | done =>
    intro _ indent lc lp out _
    exact ⟨[], false, rfl, by simp, by simp, by simp, Rend.nil⟩
  | @close name stack₀ ts₀ heff hst₀ ih =>
    intro hwf indent lc lp out hlen
    obtain ⟨indent', rfl⟩ : ∃ k, indent = k + 1 := by
      cases indent with
      | zero => simp at hlen
      | succ k => exact ⟨k, rfl⟩
    have hlen' : stack₀.length ≤ indent' := by
      simp only [List.length_cons] at hlen; omega
    have hwf₀ : ∀ t ∈ ts₀, TokWf fm t :=
      fun t htm => hwf t (List.mem_cons_of_mem _ htm)
    have hnlS := closeNewline_isSome sameLine lc name stack₀ lp indent'
      (fun he hnil => heff hnil he)
    obtain ⟨nl, hnl⟩ := Option.isSome_iff_exists.mp hnlS
    have hshape := closeNewline_shape sameLine lc (name :: stack₀) lp indent'
      nl hnl
    have h0 : stringifyGo sameLine fm (Token.closeParen :: ts₀) (indent' + 1)
        lc (name :: stack₀) lp out =
        (match closeNewline sameLine lc (name :: stack₀) lp indent' with
         | Option.none => Option.none
         | some nl0 =>
           stringifyGo sameLine fm ts₀ indent' true stack₀ (some name)
             (if needsSep ts₀ then ' ' :: ')' :: (nl0 ++ out)
              else ')' :: (nl0 ++ out))) := rfl
    by_cases hsep : needsSep ts₀ = true
    · obtain ⟨e₂, p₂, heq₂, hpop₂, hpnl₂, hclose₂, hrend₂⟩ :=
        ih hwf₀ indent' true (some name) (' ' :: ')' :: (nl ++ out)) hlen'
      cases p₂ with
      | true =>
        refine ⟨nl.reverse ++ ')' :: e₂, false, ?_, by simp, by simp, ?_, ?_⟩
        · rw [h0]
          simp only [hnl, if_pos hsep]
          rw [heq₂]
          simp [List.reverse_append, List.append_assoc]
        · intro ts' _
          rcases hshape with rfl | rfl
          · simp
          · simp
        · rcases hshape with rfl | rfl
          · simpa using Rend.closeP hrend₂
          · have hrev : (List.replicate (indent' * 2) ' ' ++ ['\n']).reverse =
                '\n' :: List.replicate (indent' * 2) ' ' := by simp
            rw [hrev]
            exact Rend.ws (by decide)
              (rend_replicate fm _ (Rend.closeP hrend₂))
      | false =>
        refine ⟨nl.reverse ++ ')' :: ' ' :: e₂, false, ?_, by simp, by simp,
          ?_, ?_⟩
        · rw [h0]
          simp only [hnl, if_pos hsep]
          rw [heq₂]
          simp [List.reverse_append, List.append_assoc]
        · intro ts' _
          rcases hshape with rfl | rfl
          · simp
          · simp
        · rcases hshape with rfl | rfl
          · simpa using Rend.closeP (Rend.ws (by decide) hrend₂)
          · have hrev : (List.replicate (indent' * 2) ' ' ++ ['\n']).reverse =
                '\n' :: List.replicate (indent' * 2) ' ' := by simp
            rw [hrev]
            exact Rend.ws (by decide) (rend_replicate fm _
              (Rend.closeP (Rend.ws (by decide) hrend₂)))
    · obtain ⟨e₂, p₂, heq₂, hpop₂, hpnl₂, hclose₂, hrend₂⟩ :=
        ih hwf₀ indent' true (some name) (')' :: (nl ++ out)) hlen'
      have hp₂ : p₂ = false := by
        cases hp : p₂ with
        | false => rfl
        | true => simpa using hpop₂ hp
      subst hp₂
      refine ⟨nl.reverse ++ ')' :: e₂, false, ?_, by simp, by simp, ?_, ?_⟩
      · rw [h0]
        simp only [hnl, if_neg hsep]
        rw [heq₂]
        simp [List.reverse_append, List.append_assoc]
      · intro ts' _
        rcases hshape with rfl | rfl
        · simp
        · simp
      · rcases hshape with rfl | rfl
        · simpa using Rend.closeP hrend₂
        · have hrev : (List.replicate (indent' * 2) ' ' ++ ['\n']).reverse =
              '\n' :: List.replicate (indent' * 2) ' ' := by simp
          rw [hrev]
          exact Rend.ws (by decide)
            (rend_replicate fm _ (Rend.closeP hrend₂))
  | @atomI s name stack₀ ts₀ hst₀ ih =>
    intro hwf indent lc lp out hlen
    obtain ⟨hne, hall, hparse⟩ :=
      hwf (Token.identifier s) (List.mem_cons_self _ _)
    have hwf₀ : ∀ t ∈ ts₀, TokWf fm t :=
      fun t htm => hwf t (List.mem_cons_of_mem _ htm)
    have h0 : stringifyGo sameLine fm (Token.identifier s :: ts₀) indent lc
        (name :: stack₀) lp out =
        stringifyGo sameLine fm ts₀ indent false (name :: stack₀) lp
          (if needsSep ts₀ then ' ' :: (s.reverse ++ out)
           else s.reverse ++ out) := rfl
    by_cases hsep : needsSep ts₀ = true
    · obtain ⟨e₂, p₂, heq₂, hpop₂, hpnl₂, hclose₂, hrend₂⟩ :=
        ih hwf₀ indent false lp (' ' :: (s.reverse ++ out)) hlen
      cases p₂ with
      | true =>
        refine ⟨s ++ e₂, false, ?_, by simp, by simp, ?_, ?_⟩
        · rw [h0, if_pos hsep, heq₂]
          simp [List.reverse_append, List.append_assoc]
        · intro ts' hcon; simp at hcon
        · exact Rend.ident hne hall hparse
            (headTermOkB_of_head (hpnl₂ rfl) (by decide)) hrend₂
      | false =>
        refine ⟨s ++ ' ' :: e₂, false, ?_, by simp, by simp, ?_, ?_⟩
        · rw [h0, if_pos hsep, heq₂]
          simp [List.reverse_append, List.append_assoc]
        · intro ts' hcon; simp at hcon
        · exact Rend.ident hne hall hparse (headTermOkB_space e₂)
            (Rend.ws (by decide) hrend₂)
    · have hsep' : needsSep ts₀ = false := by simpa using hsep
      obtain ⟨ts₁, rfl⟩ : ∃ ts₁, ts₀ = Token.closeParen :: ts₁ := by
        rcases needsSep_false ts₀ hsep' with h | h
        · exact absurd h (streams_ne_nil hst₀)
        · exact h
      obtain ⟨e₂, p₂, heq₂, hpop₂, hpnl₂, hclose₂, hrend₂⟩ :=
        ih hwf₀ indent false lp (s.reverse ++ out) hlen
      have hp₂ : p₂ = false := by
        cases hp : p₂ with
        | false => rfl
        | true => exact absurd (hpop₂ hp) (revIdent_no_space s hne hall out)
      subst hp₂
      refine ⟨s ++ e₂, false, ?_, by simp, by simp, ?_, ?_⟩
      · rw [h0, if_neg hsep, heq₂]
        simp [List.reverse_append, List.append_assoc]
      · intro ts' hcon; simp at hcon
      · exact Rend.ident hne hall hparse
          (headTermOkB_of_close (hclose₂ ts₁ rfl)) hrend₂
  | @atomN v name stack₀ ts₀ hst₀ ih =>
    intro hwf indent lc lp out hlen
    obtain ⟨hne, hall, hparse⟩ := hGood v
    have hwf₀ : ∀ t ∈ ts₀, TokWf fm t :=
      fun t htm => hwf t (List.mem_cons_of_mem _ htm)
    have h0 : stringifyGo sameLine fm (Token.number v :: ts₀) indent lc
        (name :: stack₀) lp out =
        stringifyGo sameLine fm ts₀ indent false (name :: stack₀) lp
          (if needsSep ts₀ then ' ' :: ((fm.display v).reverse ++ out)
           else (fm.display v).reverse ++ out) := rfl
    by_cases hsep : needsSep ts₀ = true
    · obtain ⟨e₂, p₂, heq₂, hpop₂, hpnl₂, hclose₂, hrend₂⟩ :=
        ih hwf₀ indent false lp (' ' :: ((fm.display v).reverse ++ out)) hlen
      cases p₂ with
      | true =>
        refine ⟨fm.display v ++ e₂, false, ?_, by simp, by simp, ?_, ?_⟩
        · rw [h0, if_pos hsep, heq₂]
          simp [List.reverse_append, List.append_assoc]
        · intro ts' hcon; simp at hcon
        · exact Rend.num hne hall hparse
            (headTermOkB_of_head (hpnl₂ rfl) (by decide)) hrend₂
      | false =>
        refine ⟨fm.display v ++ ' ' :: e₂, false, ?_, by simp, by simp,
          ?_, ?_⟩
        · rw [h0, if_pos hsep, heq₂]
          simp [List.reverse_append, List.append_assoc]
        · intro ts' hcon; simp at hcon
        · exact Rend.num hne hall hparse (headTermOkB_space e₂)
            (Rend.ws (by decide) hrend₂)
    · have hsep' : needsSep ts₀ = false := by simpa using hsep
      obtain ⟨ts₁, rfl⟩ : ∃ ts₁, ts₀ = Token.closeParen :: ts₁ := by
        rcases needsSep_false ts₀ hsep' with h | h
        · exact absurd h (streams_ne_nil hst₀)
        · exact h
      obtain ⟨e₂, p₂, heq₂, hpop₂, hpnl₂, hclose₂, hrend₂⟩ :=
        ih hwf₀ indent false lp ((fm.display v).reverse ++ out) hlen
      have hp₂ : p₂ = false := by
        cases hp : p₂ with
        | false => rfl
        | true =>
          exact absurd (hpop₂ hp)
            (revIdent_no_space (fm.display v) hne hall out)
      subst hp₂
      refine ⟨fm.display v ++ e₂, false, ?_, by simp, by simp, ?_, ?_⟩
      · rw [h0, if_neg hsep, heq₂]
        simp [List.reverse_append, List.append_assoc]
      · intro ts' hcon; simp at hcon
      · exact Rend.num hne hall hparse
          (headTermOkB_of_close (hclose₂ ts₁ rfl)) hrend₂
  | @atomQ s name stack₀ ts₀ hst₀ ih =>
    intro hwf indent lc lp out hlen
    have hq : '"' ∉ s := hwf (Token.quotedString s) (List.mem_cons_self _ _)
    have hwf₀ : ∀ t ∈ ts₀, TokWf fm t :=
      fun t htm => hwf t (List.mem_cons_of_mem _ htm)
    have h0 : stringifyGo sameLine fm (Token.quotedString s :: ts₀) indent lc
        (name :: stack₀) lp out =
        stringifyGo sameLine fm ts₀ indent false (name :: stack₀) lp
          (if needsSep ts₀ then ' ' :: '"' :: (s.reverse ++ '"' :: out)
           else '"' :: (s.reverse ++ '"' :: out)) := rfl
    by_cases hsep : needsSep ts₀ = true
    · obtain ⟨e₂, p₂, heq₂, hpop₂, hpnl₂, hclose₂, hrend₂⟩ :=
        ih hwf₀ indent false lp
          (' ' :: '"' :: (s.reverse ++ '"' :: out)) hlen
      cases p₂ with
      | true =>
        refine ⟨'"' :: (s ++ '"' :: e₂), false, ?_, by simp, by simp, ?_, ?_⟩
        · rw [h0, if_pos hsep, heq₂]
          simp [List.reverse_append, List.append_assoc]
        · intro ts' hcon; simp at hcon
        · exact Rend.qstr hq hrend₂
      | false =>
        refine ⟨'"' :: (s ++ '"' :: ' ' :: e₂), false, ?_, by simp, by simp,
          ?_, ?_⟩
        · rw [h0, if_pos hsep, heq₂]
          simp [List.reverse_append, List.append_assoc]
        · intro ts' hcon; simp at hcon
        · exact Rend.qstr hq (Rend.ws (by decide) hrend₂)
    · obtain ⟨e₂, p₂, heq₂, hpop₂, hpnl₂, hclose₂, hrend₂⟩ :=
        ih hwf₀ indent false lp ('"' :: (s.reverse ++ '"' :: out)) hlen
      have hp₂ : p₂ = false := by
        cases hp : p₂ with
        | false => rfl
        | true => simpa using hpop₂ hp
      subst hp₂
      refine ⟨'"' :: (s ++ '"' :: e₂), false, ?_, by simp, by simp, ?_, ?_⟩
      · rw [h0, if_neg hsep, heq₂]
        simp [List.reverse_append, List.append_assoc]
      · intro ts' hcon; simp at hcon
      · exact Rend.qstr hq hrend₂
  | @opn child stack ts₀ hst₀ ih =>
    intro hwf indent lc lp out hlen
    obtain ⟨hcne, hcall, hcparse⟩ :=
      hwf (Token.identifier child)
        (List.mem_cons_of_mem _ (List.mem_cons_self _ _))
    have hwf₀ : ∀ t ∈ ts₀, TokWf fm t := fun t htm =>
      hwf t (List.mem_cons_of_mem _ (List.mem_cons_of_mem _ htm))
    have hlen' : (child :: stack).length ≤ indent + 1 := by
      simp only [List.length_cons]; omega
    set nc : Bool := (!(match (child :: stack).get? 1 with
        | some prev => child = ("effects").toList &&
            (prev = ("name").toList || prev = ("number").toList)
        | Option.none => false) && !sameLine child) with hnc
    set inner : List Char := (if nc then
        List.replicate (indent * 2) ' ' ++ '\n' ::
          (if out.head? = some ' ' then out.tail else out)
      else out) with hinner
    have h0 : stringifyGo sameLine fm
        (Token.openParen :: Token.identifier child :: ts₀) indent lc stack lp
        out =
        stringifyGo sameLine fm ts₀ (indent + 1) false (child :: stack) lp
          (if needsSep ts₀ then ' ' :: (child.reverse ++ '(' :: inner)
           else child.reverse ++ '(' :: inner) := rfl
    clear_value nc inner
    by_cases hsep : needsSep ts₀ = true
    · obtain ⟨e₂, p₂, heq₂, hpop₂, hpnl₂, hclose₂, hrend₂⟩ :=
        ih hwf₀ (indent + 1) false lp
          (' ' :: (child.reverse ++ '(' :: inner)) hlen'
      cases p₂ with
      | true =>
        cases hncv : nc with
        | true =>
          rw [hncv] at hinner
          simp only [if_true] at hinner
          by_cases hsp : out.head? = some ' '
          · rw [if_pos hsp] at hinner
            subst hinner
            refine ⟨'\n' :: (List.replicate (indent * 2) ' ' ++
              '(' :: (child ++ e₂)), true, ?_, fun _ => hsp, by simp, ?_, ?_⟩
            · rw [h0, if_pos hsep, heq₂]
              simp [List.reverse_append, List.append_assoc]
            · intro ts' hcon; simp at hcon
            · exact Rend.ws (by decide) (rend_replicate fm _
                (Rend.openP (Rend.ident hcne hcall hcparse
                  (headTermOkB_of_head (hpnl₂ rfl) (by decide)) hrend₂)))
          · rw [if_neg hsp] at hinner
            subst hinner
            refine ⟨'\n' :: (List.replicate (indent * 2) ' ' ++
              '(' :: (child ++ e₂)), false, ?_, by simp, by simp, ?_, ?_⟩
            · rw [h0, if_pos hsep, heq₂]
              simp [List.reverse_append, List.append_assoc]
            · intro ts' hcon; simp at hcon
            · exact Rend.ws (by decide) (rend_replicate fm _
                (Rend.openP (Rend.ident hcne hcall hcparse
                  (headTermOkB_of_head (hpnl₂ rfl) (by decide)) hrend₂)))
        | false =>
          rw [hncv] at hinner
          rw [if_neg Bool.false_ne_true] at hinner
          subst hinner
          refine ⟨'(' :: (child ++ e₂), false, ?_, by simp, by simp, ?_, ?_⟩
          · rw [h0, if_pos hsep, heq₂]
            simp [List.reverse_append, List.append_assoc]
          · intro ts' hcon; simp at hcon
          · exact Rend.openP (Rend.ident hcne hcall hcparse
              (headTermOkB_of_head (hpnl₂ rfl) (by decide)) hrend₂)
      | false =>
        cases hncv : nc with
        | true =>
          rw [hncv] at hinner
          simp only [if_true] at hinner
          by_cases hsp : out.head? = some ' '
          · rw [if_pos hsp] at hinner
            subst hinner
            refine ⟨'\n' :: (List.replicate (indent * 2) ' ' ++
              '(' :: (child ++ ' ' :: e₂)), true, ?_, fun _ => hsp, by simp,
              ?_, ?_⟩
            · rw [h0, if_pos hsep, heq₂]
              simp [List.reverse_append, List.append_assoc]
            · intro ts' hcon; simp at hcon
            · exact Rend.ws (by decide) (rend_replicate fm _
                (Rend.openP (Rend.ident hcne hcall hcparse
                  (headTermOkB_space e₂) (Rend.ws (by decide) hrend₂))))
          · rw [if_neg hsp] at hinner
            subst hinner
            refine ⟨'\n' :: (List.replicate (indent * 2) ' ' ++
              '(' :: (child ++ ' ' :: e₂)), false, ?_, by simp, by simp,
              ?_, ?_⟩
            · rw [h0, if_pos hsep, heq₂]
              simp [List.reverse_append, List.append_assoc]
            · intro ts' hcon; simp at hcon
            · exact Rend.ws (by decide) (rend_replicate fm _
                (Rend.openP (Rend.ident hcne hcall hcparse
                  (headTermOkB_space e₂) (Rend.ws (by decide) hrend₂))))
        | false =>
          rw [hncv] at hinner
          rw [if_neg Bool.false_ne_true] at hinner
          subst hinner
          refine ⟨'(' :: (child ++ ' ' :: e₂), false, ?_, by simp, by simp,
            ?_, ?_⟩
          · rw [h0, if_pos hsep, heq₂]
            simp [List.reverse_append, List.append_assoc]
          · intro ts' hcon; simp at hcon
          · exact Rend.openP (Rend.ident hcne hcall hcparse
              (headTermOkB_space e₂) (Rend.ws (by decide) hrend₂))
    · have hsep' : needsSep ts₀ = false := by simpa using hsep
      obtain ⟨ts₁, rfl⟩ : ∃ ts₁, ts₀ = Token.closeParen :: ts₁ := by
        rcases needsSep_false ts₀ hsep' with h | h
        · exact absurd h (streams_ne_nil hst₀)
        · exact h
      obtain ⟨e₂, p₂, heq₂, hpop₂, hpnl₂, hclose₂, hrend₂⟩ :=
        ih hwf₀ (indent + 1) false lp (child.reverse ++ '(' :: inner) hlen'
      have hp₂ : p₂ = false := by
        cases hp : p₂ with
        | false => rfl
        | true =>
          exact absurd (hpop₂ hp)
            (revIdent_no_space child hcne hcall ('(' :: inner))
      subst hp₂
      cases hncv : nc with
      | true =>
        rw [hncv] at hinner
        simp only [if_true] at hinner
        by_cases hsp : out.head? = some ' '
        · rw [if_pos hsp] at hinner
          subst hinner
          refine ⟨'\n' :: (List.replicate (indent * 2) ' ' ++
            '(' :: (child ++ e₂)), true, ?_, fun _ => hsp, by simp, ?_, ?_⟩
          · rw [h0, if_neg hsep, heq₂]
            simp [List.reverse_append, List.append_assoc]
          · intro ts' hcon; simp at hcon
          · exact Rend.ws (by decide) (rend_replicate fm _
              (Rend.openP (Rend.ident hcne hcall hcparse
                (headTermOkB_of_close (hclose₂ ts₁ rfl)) hrend₂)))
        · rw [if_neg hsp] at hinner
          subst hinner
          refine ⟨'\n' :: (List.replicate (indent * 2) ' ' ++
            '(' :: (child ++ e₂)), false, ?_, by simp, by simp, ?_, ?_⟩
          · rw [h0, if_neg hsep, heq₂]
            simp [List.reverse_append, List.append_assoc]
          · intro ts' hcon; simp at hcon
          · exact Rend.ws (by decide) (rend_replicate fm _
              (Rend.openP (Rend.ident hcne hcall hcparse
                (headTermOkB_of_close (hclose₂ ts₁ rfl)) hrend₂)))
      | false =>
        rw [hncv] at hinner
        rw [if_neg Bool.false_ne_true] at hinner
        subst hinner
        refine ⟨'(' :: (child ++ e₂), false, ?_, by simp, by simp, ?_, ?_⟩
        · rw [h0, if_neg hsep, heq₂]
          simp [List.reverse_append, List.append_assoc]
        · intro ts' hcon; simp at hcon
        · exact Rend.openP (Rend.ident hcne hcall hcparse
            (headTermOkB_of_close (hclose₂ ts₁ rfl)) hrend₂)

/-- C1: for every token sequence `T` produced by `KiCadParser::tokenize`
on valid KiCad text — formalized as: `T` is the tokenization of some
input and is a balanced stream of named nodes (`Streams [] T`: every
open parenthesis is immediately followed by its node-name identifier,
parentheses balance to a closing top level, and no depth-1 node is named
`effects`, matching text produced from the parsed tree), over a numeric
model whose displayed numbers are nonempty identifier runs that re-parse
to the same value — `stringify_tokens` succeeds on `T` and applying
`tokenize` to the resulting string yields exactly `T` again: the same
tags in the same order with the same identifier/string contents and
numeric values. -/
theorem c1_tokenize_stringify_roundtrip {F : Type}
    (sameLine : List Char → Bool) (fm : FloatModel F)
    (input : List Char) (T : List (Token F))
    (hGood : ∀ v : F, fm.display v ≠ [] ∧
      (fm.display v).all isIdentChar = true ∧
      fm.parse (fm.display v) = some v)
    (hT : tokenize fm input = some T)
    (hstruct : Streams ([] : List (List Char)) T) :
    ∃ out, stringifyTokens sameLine fm T = some out ∧
      tokenize fm out = some T := by
  have hwf : ∀ t ∈ T, TokWf fm t := tokens_wf fm input T hT
  obtain ⟨emitted, popF, heq, hpop, _hnl, _hcl, hrend⟩ :=
    stringify_sim sameLine fm hGood hstruct hwf 0 false Option.none []
      (by simp)
  have hp : popF = false := by
    cases hp : popF with
    | false => rfl
    | true => simpa using hpop hp
  subst hp
  refine ⟨emitted, ?_, rend_tokenize fm hrend⟩
  have h1 : stringifyTokens sameLine fm T =
      (stringifyGo sameLine fm T 0 false [] Option.none []).map
        List.reverse := rfl
  rw [h1, heq]
  simp

/-- Closed instance of C1: the tokenization of `(a (b 0))` survives the
stringify/re-tokenize round trip. -/
theorem c1_witness :
    ∃ out,
      stringifyTokens (fun _ => false) unitFloatModel
        [Token.openParen, Token.identifier ['a'], Token.openParen,
         Token.identifier ['b'], Token.number (), Token.closeParen,
         Token.closeParen] = some out ∧
      tokenize unitFloatModel out =
        some [Token.openParen, Token.identifier ['a'], Token.openParen,
              Token.identifier ['b'], Token.number (), Token.closeParen,
              Token.closeParen] := by
  have hT : tokenize unitFloatModel (("(a (b 0))").toList) =
      some [Token.openParen, Token.identifier ['a'], Token.openParen,
            Token.identifier ['b'], Token.number (), Token.closeParen,
            Token.closeParen] := rfl
  exact c1_tokenize_stringify_roundtrip (fun _ => false) unitFloatModel _ _
    (fun v => match v with | () => ⟨by decide, by decide, rfl⟩) hT
    (Streams.opn (Streams.opn (Streams.atomN
      (Streams.close (fun h => absurd h (by simp))
        (Streams.close (fun _ => by decide) Streams.done)))))

end Jlcrs
